import Mathlib

/-!
Verification of the Numi-orderbook market-data engine against its
natural-language specification.

The development shallowly embeds the relevant Rust code:

* `src/parser.rs`   — the normalized `Event` model (`Side`, `Event`);
* `src/decoder_itch.rs`, `src/decoder_eobi.rs`, `src/decoder_fast.rs`
  — the three wire decoders, embedded as total functions over byte lists;
  a Rust panic (an `unwrap` or an out-of-bounds index) is modelled by
  `Option.none`, so "does not panic" is "returns `some`";
* `src/merge.rs`    — the A/B arbitrated merge loop, embedded as a state
  machine driven by the sequence of packets popped from the input queues;
* `src/orderbook.rs` — the L3 order book (price grid + overflow map +
  node slab with doubly-linked FIFO levels), embedded functionally.

Machine integers: sequence numbers are `u64` in the source and use
wrapping arithmetic there, so they are modelled as `Nat` with explicit
`% 2^64`.  Prices and quantities are `i64`; no claim under study depends
on `i64` overflow, so they are modelled as unbounded `Int`.  Bytes are
`Nat` (the decoders never depend on a byte being `< 256`).
-/

set_option maxHeartbeats 1000000
set_option linter.unusedVariables false

namespace Numi

/-- Side of an order, `parser.rs`: `enum Side { Bid, Ask }`. -/
inductive Side where
  | Bid : Side
  | Ask : Side
deriving DecidableEq, Repr

/-- `decoder_itch.rs::opposite`. -/
def Side.opposite : Side → Side
  | Side.Bid => Side.Ask
  | Side.Ask => Side.Bid

/-- Normalized order event, `parser.rs::Event`.  `order_id`/`instr` are
`u64`/`u32` and never subject to arithmetic, so they are plain `Nat`;
`px`/`qty` are `i64`, modelled as `Int`. -/
inductive Event where
  | add (order_id : Nat) (instr : Nat) (px : Int) (qty : Int) (side : Side)
  | mod (order_id : Nat) (qty : Int)
  | del (order_id : Nat)
  | trade (instr : Nat) (px : Int) (qty : Int)
      (maker_order_id : Option Nat) (taker_side : Option Side)
  | heartbeat
deriving DecidableEq, Repr

/-- A byte of wire payload. -/
abbrev Byte := Nat

/-- Indexing a byte slice: `payload[i]`; `none` models the Rust panic on
an out-of-bounds index. -/
def byteAt (b : List Byte) (i : Nat) : Option Byte := b.get? i

/-- The big-endian value of the `n` bytes starting at `off`
(`uXX::from_be_bytes`). -/
def beVal (b : List Byte) (off n : Nat) : Nat :=
  ((b.drop off).take n).foldl (fun a x => a * 256 + x) 0

/-- `read_fixed::<N>` followed by `uXX::from_be_bytes`: reads `n` bytes
big-endian starting at `off`, `none` when fewer than `n` bytes remain
(`decoder_itch.rs::read_u16/read_u32/read_u64`). -/
def readBE (b : List Byte) (off n : Nat) : Option Nat :=
  if off + n ≤ b.length then some (beVal b off n) else none

theorem readBE_isSome {b : List Byte} {off n : Nat} (h : off + n ≤ b.length) :
    readBE b off n = some (beVal b off n) := by
  simp [readBE, h]

theorem byteAt_isSome {b : List Byte} {i : Nat} (h : i < b.length) :
    ∃ v, byteAt b i = some v := by
  refine ⟨b.get ⟨i, h⟩, ?_⟩
  simp [byteAt, List.get?_eq_get h]

/-! ## ITCH-5.0 decoder (`decoder_itch.rs`) -/

/-- Per-order decoder state, `decoder_itch.rs::OrderState`. -/
structure ItchOrderState where
  instr : Nat
  qty : Int
  px : Int
  side : Side
deriving DecidableEq, Repr

/-- Decoder state, `decoder_itch.rs::Inner`: `orders` keyed by order_ref
plus the (book-irrelevant) symbol-by-locate map.  The hashbrown maps are
modelled extensionally as functions. -/
structure ItchState where
  orders : Nat → Option ItchOrderState
  lastSymbolByLocate : Nat → Option (List Byte)

/-- Fresh decoder state (`Inner::default`). -/
def ItchState.init : ItchState := ⟨fun _ => none, fun _ => none⟩

/-- `HashMap::insert`. -/
def mapInsert {α : Type} (m : Nat → Option α) (k : Nat) (v : α) : Nat → Option α :=
  fun r => if r = k then some v else m r

/-- `HashMap::remove`. -/
def mapRemove {α : Type} (m : Nat → Option α) (k : Nat) : Nat → Option α :=
  fun r => if r = k then none else m r

/-- `decoder_itch.rs::on_add` ('A' len 35 / 'F' len 39).  Field offsets:
locate 0..2, tracking+timestamp 2..10, order_ref 10..18, side at 18,
shares 19..23, stock 23..31, price 31..35. -/
def addMinLen (withMpid : Bool) : Nat := if withMpid then 39 else 35

def onAdd (body : List Byte) (st : ItchState) (withMpid : Bool) :
    Option (ItchState × List Event) :=
  if body.length < addMinLen withMpid then some (st, []) else do
    let locate ← readBE body 0 2
    let orderRef ← readBE body 10 8
    let sideCh ← byteAt body 18
    let shares ← readBE body 19 4
    let _stock ← readBE body 23 8
    let price ← readBE body 31 4
    let side := if sideCh = 66 then Side.Bid else Side.Ask
    some ({ st with orders := mapInsert st.orders orderRef ⟨locate, shares, price, side⟩ },
      [Event.add orderRef locate (price : Int) (shares : Int) side])

/-- `decoder_itch.rs::on_exec` ('E'/'C', min body 30): order_ref 10..18,
executed 18..22; the trailing match number is read with a discarded
`Option` (no unwrap), so it is not a panic source. -/
def onExec (body : List Byte) (st : ItchState) (_withPrice : Bool) :
    Option (ItchState × List Event) :=
  if body.length < 30 then some (st, []) else do
    let _locate ← readBE body 0 2
    let orderRef ← readBE body 10 8
    let executed ← readBE body 18 4
    match st.orders orderRef with
    | none => some (st, [])
    | some s =>
      let newQty : Int := max (s.qty - executed) 0
      let res :=
        if newQty > 0 then
          ({ st with orders := mapInsert st.orders orderRef { s with qty := newQty } },
            [Event.mod orderRef newQty])
        else
          ({ st with orders := mapRemove st.orders orderRef }, [Event.del orderRef])
      some (res.1, res.2 ++
        [Event.trade s.instr s.px (executed : Int) (some orderRef) (some s.side.opposite)])

/-- `decoder_itch.rs::on_cancel` ('X', min body 22): order_ref 10..18,
canceled 18..22; the state entry's qty is reduced first, then
Modify-or-Delete is emitted from the reduced value. -/
def onCancel (body : List Byte) (st : ItchState) : Option (ItchState × List Event) :=
  if body.length < 22 then some (st, []) else do
    let _locate ← readBE body 0 2
    let orderRef ← readBE body 10 8
    let canceled ← readBE body 18 4
    match st.orders orderRef with
    | none => some (st, [])
    | some ent =>
      let q : Int := max (ent.qty - canceled) 0
      if q > 0 then
        some ({ st with orders := mapInsert st.orders orderRef { ent with qty := q } },
          [Event.mod orderRef q])
      else
        some ({ st with orders := mapRemove st.orders orderRef }, [Event.del orderRef])

/-- `decoder_itch.rs::on_delete` ('D', min body 18): order_ref 10..18;
emits Delete only when the ref was present in the state map. -/
def onDelete (body : List Byte) (st : ItchState) : Option (ItchState × List Event) :=
  if body.length < 18 then some (st, []) else do
    let _locate ← readBE body 0 2
    let orderRef ← readBE body 10 8
    match st.orders orderRef with
    | some _ =>
        some ({ st with orders := mapRemove st.orders orderRef }, [Event.del orderRef])
    | none => some (st, [])

/-- `decoder_itch.rs::on_replace` ('U', min body 34): orig_ref 10..18,
new_ref 18..26, shares 26..30, price 30..34; side is taken from the
original entry, defaulting to Bid. -/
def onReplace (body : List Byte) (st : ItchState) : Option (ItchState × List Event) :=
  if body.length < 34 then some (st, []) else do
    let locate ← readBE body 0 2
    let origRef ← readBE body 10 8
    let newRef ← readBE body 18 8
    let shares ← readBE body 26 4
    let price ← readBE body 30 4
    let side := match st.orders origRef with
      | some s => s.side
      | none => Side.Bid
    let res := match st.orders origRef with
      | some _ => ({ st with orders := mapRemove st.orders origRef }, [Event.del origRef])
      | none => (st, ([] : List Event))
    let st2 := { res.1 with orders := mapInsert res.1.orders newRef ⟨locate, shares, price, side⟩ }
    some (st2, res.2 ++ [Event.add newRef locate (price : Int) (shares : Int) side])

/-- `decoder_itch.rs::on_trade` ('P', min body 43): order_ref 10..18,
side at 18, shares 19..23, stock 23..31, price 31..35, match 35..43. -/
def onTradeItch (body : List Byte) (st : ItchState) : Option (ItchState × List Event) :=
  if body.length < 43 then some (st, []) else do
    let locate ← readBE body 0 2
    let orderRef ← readBE body 10 8
    let sideCh ← byteAt body 18
    let shares ← readBE body 19 4
    let _stock ← readBE body 23 8
    let price ← readBE body 31 4
    let _matchNum ← readBE body 35 8
    match st.orders orderRef with
    | some s =>
      let newQty : Int := max (s.qty - shares) 0
      let res :=
        if newQty > 0 then
          ({ st with orders := mapInsert st.orders orderRef { s with qty := newQty, px := price } },
            [Event.mod orderRef newQty])
        else
          ({ st with orders := mapRemove st.orders orderRef }, [Event.del orderRef])
      some (res.1, res.2 ++
        [Event.trade s.instr (price : Int) (shares : Int) (some orderRef) (some s.side.opposite)])
    | none =>
      some (st, [Event.trade locate (price : Int) (shares : Int) (some orderRef)
        (some (if sideCh = 66 then Side.Bid else Side.Ask))])

/-- `decoder_itch.rs::on_stock_directory` ('R', min body 18): records the
8-byte symbol at 10..18 under the locate; emits nothing. -/
def onStockDirectory (body : List Byte) (st : ItchState) : Option (ItchState × List Event) :=
  if body.length < 18 then some (st, []) else do
    let locate ← readBE body 0 2
    let sym := (body.drop 10).take 8
    some ({ st with lastSymbolByLocate :=
      fun l => if l = locate then some sym else st.lastSymbolByLocate l }, [])

/-- Dispatch on the message-type byte ('A' 65, 'F' 70, 'E' 69, 'C' 67,
'X' 88, 'D' 68, 'U' 85, 'P' 80, 'R' 82); unknown types are skipped. -/
def itchHandle (typ : Byte) (body : List Byte) (st : ItchState) :
    Option (ItchState × List Event) :=
  if typ = 65 then onAdd body st false
  else if typ = 70 then onAdd body st true
  else if typ = 69 then onExec body st false
  else if typ = 67 then onExec body st true
  else if typ = 88 then onCancel body st
  else if typ = 68 then onDelete body st
  else if typ = 85 then onReplace body st
  else if typ = 80 then onTradeItch body st
  else if typ = 82 then onStockDirectory body st
  else some (st, [])

/-- `Itch50Decoder::decode_messages`: framing loop
`[u16-BE length][u8 type][body]*`; a zero length or a truncated message
stops the loop (tail dropped).  The loop is written on the remaining
suffix of the payload; each iteration consumes `2 + msg_len ≥ 3` bytes. -/
def itchRun (st : ItchState) (rem : List Byte) : Option (ItchState × List Event) :=
  if h3 : 3 ≤ rem.length then
    match readBE rem 0 2 with
    | none => none
    | some msgLen =>
      if hz : msgLen < 1 then some (st, [])
      else if htr : rem.length < 2 + msgLen then some (st, [])
      else
        match byteAt rem 2 with
        | none => none
        | some typ =>
          let body := (rem.drop 3).take (msgLen - 1)
          match itchHandle typ body st with
          | none => none
          | some (st1, evs) =>
            match itchRun st1 (rem.drop (2 + msgLen)) with
            | none => none
            | some (st2, evs') => some (st2, evs ++ evs')
  else some (st, [])
termination_by rem.length
decreasing_by
  simp only [List.length_drop]
  omega

/-! ### Totality and output bound of the ITCH handlers (for claim C4) -/

theorem optBind_some {α β : Type} (a : α) (f : α → Option β) :
    ((some a : Option α) >>= f) = f a := rfl

theorem onAdd_total (body : List Byte) (st : ItchState) (withMpid : Bool) :
    ∃ r, onAdd body st withMpid = some r ∧ r.2.length ≤ 2 := by
  unfold onAdd
  split
  · exact ⟨(st, []), rfl, by simp⟩
  · rename_i hlen
    rw [not_lt] at hlen
    have h35 : 35 ≤ body.length := by
      cases withMpid <;> simp [addMinLen] at hlen <;> omega
    obtain ⟨v, hv⟩ := @byteAt_isSome body 18 (by omega)
    rw [readBE_isSome (by omega : 0 + 2 ≤ body.length),
        readBE_isSome (by omega : 10 + 8 ≤ body.length), hv,
        readBE_isSome (by omega : 19 + 4 ≤ body.length),
        readBE_isSome (by omega : 23 + 8 ≤ body.length),
        readBE_isSome (by omega : 31 + 4 ≤ body.length)]
    exact ⟨_, rfl, by simp⟩

theorem onExec_total (body : List Byte) (st : ItchState) (wp : Bool) :
    ∃ r, onExec body st wp = some r ∧ r.2.length ≤ 2 := by
  unfold onExec
  split
  · exact ⟨(st, []), rfl, by simp⟩
  · rename_i hlen
    rw [not_lt] at hlen
    rw [readBE_isSome (by omega : 0 + 2 ≤ body.length),
        readBE_isSome (by omega : 10 + 8 ≤ body.length),
        readBE_isSome (by omega : 18 + 4 ≤ body.length)]
    simp only [optBind_some]
    cases hord : st.orders (beVal body 10 8) with
    | none => exact ⟨(st, []), rfl, by simp⟩
    | some s =>
      refine ⟨_, rfl, ?_⟩
      split <;> simp

theorem onCancel_total (body : List Byte) (st : ItchState) :
    ∃ r, onCancel body st = some r ∧ r.2.length ≤ 2 := by
  unfold onCancel
  split
  · exact ⟨(st, []), rfl, by simp⟩
  · rename_i hlen
    rw [not_lt] at hlen
    rw [readBE_isSome (by omega : 0 + 2 ≤ body.length),
        readBE_isSome (by omega : 10 + 8 ≤ body.length),
        readBE_isSome (by omega : 18 + 4 ≤ body.length)]
    simp only [optBind_some]
    cases hord : st.orders (beVal body 10 8) with
    | none => exact ⟨(st, []), rfl, by simp⟩
    | some ent =>
      dsimp only
      by_cases hq : max (ent.qty - (beVal body 18 4 : Int)) 0 > 0
      · rw [if_pos hq]
        exact ⟨_, rfl, by simp⟩
      · rw [if_neg hq]
        exact ⟨_, rfl, by simp⟩

theorem onDelete_total (body : List Byte) (st : ItchState) :
    ∃ r, onDelete body st = some r ∧ r.2.length ≤ 2 := by
  unfold onDelete
  split
  · exact ⟨(st, []), rfl, by simp⟩
  · rename_i hlen
    rw [not_lt] at hlen
    rw [readBE_isSome (by omega : 0 + 2 ≤ body.length),
        readBE_isSome (by omega : 10 + 8 ≤ body.length)]
    simp only [optBind_some]
    cases hord : st.orders (beVal body 10 8) with
    | none => exact ⟨(st, []), rfl, by simp⟩
    | some s => exact ⟨_, rfl, by simp⟩

theorem onReplace_total (body : List Byte) (st : ItchState) :
    ∃ r, onReplace body st = some r ∧ r.2.length ≤ 2 := by
  unfold onReplace
  split
  · exact ⟨(st, []), rfl, by simp⟩
  · rename_i hlen
    rw [not_lt] at hlen
    rw [readBE_isSome (by omega : 0 + 2 ≤ body.length),
        readBE_isSome (by omega : 10 + 8 ≤ body.length),
        readBE_isSome (by omega : 18 + 8 ≤ body.length),
        readBE_isSome (by omega : 26 + 4 ≤ body.length),
        readBE_isSome (by omega : 30 + 4 ≤ body.length)]
    simp only [optBind_some]
    cases hord : st.orders (beVal body 10 8) with
    | none => exact ⟨_, rfl, by simp⟩
    | some s => exact ⟨_, rfl, by simp⟩

theorem onTradeItch_total (body : List Byte) (st : ItchState) :
    ∃ r, onTradeItch body st = some r ∧ r.2.length ≤ 2 := by
  unfold onTradeItch
  split
  · exact ⟨(st, []), rfl, by simp⟩
  · rename_i hlen
    rw [not_lt] at hlen
    obtain ⟨v, hv⟩ := @byteAt_isSome body 18 (by omega)
    rw [readBE_isSome (by omega : 0 + 2 ≤ body.length),
        readBE_isSome (by omega : 10 + 8 ≤ body.length), hv,
        readBE_isSome (by omega : 19 + 4 ≤ body.length),
        readBE_isSome (by omega : 23 + 8 ≤ body.length),
        readBE_isSome (by omega : 31 + 4 ≤ body.length),
        readBE_isSome (by omega : 35 + 8 ≤ body.length)]
    simp only [optBind_some]
    cases hord : st.orders (beVal body 10 8) with
    | none => exact ⟨_, rfl, by simp⟩
    | some s =>
      refine ⟨_, rfl, ?_⟩
      split <;> simp

theorem onStockDirectory_total (body : List Byte) (st : ItchState) :
    ∃ r, onStockDirectory body st = some r ∧ r.2.length ≤ 2 := by
  unfold onStockDirectory
  split
  · exact ⟨(st, []), rfl, by simp⟩
  · rename_i hlen
    rw [not_lt] at hlen
    rw [readBE_isSome (by omega : 0 + 2 ≤ body.length)]
    exact ⟨_, rfl, by simp⟩

theorem itchHandle_total (typ : Byte) (body : List Byte) (st : ItchState) :
    ∃ r, itchHandle typ body st = some r ∧ r.2.length ≤ 2 := by
  unfold itchHandle
  split
  · exact onAdd_total body st false
  · split
    · exact onAdd_total body st true
    · split
      · exact onExec_total body st false
      · split
        · exact onExec_total body st true
        · split
          · exact onCancel_total body st
          · split
            · exact onDelete_total body st
            · split
              · exact onReplace_total body st
              · split
                · exact onTradeItch_total body st
                · split
                  · exact onStockDirectory_total body st
                  · exact ⟨(st, []), rfl, by simp⟩

/-! ## EOBI-SBE decoder (`decoder_eobi.rs`) -/

/-- `uXX::from_le_bytes`: little-endian read of `n` bytes at `off`;
`none` models the Rust slice-indexing panic when out of range
(the checked readers return `None` there instead — both are `none`
sources distinguished only by how callers react). -/
def readLE (b : List Byte) (off n : Nat) : Option Nat :=
  if off + n ≤ b.length then
    some (((b.drop off).take n).foldr (fun x a => a * 256 + x) 0)
  else none

/-- Reinterpret a `u64` bit pattern as `i64` (two's complement). -/
def toI64 (n : Nat) : Int :=
  if n < 2 ^ 63 then (n : Int) else (n : Int) - 2 ^ 64

/-- `decoder_eobi.rs::decode_add` (template 1001, body ≥ 29):
order_id 0..8, instr 8..12, side at 12 (0 = Bid), px 13..21 (i64),
qty 21..29 (i64). -/
def eobiDecodeAdd (body : List Byte) : List Event :=
  if body.length < 29 then [] else
    match readLE body 0 8, readLE body 8 4, readLE body 13 8, readLE body 21 8 with
    | some orderId, some instr, some pxRaw, some qtyRaw =>
      let side := if body.getD 12 0 = 0 then Side.Bid else Side.Ask
      [Event.add orderId instr (toI64 pxRaw) (toI64 qtyRaw) side]
    | _, _, _, _ => []

/-- `decoder_eobi.rs::decode_mod` (template 1002, body ≥ 16). -/
def eobiDecodeMod (body : List Byte) : List Event :=
  if body.length < 16 then [] else
    match readLE body 0 8, readLE body 8 8 with
    | some orderId, some qtyRaw => [Event.mod orderId (toI64 qtyRaw)]
    | _, _ => []

/-- `decoder_eobi.rs::decode_del` (template 1003, body ≥ 8). -/
def eobiDecodeDel (body : List Byte) : List Event :=
  if body.length < 8 then [] else
    match readLE body 0 8 with
    | some orderId => [Event.del orderId]
    | none => []

/-- `decoder_eobi.rs::decode_trade` (template 1004, body ≥ 29):
instr 0..4, px 4..12, qty 12..20, maker 20..28, taker byte at 28
(0 = Bid, 1 = Ask, other = none). -/
def eobiDecodeTrade (body : List Byte) : List Event :=
  if body.length < 29 then [] else
    match readLE body 0 4, readLE body 4 8, readLE body 12 8, readLE body 20 8 with
    | some instr, some pxRaw, some qtyRaw, some maker =>
      let b := body.getD 28 2
      let takerSide := if b = 0 then some Side.Bid else if b = 1 then some Side.Ask else none
      [Event.trade instr (toI64 pxRaw) (toI64 qtyRaw) (some maker) takerSide]
    | _, _, _, _ => []

/-- Template dispatch for EOBI. -/
def eobiHandle (templateId : Nat) (body : List Byte) : List Event :=
  if templateId = 1001 then eobiDecodeAdd body
  else if templateId = 1002 then eobiDecodeMod body
  else if templateId = 1003 then eobiDecodeDel body
  else if templateId = 1004 then eobiDecodeTrade body
  else []

/-- `EobiSbeDecoder::decode_messages`: framing loop
`[block_len u16-LE][template u16-LE][schema][version][body]*`; each
iteration consumes `8 + block_len ≥ 8` bytes. -/
def eobiRun (rem : List Byte) : Option (List Event) :=
  if h8 : 8 ≤ rem.length then
    match readLE rem 0 2, readLE rem 2 2, readLE rem 4 2, readLE rem 6 2 with
    | some blockLen, some templateId, some _schemaId, some _version =>
      if htr : rem.length < 8 + blockLen then some []
      else
        let body := (rem.drop 8).take blockLen
        match eobiRun (rem.drop (8 + blockLen)) with
        | none => none
        | some evs' => some (eobiHandle templateId body ++ evs')
    | _, _, _, _ => none
  else some []
termination_by rem.length
decreasing_by
  simp only [List.length_drop]
  omega

/-! ## FAST-EMDI decoder (`decoder_fast.rs`) -/

/-- `2^64`, the `u64` modulus. -/
def U64 : Nat := 2 ^ 64

/-- Stop-bit varint reader shared by `read_pmap` (`maxShift = 56`) and
`read_sbi_u64` (`maxShift = 63`): 7 value bits per byte, high bit set
means continuation; the accumulated `v |= (byte & 0x7F) << shift` is a
`u64`, hence the `% U64`.  Returns `(value, bytes consumed)`. -/
def readStopBit (maxShift : Nat) : List Byte → Nat → Nat → Nat → Nat × Nat
  | [], _, acc, consumed => (acc, consumed)
  | byte :: rest, shift, acc, consumed =>
    let acc' := acc ||| ((byte &&& 127) * 2 ^ shift % U64)
    if byte &&& 128 = 0 then (acc', consumed + 1)
    else if maxShift < shift + 7 then (acc', consumed + 1)
    else readStopBit maxShift rest (shift + 7) acc' (consumed + 1)

/-- `read_sbi_u64(body, o)` reading forward from offset `o`. -/
def readSbiAt (b : List Byte) (o : Nat) : Nat × Nat :=
  readStopBit 63 (b.drop o) 0 0 0

/-- Zigzag decode `((uv >> 1) as i64) ^ (-((uv & 1) as i64))`: xor with
`0` is the identity and xor with `-1` is two's-complement negation minus
one. -/
def zigzag (uv : Nat) : Int :=
  if uv % 2 = 0 then ((uv / 2 : Nat) : Int) else -((uv / 2 : Nat) : Int) - 1

/-- `decoder_fast.rs::on_add` (template 1). -/
def fastAdd (body : List Byte) : List Event :=
  let r1 := readSbiAt body 0
  if r1.2 = 0 then [] else
  let r2 := readSbiAt body r1.2
  if r2.2 = 0 then [] else
  let o2 := r1.2 + r2.2
  if body.length ≤ o2 then [] else
  let side := if body.getD o2 0 = 0 then Side.Bid else Side.Ask
  let r3 := readSbiAt body (o2 + 1)
  if r3.2 = 0 then [] else
  let r4 := readSbiAt body (o2 + 1 + r3.2)
  if r4.2 = 0 then [] else
  [Event.add r1.1 (r2.1 % 2 ^ 32) (zigzag r3.1) (zigzag r4.1) side]

/-- `decoder_fast.rs::on_mod` (template 2); the second read's consumed
count is not checked by the source. -/
def fastMod (body : List Byte) : List Event :=
  let r1 := readSbiAt body 0
  if r1.2 = 0 then [] else
  let r2 := readSbiAt body r1.2
  [Event.mod r1.1 (zigzag r2.1)]

/-- `decoder_fast.rs::on_del` (template 3); unconditional push. -/
def fastDel (body : List Byte) : List Event :=
  let r1 := readSbiAt body 0
  [Event.del r1.1]

/-- `decoder_fast.rs::on_trade` (template 4); `maker_order_id` gated by
pmap bit 0 (a short read there aborts the whole message), `taker_side`
by pmap bit 1 and remaining length. -/
def fastTrade (body : List Byte) (pmap : Nat) : List Event :=
  let r1 := readSbiAt body 0
  if r1.2 = 0 then [] else
  let r2 := readSbiAt body r1.2
  if r2.2 = 0 then [] else
  let r3 := readSbiAt body (r1.2 + r2.2)
  if r3.2 = 0 then [] else
  let o3 := r1.2 + r2.2 + r3.2
  let makerRead := if pmap &&& 1 ≠ 0 then some (readSbiAt body o3) else none
  match makerRead with
  | some r4 =>
    if r4.2 = 0 then [] else
    let o4 := o3 + r4.2
    let takerSide := if pmap &&& 2 ≠ 0 ∧ o4 < body.length then
        some (if body.getD o4 0 = 0 then Side.Bid else Side.Ask)
      else none
    [Event.trade (r1.1 % 2 ^ 32) (zigzag r2.1) (zigzag r3.1) (some r4.1) takerSide]
  | none =>
    let takerSide := if pmap &&& 2 ≠ 0 ∧ o3 < body.length then
        some (if body.getD o3 0 = 0 then Side.Bid else Side.Ask)
      else none
    [Event.trade (r1.1 % 2 ^ 32) (zigzag r2.1) (zigzag r3.1) none takerSide]

/-- Template dispatch for FAST. -/
def fastHandle (tmpl : Nat) (body : List Byte) (pmap : Nat) : List Event :=
  if tmpl = 1 then fastAdd body
  else if tmpl = 2 then fastMod body
  else if tmpl = 3 then fastDel body
  else if tmpl = 4 then fastTrade body pmap
  else []

/-- `FastEmdiDecoder::decode_messages`: pmap, template id and body
length as stop-bit varints, then the body; a short read or truncated
body stops the loop.  Every non-final iteration consumes at least
3 bytes.  All indexing in this decoder is bounds-checked in the source,
so the function is total (`List Event`, not `Option`). -/
def fastRun (rem : List Byte) : List Event :=
  if hne : rem.length = 0 then []
  else
    let rp := readStopBit 56 rem 0 0 0
    if hp : rp.2 = 0 then []
    else
      let rem1 := rem.drop rp.2
      let rt := readStopBit 63 rem1 0 0 0
      if ht : rt.2 = 0 then []
      else
        let rem2 := rem1.drop rt.2
        let rb := readStopBit 63 rem2 0 0 0
        if hb : rb.2 = 0 then []
        else
          let rem3 := rem2.drop rb.2
          if htr : rem3.length < rb.1 then []
          else
            let body := rem3.take rb.1
            fastHandle rt.1 body rp.1 ++ fastRun (rem3.drop rb.1)
termination_by rem.length
decreasing_by
  simp only [rp, rt, rb, rem3, rem2, rem1, List.length_drop] at hp ht hb ⊢
  omega

/-! ## Arbitrated merge (`merge.rs::merge_loop`)

The loop is embedded as a state machine.  One `MInput` is one packet
popped from an input queue (`rec` from `Q_recovery`, `chan` from an A/B
worker queue, carrying the `now_nanos()` value used by the hysteresis
update), or one evaluation of the adaptive checkpoint.  A run of the
loop over any interleaving of queue contents is `mergeRun` over the
corresponding list of inputs.  `forward` (which never drops: it backs
off and blocks until `Q_merged` accepts) is modelled by appending to
`outputs`; `RecoveryClient::notify_gap(from, to)` by appending `(from,
to)` to `gapCalls`. -/

/-- Channel tag of a packet (`Pkt::chan`: `b'A'`, `b'B'`, `b'R'`). -/
inductive Chan where
  | A : Chan
  | B : Chan
  | R : Chan
deriving DecidableEq, Repr

/-- The fields of `pool.rs::Pkt` the merge loop's control flow reads. -/
structure MPkt where
  seq : Nat
  chan : Chan
deriving DecidableEq, Repr

/-- `merge_loop`'s local state (cf. spec §3 "Merge state").  `cap` is
fixed at entry (`reorder_window+1`); the adaptive checkpoint changes
`reorderWindow` but never `cap` or the ring. -/
structure MergeState where
  nextSeq : Nat
  reorderWindow : Nat
  maxPending : Nat
  cap : Nat
  ring : List (Option (Nat × MPkt))
  pendingCount : Nat
  preferA : Bool
  streakPreferred : Nat
  streakNonpreferred : Nat
  lastSwitchNs : Nat
  minDwellNs : Nat
  dwellNs : Nat
  adaptive : Bool
  reorderWindowMax : Nat
  forwardedSinceCheck : Nat
  recentGaps : Nat
  recentOoo : Nat
  switchesInWindow : Nat
  hasRecovery : Bool
  outputs : List MPkt
  gapCalls : List (Nat × Nat)
deriving Repr

/-- `MergeConfig` of `merge.rs`. -/
structure MergeConfig where
  next_seq : Nat
  reorder_window : Nat
  max_pending : Nat
  dwell_ns : Nat
  adaptive : Bool
  reorder_window_max : Nat
deriving Repr

/-- `SWITCH_TO_B_AFTER`. -/
def SWITCH_TO_B_AFTER : Nat := 2
/-- `SWITCH_TO_A_AFTER`. -/
def SWITCH_TO_A_AFTER : Nat := 8

/-- Initial merge state (`merge_loop` lines 30–62); `t0` is the
`now_nanos()` taken at entry for `last_switch_ns`.  A configured dwell
of 0 is replaced by 2 ms. -/
def initMerge (cfg : MergeConfig) (hasRecovery : Bool) (t0 : Nat) : MergeState where
  nextSeq := cfg.next_seq
  reorderWindow := cfg.reorder_window
  maxPending := cfg.max_pending
  cap := cfg.reorder_window + 1
  ring := List.replicate (cfg.reorder_window + 1) none
  pendingCount := 0
  preferA := true
  streakPreferred := 0
  streakNonpreferred := 0
  lastSwitchNs := t0
  minDwellNs := if cfg.dwell_ns = 0 then 2000000 else cfg.dwell_ns
  dwellNs := cfg.dwell_ns
  adaptive := cfg.adaptive
  reorderWindowMax := cfg.reorder_window_max
  forwardedSinceCheck := 0
  recentGaps := 0
  recentOoo := 0
  switchesInWindow := 0
  hasRecovery := hasRecovery
  outputs := []
  gapCalls := []

/-- Number of occupied reorder-ring slots. -/
def ringCount (ring : List (Option (Nat × MPkt))) : Nat :=
  ring.countP (fun s => s.isSome)

theorem ringCount_set_none_lt {l : List (Option (Nat × MPkt))} {i : Nat} {x : Nat × MPkt}
    (h : l.get? i = some (some x)) : ringCount (l.set i none) < ringCount l := by
  induction l generalizing i with
  | nil => simp at h
  | cons a t ih =>
    cases i with
    | zero =>
      simp only [List.get?] at h
      cases h
      simp [ringCount, List.countP_cons]
    | succ j =>
      simp only [List.get?] at h
      have := ih h
      simp only [List.set, ringCount, List.countP_cons] at *
      omega

/-- The contiguous-drain loop after a forward (`merge_loop` lines
81–104 / 167–186): release ring slots while the stored seq matches
`next_seq`.  `updOoo` distinguishes the channel-branch drain (which
counts `recent_ooo`) from the recovery-branch drain (which does not). -/
def drainRing (updOoo : Bool) (st : MergeState) : MergeState :=
  let idx := st.nextSeq % st.cap
  match hslot : st.ring.get? idx with
  | some (some (storedSeq, node)) =>
    if storedSeq = st.nextSeq then
      drainRing updOoo { st with
        ring := st.ring.set idx none,
        pendingCount := st.pendingCount - 1,
        recentOoo := if updOoo then st.recentOoo + 1 else st.recentOoo,
        outputs := st.outputs ++ [node],
        nextSeq := (st.nextSeq + 1) % U64,
        forwardedSinceCheck := st.forwardedSinceCheck + 1 }
    else st
  | some none => st
  | none => st
termination_by ringCount st.ring
decreasing_by
  exact ringCount_set_none_lt hslot

/-- Reorder-ring insertion with the collision policy of `merge_loop`
(lines 225–243): same seq → duplicate; stale slot (`< next_seq`) →
overwrite; newer in-window seq → treated as duplicate. -/
def bufferPkt (st : MergeState) (s : Nat) (pkt : MPkt) : MergeState :=
  match st.ring.get? (s % st.cap) with
  | some (some (seqInSlot, _)) =>
    if seqInSlot = s then st
    else if seqInSlot < st.nextSeq then
      { st with
        ring := st.ring.set (s % st.cap) (some (s, pkt)),
        pendingCount := st.pendingCount + 1 }
    else st
  | some none =>
    { st with
      ring := st.ring.set (s % st.cap) (some (s, pkt)),
      pendingCount := st.pendingCount + 1 }
  | none => st

/-- Gap/overflow handling (`merge_loop` lines 244–258): the packet is
dropped; `notify_gap(next_seq, s-1)` is issued only when a recovery
client is configured and `s > next_seq`. -/
def gapAction (st : MergeState) (s : Nat) : MergeState :=
  if st.hasRecovery && decide (st.nextSeq < s) then
    { st with
      recentGaps := st.recentGaps + 1,
      gapCalls := st.gapCalls ++ [(st.nextSeq, s - 1)] }
  else { st with recentGaps := st.recentGaps + 1 }

/-- Classification of one recovery-queue packet (`merge_loop` lines
71–135): duplicate / forward+drain / buffer / gap. -/
def handleRecovery (st : MergeState) (pkt : MPkt) : MergeState :=
  if pkt.seq < st.nextSeq then st
  else if pkt.seq = st.nextSeq then
    drainRing false { st with
      outputs := st.outputs ++ [pkt],
      nextSeq := (st.nextSeq + 1) % U64 }
  else
    if (pkt.seq + U64 - st.nextSeq) % U64 ≤ st.reorderWindow ∧
        st.pendingCount < st.maxPending then
      bufferPkt st pkt.seq pkt
    else gapAction st pkt.seq

/-- The preferred-channel hysteresis update after a direct forward
(`merge_loop` lines 188–221); `wasA` is whether the forwarded head
packet's channel label was "A", `now` the `now_nanos()` sample. -/
def hysteresis (st : MergeState) (wasA : Bool) (now : Nat) : MergeState :=
  if st.preferA && wasA || !st.preferA && !wasA then
    if !st.preferA && decide (SWITCH_TO_A_AFTER ≤ st.streakPreferred + 1)
        && decide (st.minDwellNs ≤ now - st.lastSwitchNs) then
      { st with
        preferA := true, streakPreferred := 0, streakNonpreferred := 0,
        lastSwitchNs := now, switchesInWindow := st.switchesInWindow + 1 }
    else
      { st with streakPreferred := st.streakPreferred + 1, streakNonpreferred := 0 }
  else
    if st.preferA && decide (SWITCH_TO_B_AFTER ≤ st.streakNonpreferred + 1)
        && decide (st.minDwellNs ≤ now - st.lastSwitchNs) then
      { st with
        preferA := false, streakPreferred := 0, streakNonpreferred := 0,
        lastSwitchNs := now, switchesInWindow := st.switchesInWindow + 1 }
    else
      { st with streakNonpreferred := st.streakNonpreferred + 1, streakPreferred := 0 }

/-- Classification of one A/B-queue packet (`merge_loop` lines
154–259): duplicate / forward+drain+hysteresis / buffer / gap. -/
def handleChannel (st : MergeState) (pkt : MPkt) (now : Nat) : MergeState :=
  if pkt.seq < st.nextSeq then st
  else if pkt.seq = st.nextSeq then
    hysteresis
      (drainRing true { st with
        outputs := st.outputs ++ [pkt],
        nextSeq := (st.nextSeq + 1) % U64 })
      (pkt.chan == Chan.A) now
  else
    if (pkt.seq + U64 - st.nextSeq) % U64 ≤ st.reorderWindow ∧
        st.pendingCount < st.maxPending then
      bufferPkt st pkt.seq pkt
    else gapAction st pkt.seq

/-- The adaptive checkpoint (`merge_loop` lines 264–284), evaluated
once per loop iteration; it adjusts the window and dwell, never the
ring or outputs. -/
def adaptiveCheckpoint (st : MergeState) : MergeState :=
  if st.adaptive ∧ 4096 ≤ st.forwardedSinceCheck then
    let rw := if 0 < st.recentGaps ∧ st.reorderWindow < st.reorderWindowMax then
        min (st.reorderWindow + max (st.reorderWindow / 4) 1) st.reorderWindowMax
      else st.reorderWindow
    let rw2 := if st.recentOoo = 0 ∧ st.recentGaps = 0 ∧ 8 < rw then max (rw - rw / 8) 8 else rw
    let dw := if 4 ≤ st.switchesInWindow then min (st.minDwellNs * 2) 50000000
      else if st.switchesInWindow = 0 ∧ st.dwellNs < st.minDwellNs then
        max (st.minDwellNs - st.minDwellNs / 4) st.dwellNs
      else st.minDwellNs
    { st with
      reorderWindow := rw2, minDwellNs := dw, forwardedSinceCheck := 0,
      recentGaps := 0, recentOoo := 0, switchesInWindow := 0 }
  else st

/-- One observable step of the merge loop. -/
inductive MInput where
  | recovery (p : MPkt)
  | chan (p : MPkt) (now : Nat)
  | checkpoint
deriving Repr

/-- Apply one input. -/
def mergeStep (st : MergeState) : MInput → MergeState
  | MInput.recovery p => handleRecovery st p
  | MInput.chan p now => handleChannel st p now
  | MInput.checkpoint => adaptiveCheckpoint st

/-- A run of the merge loop over an interleaving of inputs. -/
def mergeRun (st : MergeState) (inputs : List MInput) : MergeState :=
  inputs.foldl mergeStep st

/-! ### Gapless-output invariant (claim C1) -/

/-- The inductive invariant of the merge loop: the emitted sequence
numbers are `next0, next0+1, …` (wrapping at `2^64`), `next_seq` tracks
the count of emitted packets, and every occupied ring slot stores the
seq of the packet it holds. -/
def MergeInv (next0 : Nat) (st : MergeState) : Prop :=
  st.outputs.map MPkt.seq = (List.range st.outputs.length).map (fun i => (next0 + i) % U64) ∧
  st.nextSeq = (next0 + st.outputs.length) % U64 ∧
  ∀ i s p, st.ring.get? i = some (some (s, p)) → p.seq = s

theorem succ_mod_U64 (x : Nat) : (x % U64 + 1) % U64 = (x + 1) % U64 := by
  rw [Nat.add_mod x 1]
  norm_num [U64]

theorem drainRing_inv {next0 : Nat} (updOoo : Bool) (st : MergeState) :
    MergeInv next0 st → MergeInv next0 (drainRing updOoo st) := by
  refine drainRing.induct updOoo
    (fun s => MergeInv next0 s → MergeInv next0 (drainRing updOoo s)) ?_ ?_ ?_ ?_ st
  · intro x idx node hget ih h
    have hget' : x.ring.get? (x.nextSeq % x.cap) = some (some (x.nextSeq, node)) := hget
    rw [drainRing]
    split
    · rename_i storedSeq nd heq
      rw [hget'] at heq
      simp only [Option.some.injEq, Prod.mk.injEq] at heq
      obtain ⟨h1, h2⟩ := heq
      subst h1
      subst h2
      rw [if_pos rfl]
      apply ih
      obtain ⟨hout, hnext, hring⟩ := h
      refine ⟨?_, ?_, ?_⟩
      · have hs : node.seq = x.nextSeq := hring _ _ _ hget'
        simp only [List.map_append, List.length_append, hout, List.map_cons, List.map_nil,
          List.length_map, List.length_range, List.length_cons, List.length_nil]
        rw [List.range_succ]
        simp [hs, hnext]
      · simp only [List.length_append, List.length_cons, List.length_nil]
        rw [hnext, succ_mod_U64]
        ring_nf
      · intro i s p hi
        rcases eq_or_ne i (x.nextSeq % x.cap) with rfl | hne
        · rw [List.get?_set_eq] at hi
          · simp at hi
        · rw [List.get?_set_ne _ _ (Ne.symm hne)] at hi
          exact hring i s p hi
    · rename_i heq
      rw [hget'] at heq
      simp at heq
    · rename_i heq
      rw [hget'] at heq
      simp at heq
  · intro x idx storedSeq node hget hne h
    have hget' : x.ring.get? (x.nextSeq % x.cap) = some (some (storedSeq, node)) := hget
    rw [drainRing]
    split
    · rename_i storedSeq2 nd heq
      rw [hget'] at heq
      simp only [Option.some.injEq, Prod.mk.injEq] at heq
      obtain ⟨h1, h2⟩ := heq
      subst h1
      subst h2
      rw [if_neg hne]
      exact h
    · exact h
    · exact h
  · intro x idx hget h
    have hget' : x.ring.get? (x.nextSeq % x.cap) = some none := hget
    rw [drainRing]
    split
    · rename_i storedSeq nd heq
      rw [hget'] at heq
      simp at heq
    · exact h
    · rename_i heq
      rw [hget'] at heq
      simp at heq
  · intro x idx hget h
    have hget' : x.ring.get? (x.nextSeq % x.cap) = none := hget
    rw [drainRing]
    split
    · rename_i storedSeq nd heq
      rw [hget'] at heq
      simp at heq
    · rename_i heq
      rw [hget'] at heq
      simp at heq
    · exact h

theorem ring_set_slots {ring : List (Option (Nat × MPkt))} {idx : Nat} {v : Option (Nat × MPkt)}
    (hr : ∀ i s p, ring.get? i = some (some (s, p)) → p.seq = s)
    (hv : ∀ s p, v = some (s, p) → p.seq = s) :
    ∀ i s p, (ring.set idx v).get? i = some (some (s, p)) → p.seq = s := by
  intro i s p hi
  rw [List.get?_set] at hi
  split at hi
  · cases hh : ring.get? i with
    | none => rw [hh] at hi; simp at hi
    | some x =>
      rw [hh] at hi
      simp at hi
      exact hv s p hi
  · exact hr i s p hi

theorem bufferPkt_inv {next0 : Nat} (st : MergeState) (pkt : MPkt)
    (h : MergeInv next0 st) : MergeInv next0 (bufferPkt st pkt.seq pkt) := by
  obtain ⟨hout, hnext, hring⟩ := h
  unfold bufferPkt
  have hset : MergeInv next0 { st with
      ring := st.ring.set (pkt.seq % st.cap) (some (pkt.seq, pkt)),
      pendingCount := st.pendingCount + 1 } := by
    refine ⟨hout, hnext, ?_⟩
    refine ring_set_slots hring ?_
    intro s p hv
    injection hv with hv2
    rw [Prod.mk.injEq] at hv2
    obtain ⟨h1, h2⟩ := hv2
    subst h2
    exact h1
  split
  · split
    · exact ⟨hout, hnext, hring⟩
    · split
      · exact hset
      · exact ⟨hout, hnext, hring⟩
  · exact hset
  · exact ⟨hout, hnext, hring⟩

theorem gapAction_inv {next0 : Nat} (st : MergeState) (s : Nat)
    (h : MergeInv next0 st) : MergeInv next0 (gapAction st s) := by
  obtain ⟨hout, hnext, hring⟩ := h
  unfold gapAction
  split
  · exact ⟨hout, hnext, hring⟩
  · exact ⟨hout, hnext, hring⟩

theorem hysteresis_inv {next0 : Nat} (st : MergeState) (wasA : Bool) (now : Nat)
    (h : MergeInv next0 st) : MergeInv next0 (hysteresis st wasA now) := by
  obtain ⟨hout, hnext, hring⟩ := h
  unfold hysteresis
  split <;> split <;> exact ⟨hout, hnext, hring⟩

theorem adaptiveCheckpoint_inv {next0 : Nat} (st : MergeState)
    (h : MergeInv next0 st) : MergeInv next0 (adaptiveCheckpoint st) := by
  obtain ⟨hout, hnext, hring⟩ := h
  unfold adaptiveCheckpoint
  split
  · exact ⟨hout, hnext, hring⟩
  · exact ⟨hout, hnext, hring⟩

theorem forward_inv {next0 : Nat} (st : MergeState) (pkt : MPkt)
    (heq : pkt.seq = st.nextSeq) (h : MergeInv next0 st) :
    MergeInv next0 { st with
      outputs := st.outputs ++ [pkt], nextSeq := (st.nextSeq + 1) % U64 } := by
  obtain ⟨hout, hnext, hring⟩ := h
  refine ⟨?_, ?_, hring⟩
  · simp only [List.map_append, List.length_append, hout, List.map_cons, List.map_nil,
      List.length_map, List.length_range, List.length_cons, List.length_nil]
    rw [List.range_succ]
    simp [heq, hnext]
  · simp only [List.length_append, List.length_cons, List.length_nil]
    rw [hnext, succ_mod_U64]
    ring_nf

theorem handleRecovery_inv {next0 : Nat} (st : MergeState) (pkt : MPkt)
    (h : MergeInv next0 st) : MergeInv next0 (handleRecovery st pkt) := by
  unfold handleRecovery
  split
  · exact h
  · split
    · rename_i heq
      exact drainRing_inv _ _ (forward_inv st pkt heq h)
    · split
      · exact bufferPkt_inv st pkt h
      · exact gapAction_inv st pkt.seq h

theorem handleChannel_inv {next0 : Nat} (st : MergeState) (pkt : MPkt) (now : Nat)
    (h : MergeInv next0 st) : MergeInv next0 (handleChannel st pkt now) := by
  unfold handleChannel
  split
  · exact h
  · split
    · rename_i heq
      exact hysteresis_inv _ _ _ (drainRing_inv _ _ (forward_inv st pkt heq h))
    · split
      · exact bufferPkt_inv st pkt h
      · exact gapAction_inv st pkt.seq h

theorem mergeStep_inv {next0 : Nat} (st : MergeState) (inp : MInput)
    (h : MergeInv next0 st) : MergeInv next0 (mergeStep st inp) := by
  cases inp with
  | recovery p => exact handleRecovery_inv st p h
  | chan p now => exact handleChannel_inv st p now h
  | checkpoint => exact adaptiveCheckpoint_inv st h

theorem mergeRun_inv {next0 : Nat} (st : MergeState) (inputs : List MInput)
    (h : MergeInv next0 st) : MergeInv next0 (mergeRun st inputs) := by
  induction inputs generalizing st with
  | nil => exact h
  | cons a t ih => exact ih _ (mergeStep_inv st a h)

theorem initMerge_inv (cfg : MergeConfig) (hrec : Bool) (t0 : Nat)
    (h0 : cfg.next_seq < U64) : MergeInv cfg.next_seq (initMerge cfg hrec t0) := by
  refine ⟨rfl, ?_, ?_⟩
  · simp [initMerge, Nat.mod_eq_of_lt h0]
  · intro i s p hi
    simp only [initMerge] at hi
    have hmem := List.get?_mem hi
    have hnone := List.eq_of_mem_replicate hmem
    simp at hnone

/-- The sequence numbers pushed to `Q_merged` during a run. -/
def mergeOutSeqs (cfg : MergeConfig) (hasRecovery : Bool) (t0 : Nat)
    (inputs : List MInput) : List Nat :=
  ((mergeRun (initMerge cfg hasRecovery t0) inputs).outputs).map MPkt.seq

/-- C1: For every run of the merge loop over any interleaving of input
packets on the A queues, B queues, and optional recovery queue, the
sequence numbers of packets pushed to `Q_merged` are strictly
consecutive with no gaps: the k-th emitted seq is `next_seq + k`, so
the first emitted seq equals the configured `next_seq`, every later
emitted seq equals the previous emitted seq plus 1, and no sequence
number is emitted twice (`Nodup`).  The hypotheses state that the
configured `next_seq` is a `u64` value and that the run does not wrap
the 64-bit sequence space (the source uses `wrapping_add`). -/
theorem C1_merge_output_gapless (cfg : MergeConfig) (hasRecovery : Bool) (t0 : Nat)
    (inputs : List MInput) (h0 : cfg.next_seq < U64)
    (hnw : cfg.next_seq + (mergeOutSeqs cfg hasRecovery t0 inputs).length ≤ U64) :
    (∀ k, k < (mergeOutSeqs cfg hasRecovery t0 inputs).length →
      (mergeOutSeqs cfg hasRecovery t0 inputs).get? k = some (cfg.next_seq + k)) ∧
    (mergeOutSeqs cfg hasRecovery t0 inputs).Nodup := by
  obtain ⟨hout, -, -⟩ :=
    mergeRun_inv (initMerge cfg hasRecovery t0) inputs (initMerge_inv cfg hasRecovery t0 h0)
  have hform : mergeOutSeqs cfg hasRecovery t0 inputs =
      (List.range (mergeRun (initMerge cfg hasRecovery t0) inputs).outputs.length).map
        (fun i => (cfg.next_seq + i) % U64) := hout
  have hlen : (mergeOutSeqs cfg hasRecovery t0 inputs).length =
      (mergeRun (initMerge cfg hasRecovery t0) inputs).outputs.length := by
    rw [hform]
    simp
  have hplain : mergeOutSeqs cfg hasRecovery t0 inputs =
      (List.range (mergeRun (initMerge cfg hasRecovery t0) inputs).outputs.length).map
        (fun i => cfg.next_seq + i) := by
    rw [hform]
    apply List.map_congr_left
    intro i hi
    rw [List.mem_range] at hi
    apply Nat.mod_eq_of_lt
    rw [hlen] at hnw
    omega
  constructor
  · intro k hk
    rw [hlen] at hk
    rw [hplain, List.get?_map, List.get?_range hk]
    rfl
  · rw [hplain]
    refine List.Nodup.map ?_ (List.nodup_range _)
    intro a b hab
    have hab' : cfg.next_seq + a = cfg.next_seq + b := hab
    omega

theorem C1_merge_output_gapless_witness :
    (1 : Nat) < U64 ∧
    1 + (mergeOutSeqs ⟨1, 4, 64, 0, false, 8⟩ true 0
      [MInput.chan ⟨1, Chan.A⟩ 0, MInput.chan ⟨2, Chan.A⟩ 0]).length ≤ U64 ∧
    (mergeOutSeqs ⟨1, 4, 64, 0, false, 8⟩ true 0
      [MInput.chan ⟨1, Chan.A⟩ 0, MInput.chan ⟨2, Chan.A⟩ 0]).get? 1 = some (1 + 1) := by
  have heval : mergeOutSeqs ⟨1, 4, 64, 0, false, 8⟩ true 0
      [MInput.chan ⟨1, Chan.A⟩ 0, MInput.chan ⟨2, Chan.A⟩ 0] = [1, 2] := by
    simp [mergeOutSeqs, mergeRun, mergeStep, handleChannel, initMerge, drainRing,
      hysteresis, gapAction, bufferPkt, U64, List.replicate, SWITCH_TO_A_AFTER,
      SWITCH_TO_B_AFTER]
  have h0 : (1 : Nat) < U64 := by norm_num [U64]
  have hnw : 1 + (mergeOutSeqs ⟨1, 4, 64, 0, false, 8⟩ true 0
      [MInput.chan ⟨1, Chan.A⟩ 0, MInput.chan ⟨2, Chan.A⟩ 0]).length ≤ U64 := by
    rw [heval]
    norm_num [U64]
  refine ⟨h0, hnw, ?_⟩
  exact (C1_merge_output_gapless ⟨1, 4, 64, 0, false, 8⟩ true 0
    [MInput.chan ⟨1, Chan.A⟩ 0, MInput.chan ⟨2, Chan.A⟩ 0] h0 hnw).1 1
    (by rw [heval]; norm_num)

/-! ### Gap handling and hysteresis scenarios (claims C5, C8) -/

theorem hysteresis_gapCalls (st : MergeState) (wasA : Bool) (now : Nat) :
    (hysteresis st wasA now).gapCalls = st.gapCalls := by
  unfold hysteresis
  split <;> split <;> rfl

theorem drainRing_gapCalls (updOoo : Bool) (st : MergeState) :
    (drainRing updOoo st).gapCalls = st.gapCalls := by
  refine drainRing.induct updOoo (fun s => (drainRing updOoo s).gapCalls = s.gapCalls)
    ?_ ?_ ?_ ?_ st
  · intro x idx node hget ih
    have hget' : x.ring.get? (x.nextSeq % x.cap) = some (some (x.nextSeq, node)) := hget
    rw [drainRing]
    split
    · rename_i storedSeq nd heq
      rw [hget'] at heq
      simp only [Option.some.injEq, Prod.mk.injEq] at heq
      obtain ⟨h1, h2⟩ := heq
      subst h1
      subst h2
      rw [if_pos rfl]
      exact ih
    · rfl
    · rfl
  · intro x idx storedSeq node hget hne
    have hget' : x.ring.get? (x.nextSeq % x.cap) = some (some (storedSeq, node)) := hget
    rw [drainRing]
    split
    · rename_i storedSeq2 nd heq
      rw [hget'] at heq
      simp only [Option.some.injEq, Prod.mk.injEq] at heq
      obtain ⟨h1, h2⟩ := heq
      subst h1
      subst h2
      rw [if_neg hne]
    · rfl
    · rfl
  · intro x idx hget
    rw [drainRing]
    have hget' : x.ring.get? (x.nextSeq % x.cap) = some none := hget
    split
    · rename_i storedSeq nd heq
      rw [hget'] at heq
      simp at heq
    · rfl
    · rfl
  · intro x idx hget
    rw [drainRing]
    have hget' : x.ring.get? (x.nextSeq % x.cap) = none := hget
    split
    · rename_i storedSeq nd heq
      rw [hget'] at heq
      simp at heq
    · rfl
    · rfl

/-- C5: a channel packet with seq beyond the window (or with the
pending buffer full) is dropped at the merge layer — outputs, ring and
pending count unchanged — and exactly one `notify_gap(next_seq, s-1)`
is issued; no notification is ever issued for `s ≤ next_seq`; and in
particular with window 4 and inputs A=1, A=2, A=8 the output is [1,2],
exactly `notify_gap(3,7)` is recorded, and seq 8 is absent from the
output. -/
theorem C5_gap_drop_notify (st : MergeState) (pkt : MPkt) (now : Nat)
    (hrec : st.hasRecovery = true) (hgt : st.nextSeq < pkt.seq) (hu : pkt.seq < U64)
    (hfar : st.reorderWindow < pkt.seq - st.nextSeq ∨ st.maxPending ≤ st.pendingCount) :
    handleChannel st pkt now = { st with
      recentGaps := st.recentGaps + 1,
      gapCalls := st.gapCalls ++ [(st.nextSeq, pkt.seq - 1)] } ∧
    (∀ st' : MergeState, ∀ pkt' : MPkt, ∀ now' : Nat, pkt'.seq ≤ st'.nextSeq →
      (handleChannel st' pkt' now').gapCalls = st'.gapCalls) ∧
    (mergeOutSeqs ⟨1, 4, 64, 0, false, 8⟩ true 0
      [MInput.chan ⟨1, Chan.A⟩ 0, MInput.chan ⟨2, Chan.A⟩ 0, MInput.chan ⟨8, Chan.A⟩ 0]
      = [1, 2]) ∧
    ((mergeRun (initMerge ⟨1, 4, 64, 0, false, 8⟩ true 0)
      [MInput.chan ⟨1, Chan.A⟩ 0, MInput.chan ⟨2, Chan.A⟩ 0, MInput.chan ⟨8, Chan.A⟩ 0]).gapCalls
      = [(3, 7)]) := by
  have hdist : (pkt.seq + U64 - st.nextSeq) % U64 = pkt.seq - st.nextSeq := by
    have hsum : pkt.seq + U64 - st.nextSeq = (pkt.seq - st.nextSeq) + U64 := by omega
    rw [hsum, Nat.add_mod_right]
    exact Nat.mod_eq_of_lt (by omega)
  refine ⟨?_, ?_, ?_, ?_⟩
  · unfold handleChannel
    rw [if_neg (by omega), if_neg (by omega), hdist, if_neg (by
      rw [not_and_or]
      rcases hfar with h | h
      · exact Or.inl (by omega)
      · exact Or.inr (by omega))]
    unfold gapAction
    rw [if_pos (by simp [hrec, hgt])]
  · intro st' pkt' now' hle
    unfold handleChannel
    split
    · rfl
    · split
      · rw [hysteresis_gapCalls, drainRing_gapCalls]
      · rename_i h1 h2
        exfalso
        omega
  · simp [mergeOutSeqs, mergeRun, mergeStep, handleChannel, initMerge, drainRing,
      hysteresis, gapAction, bufferPkt, U64, List.replicate, SWITCH_TO_A_AFTER,
      SWITCH_TO_B_AFTER]
  · simp [mergeOutSeqs, mergeRun, mergeStep, handleChannel, initMerge, drainRing,
      hysteresis, gapAction, bufferPkt, U64, List.replicate, SWITCH_TO_A_AFTER,
      SWITCH_TO_B_AFTER]

theorem C5_gap_drop_notify_witness :
    ((initMerge ⟨1, 4, 64, 0, false, 8⟩ true 0).hasRecovery = true ∧
     (initMerge ⟨1, 4, 64, 0, false, 8⟩ true 0).nextSeq < 8 ∧ (8 : Nat) < U64 ∧
     ((initMerge ⟨1, 4, 64, 0, false, 8⟩ true 0).reorderWindow <
        8 - (initMerge ⟨1, 4, 64, 0, false, 8⟩ true 0).nextSeq ∨
      (initMerge ⟨1, 4, 64, 0, false, 8⟩ true 0).maxPending ≤
        (initMerge ⟨1, 4, 64, 0, false, 8⟩ true 0).pendingCount)) ∧
    handleChannel (initMerge ⟨1, 4, 64, 0, false, 8⟩ true 0) ⟨8, Chan.A⟩ 0 =
      { initMerge ⟨1, 4, 64, 0, false, 8⟩ true 0 with
        recentGaps := (initMerge ⟨1, 4, 64, 0, false, 8⟩ true 0).recentGaps + 1,
        gapCalls := (initMerge ⟨1, 4, 64, 0, false, 8⟩ true 0).gapCalls ++ [(1, 7)] } := by
  have h1 : (initMerge ⟨1, 4, 64, 0, false, 8⟩ true 0).hasRecovery = true := rfl
  have h2 : (initMerge ⟨1, 4, 64, 0, false, 8⟩ true 0).nextSeq < 8 := by
    norm_num [initMerge]
  have h3 : (8 : Nat) < U64 := by norm_num [U64]
  have h4 : (initMerge ⟨1, 4, 64, 0, false, 8⟩ true 0).reorderWindow <
      8 - (initMerge ⟨1, 4, 64, 0, false, 8⟩ true 0).nextSeq ∨
      (initMerge ⟨1, 4, 64, 0, false, 8⟩ true 0).maxPending ≤
      (initMerge ⟨1, 4, 64, 0, false, 8⟩ true 0).pendingCount := by
    left
    norm_num [initMerge]
  exact ⟨⟨h1, h2, h3, h4⟩,
    (C5_gap_drop_notify (initMerge ⟨1, 4, 64, 0, false, 8⟩ true 0) ⟨8, Chan.A⟩ 0
      h1 h2 h3 h4).1⟩

/-- C8 (counterexample): with configured dwell 0 the source substitutes
an effective minimum dwell of 2 ms (`merge.rs` line 50), so on the
claimed input A=1, B=2, B=3, A=4 processed with no wall-clock progress
(every `now_nanos()` sample equal to the start time), the forwarding
log is the claimed [A, B, B, A] but the preferred channel never
switches: it is still A after seq 3 and seq 4, contradicting the
claim's "the preferred channel switches from A to B after forwarding
seq 3". -/
theorem C8_hysteresis_counterexample :
    ((mergeRun (initMerge ⟨1, 4, 64, 0, false, 8⟩ false 0)
      [MInput.chan ⟨1, Chan.A⟩ 0, MInput.chan ⟨2, Chan.B⟩ 0,
       MInput.chan ⟨3, Chan.B⟩ 0, MInput.chan ⟨4, Chan.A⟩ 0]).outputs.map MPkt.chan
      = [Chan.A, Chan.B, Chan.B, Chan.A]) ∧
    (mergeRun (initMerge ⟨1, 4, 64, 0, false, 8⟩ false 0)
      [MInput.chan ⟨1, Chan.A⟩ 0, MInput.chan ⟨2, Chan.B⟩ 0,
       MInput.chan ⟨3, Chan.B⟩ 0, MInput.chan ⟨4, Chan.A⟩ 0]).preferA = true := by
  constructor <;>
    simp [mergeRun, mergeStep, handleChannel, initMerge, drainRing, hysteresis,
      gapAction, bufferPkt, U64, List.replicate, SWITCH_TO_A_AFTER, SWITCH_TO_B_AFTER]

/-- C8 (amended): with configured dwell 0 the effective minimum dwell
is 2 ms; on a run of A=1, B=2, B=3, A=4 in which at least 2 ms of wall
clock have elapsed by the time seq 3 is forwarded, the forwarding
channel log is [A, B, B, A], the preferred channel switches from A to B
after forwarding seq 3 (streak of 2 non-preferred forwards with the
2 ms dwell elapsed), and it remains B after forwarding seq 4; at that
point `streak_preferred = 0` and `streak_nonpreferred = 1` (the A
forward while preferring B increments the non-preferred streak), and
the switch back to A would require `streak_preferred ≥ 8`. -/
theorem C8_hysteresis_amended :
    (initMerge ⟨1, 4, 64, 0, false, 8⟩ false 0).minDwellNs = 2000000 ∧
    ((mergeRun (initMerge ⟨1, 4, 64, 0, false, 8⟩ false 0)
      [MInput.chan ⟨1, Chan.A⟩ 0, MInput.chan ⟨2, Chan.B⟩ 1000000,
       MInput.chan ⟨3, Chan.B⟩ 2000000, MInput.chan ⟨4, Chan.A⟩ 3000000]).outputs.map MPkt.chan
      = [Chan.A, Chan.B, Chan.B, Chan.A]) ∧
    (mergeRun (initMerge ⟨1, 4, 64, 0, false, 8⟩ false 0)
      [MInput.chan ⟨1, Chan.A⟩ 0, MInput.chan ⟨2, Chan.B⟩ 1000000,
       MInput.chan ⟨3, Chan.B⟩ 2000000]).preferA = false ∧
    (mergeRun (initMerge ⟨1, 4, 64, 0, false, 8⟩ false 0)
      [MInput.chan ⟨1, Chan.A⟩ 0, MInput.chan ⟨2, Chan.B⟩ 1000000,
       MInput.chan ⟨3, Chan.B⟩ 2000000, MInput.chan ⟨4, Chan.A⟩ 3000000]).preferA = false ∧
    (mergeRun (initMerge ⟨1, 4, 64, 0, false, 8⟩ false 0)
      [MInput.chan ⟨1, Chan.A⟩ 0, MInput.chan ⟨2, Chan.B⟩ 1000000,
       MInput.chan ⟨3, Chan.B⟩ 2000000, MInput.chan ⟨4, Chan.A⟩ 3000000]).streakPreferred = 0 ∧
    (mergeRun (initMerge ⟨1, 4, 64, 0, false, 8⟩ false 0)
      [MInput.chan ⟨1, Chan.A⟩ 0, MInput.chan ⟨2, Chan.B⟩ 1000000,
       MInput.chan ⟨3, Chan.B⟩ 2000000, MInput.chan ⟨4, Chan.A⟩ 3000000]).streakNonpreferred = 1
      := by
  refine ⟨rfl, ?_, ?_, ?_, ?_, ?_⟩ <;>
    simp [mergeRun, mergeStep, handleChannel, initMerge, drainRing, hysteresis,
      gapAction, bufferPkt, U64, List.replicate, SWITCH_TO_A_AFTER, SWITCH_TO_B_AFTER]

theorem itchRun_total (st0 : ItchState) (rem0 : List Byte) :
    ∃ r, itchRun st0 rem0 = some r ∧ r.2.length ≤ rem0.length := by
  refine itchRun.induct
    (fun st rem => ∃ r, itchRun st rem = some r ∧ r.2.length ≤ rem.length)
    ?_ ?_ ?_ ?_ ?_ ?_ ?_ ?_ st0 rem0
  · intro st rem h3 hre
    rw [readBE_isSome (by omega : 0 + 2 ≤ rem.length)] at hre
    simp at hre
  · intro st rem h3 msgLen hre hlt
    rw [itchRun, dif_pos h3, hre]
    dsimp only
    rw [dif_pos hlt]
    exact ⟨(st, []), rfl, by simp⟩
  · intro st rem h3 msgLen hre hz htr
    rw [itchRun, dif_pos h3, hre]
    dsimp only
    rw [dif_neg hz, dif_pos htr]
    exact ⟨(st, []), rfl, by simp⟩
  · intro st rem h3 msgLen hre hz htr hbyte
    obtain ⟨v, hv⟩ := @byteAt_isSome rem 2 (by omega)
    rw [hv] at hbyte
    simp at hbyte
  · intro st rem h3 msgLen hre hz htr typ hbyte body hnone
    obtain ⟨r, hr, hb⟩ := itchHandle_total typ body st
    rw [hr] at hnone
    simp at hnone
  · intro st rem h3 msgLen hre hz htr typ hbyte body st2 evs2 hhandle hnone ih
    obtain ⟨r, hr, hb⟩ := ih
    rw [hnone] at hr
    simp at hr
  · intro st rem h3 msgLen hre hz htr typ hbyte body st2 evs2 hhandle st3 evs3 hrec ih
    rw [itchRun, dif_pos h3, hre]
    dsimp only
    rw [dif_neg hz, dif_neg htr, hbyte]
    dsimp only
    rw [hhandle]
    dsimp only
    rw [hrec]
    refine ⟨(st3, evs2 ++ evs3), rfl, ?_⟩
    obtain ⟨rh, hrh, hbh⟩ := itchHandle_total typ body st
    rw [hhandle] at hrh
    obtain ⟨rr, hrr, hbr⟩ := ih
    rw [hrec] at hrr
    have h2 : evs2.length ≤ 2 := by
      cases hrh
      exact hbh
    have h3' : evs3.length ≤ (rem.drop (2 + msgLen)).length := by
      cases hrr
      exact hbr
    rw [List.length_drop] at h3'
    simp only [List.length_append]
    omega
  · intro st rem h3
    rw [itchRun, dif_neg h3]
    exact ⟨(st, []), rfl, by simp⟩

theorem readLE_isSome {b : List Byte} {off n : Nat} (h : off + n ≤ b.length) :
    readLE b off n = some (((b.drop off).take n).foldr (fun x a => a * 256 + x) 0) := by
  simp [readLE, h]

theorem eobiHandle_len (templateId : Nat) (body : List Byte) :
    (eobiHandle templateId body).length ≤ 1 := by
  unfold eobiHandle eobiDecodeAdd eobiDecodeMod eobiDecodeDel eobiDecodeTrade
  repeat' split
  all_goals simp

theorem eobiRun_total (rem0 : List Byte) :
    ∃ evs, eobiRun rem0 = some evs ∧ evs.length ≤ rem0.length := by
  refine eobiRun.induct
    (fun rem => ∃ evs, eobiRun rem = some evs ∧ evs.length ≤ rem.length)
    ?_ ?_ ?_ ?_ ?_ rem0
  · intro x h8 blockLen templateId pxRaw qtyRaw h6 h4 h2 h0 htr
    rw [eobiRun, dif_pos h8, h0, h2, h4, h6]
    dsimp only
    rw [dif_pos htr]
    exact ⟨[], rfl, by simp⟩
  · intro x h8 blockLen templateId pxRaw qtyRaw h6 h4 h2 h0 htr hnone ih
    obtain ⟨evs, hevs, hb⟩ := ih
    rw [hnone] at hevs
    simp at hevs
  · intro x h8 blockLen templateId pxRaw qtyRaw h6 h4 h2 h0 htr evs2 hrec ih
    rw [eobiRun, dif_pos h8, h0, h2, h4, h6]
    dsimp only
    rw [dif_neg htr, hrec]
    refine ⟨_, rfl, ?_⟩
    obtain ⟨evs3, hevs3, hb3⟩ := ih
    rw [hrec] at hevs3
    have hb2 : evs2.length ≤ (x.drop (8 + blockLen)).length := by
      cases hevs3
      exact hb3
    rw [List.length_drop] at hb2
    have hhl := eobiHandle_len templateId ((x.drop 8).take blockLen)
    simp only [List.length_append]
    omega
  · intro x h8 hmiss
    exfalso
    have h0 := @readLE_isSome x 0 2 (by omega)
    have h2 := @readLE_isSome x 2 2 (by omega)
    have h4 := @readLE_isSome x 4 2 (by omega)
    have h6 := @readLE_isSome x 6 2 (by omega)
    exact hmiss _ _ _ _ h0 h2 h4 h6
  · intro x h8
    rw [eobiRun, dif_neg h8]
    exact ⟨[], rfl, by simp⟩

theorem length_ite_le {α : Type} (c : Prop) [Decidable c] (a b : List α) (n : Nat)
    (ha : a.length ≤ n) (hb : b.length ≤ n) : (ite c a b).length ≤ n := by
  split
  · exact ha
  · exact hb

theorem fastHandle_len (tmpl : Nat) (body : List Byte) (pmap : Nat) :
    (fastHandle tmpl body pmap).length ≤ 1 := by
  unfold fastHandle fastAdd fastMod fastDel fastTrade
  split_ifs
  all_goals repeat' (first | apply length_ite_le | split)
  all_goals simp

theorem fastRun_len (rem0 : List Byte) : (fastRun rem0).length ≤ rem0.length := by
  refine fastRun.induct (fun rem => (fastRun rem).length ≤ rem.length)
    ?_ ?_ ?_ ?_ ?_ ?_ rem0
  · intro x h0
    rw [fastRun.eq_def, dif_pos h0]
    simp
  · intro x hnil rp hp
    simp only [rp] at hp
    rw [fastRun.eq_def, dif_neg hnil]
    dsimp only
    rw [dif_pos hp]
    simp
  · intro x hnil rp hp rem1 rt ht
    simp only [rp] at hp
    simp only [rt, rem1, rp] at ht
    rw [fastRun.eq_def, dif_neg hnil]
    dsimp only
    rw [dif_neg hp, dif_pos ht]
    simp
  · intro x hnil rp hp rem1 rt ht rem2 rb hb
    simp only [rp] at hp
    simp only [rt, rem1, rp] at ht
    simp only [rb, rem2, rt, rem1, rp] at hb
    rw [fastRun.eq_def, dif_neg hnil]
    dsimp only
    rw [dif_neg hp, dif_neg ht, dif_pos hb]
    simp
  · intro x hnil rp hp rem1 rt ht rem2 rb hb rem3 htr
    simp only [rp] at hp
    simp only [rt, rem1, rp] at ht
    simp only [rb, rem2, rt, rem1, rp] at hb
    simp only [rem3, rb, rem2, rt, rem1, rp] at htr
    rw [fastRun.eq_def, dif_neg hnil]
    dsimp only
    rw [dif_neg hp, dif_neg ht, dif_neg hb, dif_pos htr]
    simp
  · intro x hnil rp hp rem1 rt ht rem2 rb hb rem3 htr ih
    simp only [rp] at hp
    simp only [rt, rem1, rp] at ht
    simp only [rb, rem2, rt, rem1, rp] at hb
    simp only [rem3, rb, rem2, rt, rem1, rp] at htr ih
    rw [fastRun.eq_def, dif_neg hnil]
    dsimp only
    rw [dif_neg hp, dif_neg ht, dif_neg hb, dif_neg htr]
    simp only [List.length_append]
    refine le_trans (Nat.add_le_add (fastHandle_len _ _ _) ih) ?_
    simp only [List.length_drop]
    omega

/-- ITCH 'A' Add message for order_ref 10, locate 5, side 'B',
100 shares, price 1,000,000 (framing `[0,36]['A'][35-byte body]`). -/
def itchAddMsg : List Byte :=
  [0, 36, 65,
   0, 5, 0, 0, 0, 0, 0, 0, 0, 0,
   0, 0, 0, 0, 0, 0, 0, 10,
   66,
   0, 0, 0, 100,
   0, 0, 0, 0, 0, 0, 0, 0,
   0, 15, 66, 64]

/-- ITCH 'E' Executed message for order_ref 10, `executed` shares
(framing `[0,31]['E'][30-byte body]`). -/
def itchExecMsg (executed : Byte) : List Byte :=
  [0, 31, 69,
   0, 5, 0, 0, 0, 0, 0, 0, 0, 0,
   0, 0, 0, 0, 0, 0, 0, 10,
   0, 0, 0, executed,
   0, 0, 0, 0, 0, 0, 0, 0]

/-- A 30-byte ITCH Executed body: locate 5, order_ref 10, executed 40. -/
def itchBody30 : List Byte :=
  [0, 5, 0, 0, 0, 0, 0, 0, 0, 0,
   0, 0, 0, 0, 0, 0, 0, 10,
   0, 0, 0, 40,
   0, 0, 0, 0, 0, 0, 0, 0]

/-- C4: for every byte vector `b` with `0 ≤ |b| ≤ 4096` and each of the
three decoders (ITCH-5.0 in any decoder state `st`, EOBI-SBE, FAST-EMDI),
`decode_messages(b, out)` terminates without panicking — the embedding,
in which `none` models a panic and every slice access is bounds-checked,
returns a value — and appends at most `|b|` events to `out`. -/
theorem C4_decoder_robustness (b : List Byte) (st : ItchState) (hb : b.length ≤ 4096) :
    (∃ r, itchRun st b = some r ∧ r.2.length ≤ b.length) ∧
    (∃ evs, eobiRun b = some evs ∧ evs.length ≤ b.length) ∧
    (fastRun b).length ≤ b.length :=
  ⟨itchRun_total st b, eobiRun_total b, fastRun_len b⟩

theorem C4_decoder_robustness_witness :
    ([1, 2, 3] : List Byte).length ≤ 4096 ∧
    ((∃ r, itchRun ItchState.init [1, 2, 3] = some r ∧
        r.2.length ≤ ([1, 2, 3] : List Byte).length) ∧
     (∃ evs, eobiRun [1, 2, 3] = some evs ∧ evs.length ≤ ([1, 2, 3] : List Byte).length) ∧
     (fastRun [1, 2, 3]).length ≤ ([1, 2, 3] : List Byte).length) :=
  ⟨by decide, C4_decoder_robustness [1, 2, 3] ItchState.init (by decide)⟩

/-- C6: for an ITCH Executed message whose order_ref (bytes 10..18 of
the body) is tracked with state `s`, the decoder emits `Modify` with the
new absolute quantity `s.qty - executed` when that is positive,
otherwise `Delete` (removing the state entry), followed in both cases by
a `Trade` with the stored instrument/price, qty = executed, maker =
order_ref and taker = opposite of the stored side; and on the concrete
scenario Add{10, instr 5, Bid, px 1000000, qty 100} then Executed{40}
then Executed{60}, the events are Modify{10,60}, Trade{40, taker Ask},
Delete{10}, Trade{60}, and the state entry for 10 is gone. -/
theorem C6_itch_executed (body : List Byte) (st : ItchState) (wp : Bool)
    (s : ItchOrderState) (hlen : 30 ≤ body.length)
    (hord : st.orders (beVal body 10 8) = some s) :
    (0 < s.qty - (beVal body 18 4 : Int) →
      onExec body st wp = some
        ({ st with
            orders := mapInsert st.orders (beVal body 10 8)
              { s with qty := s.qty - (beVal body 18 4 : Int) } },
         [Event.mod (beVal body 10 8) (s.qty - (beVal body 18 4 : Int)),
          Event.trade s.instr s.px (beVal body 18 4 : Int) (some (beVal body 10 8))
            (some s.side.opposite)])) ∧
    (s.qty - (beVal body 18 4 : Int) ≤ 0 →
      onExec body st wp = some
        ({ st with orders := mapRemove st.orders (beVal body 10 8) },
         [Event.del (beVal body 10 8),
          Event.trade s.instr s.px (beVal body 18 4 : Int) (some (beVal body 10 8))
            (some s.side.opposite)])) ∧
    ((itchRun ItchState.init (itchAddMsg ++ itchExecMsg 40 ++ itchExecMsg 60)).map
      (fun r => (r.2, r.1.orders 10)) = some
        ([Event.add 10 5 1000000 100 Side.Bid,
          Event.mod 10 60,
          Event.trade 5 1000000 40 (some 10) (some Side.Ask),
          Event.del 10,
          Event.trade 5 1000000 60 (some 10) (some Side.Ask)], none)) := by
  refine ⟨?_, ?_, ?_⟩
  · intro hpos
    unfold onExec
    rw [if_neg (not_lt.2 hlen)]
    rw [readBE_isSome (by omega : 0 + 2 ≤ body.length),
        readBE_isSome (by omega : 10 + 8 ≤ body.length),
        readBE_isSome (by omega : 18 + 4 ≤ body.length)]
    simp only [optBind_some]
    rw [hord]
    dsimp only
    rw [if_pos (by omega : max (s.qty - (beVal body 18 4 : Int)) 0 > 0)]
    rw [max_eq_left (by omega : (0 : Int) ≤ s.qty - (beVal body 18 4 : Int))]
    rfl
  · intro hneg
    unfold onExec
    rw [if_neg (not_lt.2 hlen)]
    rw [readBE_isSome (by omega : 0 + 2 ≤ body.length),
        readBE_isSome (by omega : 10 + 8 ≤ body.length),
        readBE_isSome (by omega : 18 + 4 ≤ body.length)]
    simp only [optBind_some]
    rw [hord]
    dsimp only
    rw [if_neg (by omega : ¬ max (s.qty - (beVal body 18 4 : Int)) 0 > 0)]
    rfl
  · simp [itchRun, itchHandle, onAdd, onExec, addMinLen, readBE, beVal, byteAt,
      mapInsert, mapRemove, itchAddMsg, itchExecMsg, ItchState.init, Side.opposite]

theorem C6_itch_executed_witness :
    (30 ≤ itchBody30.length ∧
      (⟨mapInsert (fun _ => none) 10 ⟨5, 100, 1000000, Side.Bid⟩,
        fun _ => none⟩ : ItchState).orders (beVal itchBody30 10 8) =
        some ⟨5, 100, 1000000, Side.Bid⟩) ∧
    ((itchRun ItchState.init (itchAddMsg ++ itchExecMsg 40 ++ itchExecMsg 60)).map
      (fun r => (r.2, r.1.orders 10)) = some
        ([Event.add 10 5 1000000 100 Side.Bid,
          Event.mod 10 60,
          Event.trade 5 1000000 40 (some 10) (some Side.Ask),
          Event.del 10,
          Event.trade 5 1000000 60 (some 10) (some Side.Ask)], none)) :=
  ⟨⟨by decide, by decide⟩,
    (C6_itch_executed itchBody30
      ⟨mapInsert (fun _ => none) 10 ⟨5, 100, 1000000, Side.Bid⟩, fun _ => none⟩
      false ⟨5, 100, 1000000, Side.Bid⟩ (by decide) (by decide)).2.2⟩

/-- ITCH 'D' Delete message for order_ref 10 (framing `[0,19]['D'][18-byte body]`). -/
def itchDelMsg : List Byte :=
  [0, 19, 68,
   0, 5, 0, 0, 0, 0, 0, 0, 0, 0,
   0, 0, 0, 0, 0, 0, 0, 10]

/-- C9 (counterexample): a well-formed ITCH 'D' message of sufficient
body length whose order_ref (10) is not in the decoder state produces
NO event at all — `on_delete` pushes `Delete` only when
`st.orders.remove(&order_ref)` returned an entry — refuting "the
decoder always emits Delete{order_ref} regardless of the order's prior
quantity". -/
theorem C9_itch_delete_counterexample :
    (itchRun ItchState.init itchDelMsg).map (fun r => r.2) = some [] := by
  simp [itchRun, itchHandle, onDelete, readBE, beVal, byteAt, itchDelMsg,
    ItchState.init]

/-- C9 (amended): for every ITCH 'D' message of sufficient body length
carrying order_ref, when order_ref is present in the decoder state the
decoder emits Delete{order_ref} and removes the state entry, regardless
of the order's prior quantity; when order_ref is absent no event is
emitted and the state is unchanged. -/
theorem C9_itch_delete (body : List Byte) (st : ItchState) (hlen : 18 ≤ body.length) :
    (∀ s, st.orders (beVal body 10 8) = some s →
      onDelete body st = some
        ({ st with orders := mapRemove st.orders (beVal body 10 8) },
         [Event.del (beVal body 10 8)])) ∧
    (st.orders (beVal body 10 8) = none → onDelete body st = some (st, [])) := by
  constructor
  · intro s hord
    unfold onDelete
    rw [if_neg (not_lt.2 hlen)]
    rw [readBE_isSome (by omega : 0 + 2 ≤ body.length),
        readBE_isSome (by omega : 10 + 8 ≤ body.length)]
    simp only [optBind_some]
    rw [hord]
  · intro hord
    unfold onDelete
    rw [if_neg (not_lt.2 hlen)]
    rw [readBE_isSome (by omega : 0 + 2 ≤ body.length),
        readBE_isSome (by omega : 10 + 8 ≤ body.length)]
    simp only [optBind_some]
    rw [hord]

theorem C9_itch_delete_witness :
    18 ≤ (List.replicate 18 (0 : Byte)).length ∧
    ((ItchState.init).orders (beVal (List.replicate 18 (0 : Byte)) 10 8) = none →
      onDelete (List.replicate 18 (0 : Byte)) ItchState.init =
        some (ItchState.init, [])) :=
  ⟨by decide, (C9_itch_delete (List.replicate 18 0) ItchState.init (by decide)).2⟩

/-! ## L3 order book (`orderbook.rs`)

Functional embedding.  Handles are `Nat` (the `NonZeroUsize` wrapping
via `to_nz`/`from_nz` is `h ↦ h+1 ↦ h`, the identity on stored
handles).  The `slab::Slab` node store is a partial map with a
high-water mark: `insert` uses the fresh key `nextH` (the crate returns
some vacant key, possibly reusing freed ones; no observable studied
here depends on the choice).  The `hashbrown::HashMap`s are association
lists with insert-or-replace semantics, iteration order abstracted as
insertion order; the `BTreeMap` overflow maps are association lists
kept sorted by strictly increasing key.  A Rust panic site
(`orders[h]` on a vacant slot) is modelled as a no-op and shown
unreachable on the books the claims quantify over. -/

abbrev Handle := Nat

/-- `orderbook.rs::Node`. -/
structure Node where
  price : Int
  qty : Int
  side : Side
  prev : Option Handle
  next : Option Handle
deriving Repr, DecidableEq

/-- `Node::new`. -/
def Node.new (price qty : Int) (side : Side) : Node :=
  ⟨price, qty, side, none, none⟩

/-- `orderbook.rs::Level`. -/
structure Level where
  head : Option Handle
  tail : Option Handle
  total_qty : Int
  count : Nat
deriving Repr, DecidableEq

/-- `Level::default`. -/
def Level.default : Level := ⟨none, none, 0, 0⟩

/-- `Level::is_empty`: `count == 0`. -/
def Level.isEmpty (l : Level) : Bool := l.count = 0

/-- `orderbook.rs::PriceGrid`; `slots` is the fixed vector of length
`span`, modelled as a function that is `none` from `span` on. -/
structure PriceGrid where
  initialized : Bool
  start_price : Int
  tick : Int
  span : Nat
  slots : Nat → Option Level

/-- `PriceGrid::new`. -/
def PriceGrid.new (tick : Int) (span : Nat) : PriceGrid :=
  ⟨false, 0, tick, span, fun _ => none⟩

/-- `PriceGrid::init_around`: centre the window on `price` floored to
the tick (`rem_euclid` is `Int.emod`). -/
def PriceGrid.initAround (g : PriceGrid) (price : Int) : PriceGrid :=
  { g with
    start_price := (price - price.emod g.tick) - ((g.span / 2 : Nat) : Int) * g.tick,
    initialized := true }

/-- `PriceGrid::price_to_idx`.  After the `d < 0` check, `d` is
nonnegative and every grid has `tick = 1 > 0`, so Rust's `%` and `/`
agree with the `Nat` operations on `toNat` images. -/
def PriceGrid.priceToIdx (g : PriceGrid) (price : Int) : Option Nat :=
  if !g.initialized then none
  else
    let d := price - g.start_price
    if d < 0 then none
    else if d.toNat % g.tick.toNat ≠ 0 then none
    else
      let idx := d.toNat / g.tick.toNat
      if idx < g.span then some idx else none

/-- `PriceGrid::get`. -/
def PriceGrid.getL (g : PriceGrid) (price : Int) : Option Level :=
  match g.priceToIdx price with
  | some i => g.slots i
  | none => none

/-- Write one slot. -/
def PriceGrid.setSlot (g : PriceGrid) (i : Nat) (l : Option Level) : PriceGrid :=
  { g with slots := fun j => if j = i then l else g.slots j }

/-- `PriceGrid::get_mut_or_create`, as a state transformer returning
the in-grid index when the price is in range. -/
def PriceGrid.getOrCreate (g : PriceGrid) (price : Int) : PriceGrid × Option Nat :=
  let g1 := if !g.initialized then g.initAround price else g
  match g1.priceToIdx price with
  | some i =>
    (if (g1.slots i).isNone then g1.setSlot i (some Level.default) else g1, some i)
  | none => (g1, none)

/-- `PriceGrid::remove`: clears the slot only when it holds an empty
level; the Bool is the Rust return value. -/
def PriceGrid.removeL (g : PriceGrid) (price : Int) : PriceGrid × Bool :=
  match g.priceToIdx price with
  | some i =>
    match g.slots i with
    | some l => if l.isEmpty then (g.setSlot i none, true) else (g, false)
    | none => (g, false)
  | none => (g, false)

/-- `PriceGrid::best_bid_candidate`: highest occupied non-empty slot. -/
def PriceGrid.bestBidCandidate (g : PriceGrid) : Option (Int × Int) :=
  (List.range g.span).reverse.findSome? fun i =>
    match g.slots i with
    | some l =>
      if !l.isEmpty then some (g.start_price + (i : Int) * g.tick, l.total_qty) else none
    | none => none

/-- `PriceGrid::best_ask_candidate`: lowest occupied non-empty slot. -/
def PriceGrid.bestAskCandidate (g : PriceGrid) : Option (Int × Int) :=
  (List.range g.span).findSome? fun i =>
    match g.slots i with
    | some l =>
      if !l.isEmpty then some (g.start_price + (i : Int) * g.tick, l.total_qty) else none
    | none => none

/-- `BTreeMap<i64, Level>`: association list sorted by ascending key. -/
abbrev OvMap := List (Int × Level)

/-- `BTreeMap::get`. -/
def OvMap.find? : OvMap → Int → Option Level
  | [], _ => none
  | (q, l) :: rest, p => if p = q then some l else OvMap.find? rest p

/-- `BTreeMap::insert` / `entry().or_default()` write-back: insert or
replace, preserving sortedness. -/
def OvMap.setL : OvMap → Int → Level → OvMap
  | [], p, l => [(p, l)]
  | (q, lv) :: rest, p, l =>
    if p < q then (p, l) :: (q, lv) :: rest
    else if p = q then (p, l) :: rest
    else (q, lv) :: OvMap.setL rest p l

/-- `BTreeMap::remove`. -/
def OvMap.erase : OvMap → Int → OvMap
  | [], _ => []
  | (q, lv) :: rest, p => if p = q then OvMap.erase rest p else (q, lv) :: OvMap.erase rest p

/-- `iter().next_back()`: greatest key of a sorted map. -/
def OvMap.maxEntry (m : OvMap) : Option (Int × Level) := m.getLast?

/-- `iter().next()`: least key of a sorted map. -/
def OvMap.minEntry (m : OvMap) : Option (Int × Level) := m.head?

/-- `slab::Slab<Node>` (see the section comment). -/
structure Slab where
  nodes : Handle → Option Node
  nextH : Nat

/-- Empty slab. -/
def Slab.empty : Slab := ⟨fun _ => none, 0⟩

/-- `Slab::insert`: returns the store and the vacant key used. -/
def Slab.insert (sl : Slab) (n : Node) : Slab × Handle :=
  (⟨fun j => if j = sl.nextH then some n else sl.nodes j, sl.nextH + 1⟩, sl.nextH)

/-- `orders[h] = n` (write to an occupied slot). -/
def Slab.set (sl : Slab) (h : Handle) (n : Node) : Slab :=
  ⟨fun j => if j = h then some n else sl.nodes j, sl.nextH⟩

/-- `Slab::remove`. -/
def Slab.remove (sl : Slab) (h : Handle) : Slab :=
  ⟨fun j => if j = h then none else sl.nodes j, sl.nextH⟩

/-- `orderbook.rs::InstrumentBook`. -/
structure InstrumentBook where
  bids_grid : PriceGrid
  asks_grid : PriceGrid
  bids_overflow : OvMap
  asks_overflow : OvMap
  orders : Slab
  best_bid : Option Int
  best_ask : Option Int
  best_bid_qty : Int
  best_ask_qty : Int

/-- `InstrumentBook::with_capacity` (the capacity argument is an
allocation hint with no semantic content). -/
def InstrumentBook.withCapacity : InstrumentBook :=
  ⟨PriceGrid.new 1 16384, PriceGrid.new 1 16384, [], [], Slab.empty, none, none, 0, 0⟩

/-- `InstrumentBook::ensure_level_mut`, reduced to its state effect:
make the level for `(side, price)` exist — in the grid when the price
maps into it (initializing the grid on first use), else in the
overflow map. -/
def InstrumentBook.ensureLevel (b : InstrumentBook) (side : Side) (price : Int) :
    InstrumentBook :=
  match side with
  | Side.Bid =>
    let gi := b.bids_grid.getOrCreate price
    match gi.2 with
    | some _ => { b with bids_grid := gi.1 }
    | none =>
      { b with
        bids_grid := gi.1,
        bids_overflow :=
          if (OvMap.find? b.bids_overflow price).isSome then b.bids_overflow
          else OvMap.setL b.bids_overflow price Level.default }
  | Side.Ask =>
    let gi := b.asks_grid.getOrCreate price
    match gi.2 with
    | some _ => { b with asks_grid := gi.1 }
    | none =>
      { b with
        asks_grid := gi.1,
        asks_overflow :=
          if (OvMap.find? b.asks_overflow price).isSome then b.asks_overflow
          else OvMap.setL b.asks_overflow price Level.default }

/-- `InstrumentBook::get_level` (also the read end of
`get_level_mut`): grid first, then overflow. -/
def InstrumentBook.getLevel? (b : InstrumentBook) (side : Side) (price : Int) :
    Option Level :=
  match side with
  | Side.Bid =>
    match b.bids_grid.getL price with
    | some l => some l
    | none => OvMap.find? b.bids_overflow price
  | Side.Ask =>
    match b.asks_grid.getL price with
    | some l => some l
    | none => OvMap.find? b.asks_overflow price

/-- The write end of `get_level_mut`: store `l` where `get_level_mut`
found the level (grid slot when occupied, else existing overflow
entry); no effect when `get_level_mut` would return `None`. -/
def InstrumentBook.setLevel (b : InstrumentBook) (side : Side) (price : Int)
    (l : Level) : InstrumentBook :=
  match side with
  | Side.Bid =>
    match b.bids_grid.priceToIdx price with
    | some i =>
      if (b.bids_grid.slots i).isSome then
        { b with bids_grid := b.bids_grid.setSlot i (some l) }
      else if (OvMap.find? b.bids_overflow price).isSome then
        { b with bids_overflow := OvMap.setL b.bids_overflow price l }
      else b
    | none =>
      if (OvMap.find? b.bids_overflow price).isSome then
        { b with bids_overflow := OvMap.setL b.bids_overflow price l }
      else b
  | Side.Ask =>
    match b.asks_grid.priceToIdx price with
    | some i =>
      if (b.asks_grid.slots i).isSome then
        { b with asks_grid := b.asks_grid.setSlot i (some l) }
      else if (OvMap.find? b.asks_overflow price).isSome then
        { b with asks_overflow := OvMap.setL b.asks_overflow price l }
      else b
    | none =>
      if (OvMap.find? b.asks_overflow price).isSome then
        { b with asks_overflow := OvMap.setL b.asks_overflow price l }
      else b

/-- `InstrumentBook::remove_level_if_empty`. -/
def InstrumentBook.removeLevelIfEmpty (b : InstrumentBook) (side : Side) (price : Int) :
    InstrumentBook :=
  match side with
  | Side.Bid =>
    let gr := b.bids_grid.removeL price
    if gr.2 then { b with bids_grid := gr.1 }
    else
      match OvMap.find? b.bids_overflow price with
      | some l =>
        if l.isEmpty then { b with bids_overflow := OvMap.erase b.bids_overflow price }
        else b
      | none => b
  | Side.Ask =>
    let gr := b.asks_grid.removeL price
    if gr.2 then { b with asks_grid := gr.1 }
    else
      match OvMap.find? b.asks_overflow price with
      | some l =>
        if l.isEmpty then { b with asks_overflow := OvMap.erase b.asks_overflow price }
        else b
      | none => b

/-- `InstrumentBook::recompute_best_after_removal`. -/
def InstrumentBook.recomputeBestAfterRemoval (b : InstrumentBook) (side : Side) :
    InstrumentBook :=
  match side with
  | Side.Bid =>
    let gridCand := b.bids_grid.bestBidCandidate
    let ofCand := (OvMap.maxEntry b.bids_overflow).map (fun e => (e.1, e.2.total_qty))
    let pick := match gridCand, ofCand with
      | some g, some o => if g.1 ≥ o.1 then some g else some o
      | some g, none => some g
      | none, some o => some o
      | none, none => none
    match pick with
    | some pq => { b with best_bid := some pq.1, best_bid_qty := pq.2 }
    | none => { b with best_bid := none, best_bid_qty := 0 }
  | Side.Ask =>
    let gridCand := b.asks_grid.bestAskCandidate
    let ofCand := (OvMap.minEntry b.asks_overflow).map (fun e => (e.1, e.2.total_qty))
    let pick := match gridCand, ofCand with
      | some g, some o => if g.1 ≤ o.1 then some g else some o
      | some g, none => some g
      | none, some o => some o
      | none, none => none
    match pick with
    | some pq => { b with best_ask := some pq.1, best_ask_qty := pq.2 }
    | none => { b with best_ask := none, best_ask_qty := 0 }

/-- `InstrumentBook::add`. -/
def InstrumentBook.add (b : InstrumentBook) (price qty : Int) (side : Side) :
    InstrumentBook × Handle :=
  let ins := b.orders.insert (Node.new price qty side)
  let h := ins.2
  let b := { b with orders := ins.1 }
  let b := b.ensureLevel side price
  let prevTail := ((b.getLevel? side price).getD Level.default).tail
  let b := match prevTail with
    | some t =>
      match b.orders.nodes t with
      | some tn => { b with orders := b.orders.set t { tn with next := some h } }
      | none => b
    | none => b
  let b := match b.orders.nodes h with
    | some hn => { b with orders := b.orders.set h { hn with prev := prevTail, next := none } }
    | none => b
  let lvl1 := (b.getLevel? side price).getD Level.default
  let lvl2 := { lvl1 with
    head := if prevTail.isNone then some h else lvl1.head,
    tail := some h,
    count := lvl1.count + 1,
    total_qty := lvl1.total_qty + qty }
  let b := b.setLevel side price lvl2
  let b := match side with
    | Side.Bid =>
      match b.best_bid with
      | none => { b with best_bid := some price, best_bid_qty := lvl2.total_qty }
      | some bb =>
        if price > bb then { b with best_bid := some price, best_bid_qty := lvl2.total_qty }
        else if bb = price then { b with best_bid_qty := lvl2.total_qty }
        else b
    | Side.Ask =>
      match b.best_ask with
      | none => { b with best_ask := some price, best_ask_qty := lvl2.total_qty }
      | some aa =>
        if price < aa then { b with best_ask := some price, best_ask_qty := lvl2.total_qty }
        else if aa = price then { b with best_ask_qty := lvl2.total_qty }
        else b
  (b, h)

/-- `InstrumentBook::set_qty`; callers guarantee `h` occupied. -/
def InstrumentBook.setQty (b : InstrumentBook) (h : Handle) (newQty : Int) :
    InstrumentBook :=
  match b.orders.nodes h with
  | none => b
  | some n =>
    let b := { b with orders := b.orders.set h { n with qty := newQty } }
    match b.getLevel? n.side n.price with
    | none => b
    | some lvl =>
      let lvl2 := { lvl with total_qty := lvl.total_qty + newQty - n.qty }
      let b := b.setLevel n.side n.price lvl2
      match n.side with
      | Side.Bid =>
        if b.best_bid = some n.price then { b with best_bid_qty := lvl2.total_qty } else b
      | Side.Ask =>
        if b.best_ask = some n.price then { b with best_ask_qty := lvl2.total_qty } else b

/-- `InstrumentBook::cancel`. -/
def InstrumentBook.cancel (b : InstrumentBook) (h : Handle) : InstrumentBook :=
  match b.orders.nodes h with
  | none => b
  | some n =>
    let b := match n.prev with
      | some p =>
        match b.orders.nodes p with
        | some pn => { b with orders := b.orders.set p { pn with next := n.next } }
        | none => b
      | none => b
    let b := match n.next with
      | some nh =>
        match b.orders.nodes nh with
        | some nn => { b with orders := b.orders.set nh { nn with prev := n.prev } }
        | none => b
      | none => b
    let isBest : Bool := match n.side with
      | Side.Bid => b.best_bid == some n.price
      | Side.Ask => b.best_ask == some n.price
    let b := match b.getLevel? n.side n.price with
      | none => b
      | some lvl =>
        let lvl2 := { lvl with
          head := if n.prev.isNone then n.next else lvl.head,
          tail := if n.next.isNone then n.prev else lvl.tail,
          count := lvl.count - 1,
          total_qty := lvl.total_qty - n.qty }
        let b := b.setLevel n.side n.price lvl2
        if lvl2.isEmpty then
          let b := b.removeLevelIfEmpty n.side n.price
          if isBest then b.recomputeBestAfterRemoval n.side else b
        else
          if isBest then
            match n.side with
            | Side.Bid => { b with best_bid_qty := lvl2.total_qty }
            | Side.Ask => { b with best_ask_qty := lvl2.total_qty }
          else b
    { b with orders := b.orders.remove h }

/-- `InstrumentBook::bbo`. -/
def InstrumentBook.bbo (b : InstrumentBook) :
    Option (Int × Int) × Option (Int × Int) :=
  (b.best_bid.map fun p => (p, b.best_bid_qty),
   b.best_ask.map fun p => (p, b.best_ask_qty))

/-- `HashMap::get`. -/
def alFind? {α : Type} : List (Nat × α) → Nat → Option α
  | [], _ => none
  | (q, w) :: rest, k => if k = q then some w else alFind? rest k

/-- `HashMap::insert` (replace in place, else append). -/
def alInsert {α : Type} : List (Nat × α) → Nat → α → List (Nat × α)
  | [], k, v => [(k, v)]
  | (q, w) :: rest, k, v =>
    if k = q then (k, v) :: rest else (q, w) :: alInsert rest k v

/-- `HashMap::remove`. -/
def alErase {α : Type} : List (Nat × α) → Nat → List (Nat × α)
  | [], _ => []
  | (q, w) :: rest, k => if k = q then alErase rest k else (q, w) :: alErase rest k

/-- `orderbook.rs::OrderBook` (the unused `_depth_for_reporting` and
`default_slab_capacity` allocation hint are omitted). -/
structure OrderBook where
  books : List (Nat × InstrumentBook)
  index : List (Nat × (Nat × Handle))
  last_instr : Option Nat
  consume_trades : Bool

/-- `OrderBook::new_with_options` (`new` is `init false`). -/
def OrderBook.init (ct : Bool) : OrderBook := ⟨[], [], none, ct⟩

/-- `OrderBook::book_mut`'s entry (default-created when absent). -/
def OrderBook.getBook (ob : OrderBook) (instr : Nat) : InstrumentBook :=
  (alFind? ob.books instr).getD InstrumentBook.withCapacity

/-- `OrderBook::apply`. -/
def OrderBook.applyEvent (ob : OrderBook) (ev : Event) : OrderBook :=
  match ev with
  | Event.add oid instr px qty side =>
    let bh := (ob.getBook instr).add px qty side
    { ob with
      books := alInsert ob.books instr bh.1,
      index := alInsert ob.index oid (instr, bh.2),
      last_instr := some instr }
  | Event.mod oid qty =>
    match alFind? ob.index oid with
    | none => ob
    | some ih =>
      if qty > 0 then
        { ob with
          books := alInsert ob.books ih.1 ((ob.getBook ih.1).setQty ih.2 qty),
          last_instr := some ih.1 }
      else
        { ob with
          books := alInsert ob.books ih.1 ((ob.getBook ih.1).cancel ih.2),
          index := alErase ob.index oid,
          last_instr := some ih.1 }
  | Event.del oid =>
    match alFind? ob.index oid with
    | none => ob
    | some ih =>
      { ob with
        books := alInsert ob.books ih.1 ((ob.getBook ih.1).cancel ih.2),
        index := alErase ob.index oid,
        last_instr := some ih.1 }
  | Event.trade instr px qty maker taker =>
    let ob := { ob with last_instr := some instr }
    if ob.consume_trades then
      match maker with
      | some oid =>
        match alFind? ob.index oid with
        | none => ob
        | some mh =>
          let bk := ob.getBook mh.1
          let q0 := match bk.orders.nodes mh.2 with
            | some n => n.qty
            | none => 0
          if max (q0 - qty) 0 > 0 then
            { ob with books := alInsert ob.books mh.1 (bk.setQty mh.2 (max (q0 - qty) 0)) }
          else
            { ob with
              books := alInsert ob.books mh.1 (bk.cancel mh.2),
              index := alErase ob.index oid }
      | none => ob
    else ob
  | Event.heartbeat => ob

/-- A sequence of events applied to a book. -/
def OrderBook.applyEvents (ob : OrderBook) (evs : List Event) : OrderBook :=
  evs.foldl OrderBook.applyEvent ob

/-- A book state reachable from a freshly constructed `OrderBook`
(either `consume_trades` setting) by applying events. -/
def Reachable (ob : OrderBook) : Prop :=
  ∃ ct evs, ob = (OrderBook.init ct).applyEvents evs

/-- C10: for every OrderBook state and every Modify or Delete event
whose order_id has no entry in the order index, `OrderBook::apply` is a
complete no-op: the resulting book equals the original in every field
(all instrument books, levels, node slab, cached BBO, index and
last_instr). -/
theorem C10_missing_mod_del_noop (ob : OrderBook) (oid : Nat) (qty : Int)
    (h : alFind? ob.index oid = none) :
    ob.applyEvent (Event.mod oid qty) = ob ∧ ob.applyEvent (Event.del oid) = ob := by
  constructor <;> simp [OrderBook.applyEvent, h]

theorem C10_missing_mod_del_noop_witness :
    alFind? (OrderBook.init false).index 5 = none ∧
    ((OrderBook.init false).applyEvent (Event.mod 5 7) = OrderBook.init false ∧
     (OrderBook.init false).applyEvent (Event.del 5) = OrderBook.init false) :=
  ⟨rfl, C10_missing_mod_del_noop (OrderBook.init false) 5 7 rfl⟩

/-! ### Well-formedness of a book and its FIFO chains (claims C2, C3, C7)

`Seg sl price side pv cur hs last` says: starting at `cur`, whose
node's back pointer must be `pv`, following `next` pointers visits
exactly the handles `hs`, every visited node is stored in `sl` with
this level's price and side, consecutive back pointers are consistent,
and `last` is the last visited handle (`pv` when `hs` is empty, so for
a whole level `Seg … none head hs tail` forces `head`/`tail` to be the
two ends). -/

inductive Seg (sl : Handle → Option Node) (price : Int) (side : Side) :
    Option Handle → Option Handle → List Handle → Option Handle → Prop
  | nil (pv : Option Handle) : Seg sl price side pv none [] pv
  | cons (pv : Option Handle) (h : Handle) (nd : Node) (hs : List Handle)
      (last : Option Handle) :
      sl h = some nd → nd.price = price → nd.side = side → nd.prev = pv →
      Seg sl price side (some h) nd.next hs last →
      Seg sl price side pv (some h) (h :: hs) last

theorem Seg.mem_spec {sl : Handle → Option Node} {price : Int} {side : Side}
    {pv cur : Option Handle} {hs : List Handle} {last : Option Handle}
    (hseg : Seg sl price side pv cur hs last) :
    ∀ x ∈ hs, ∃ nd, sl x = some nd ∧ nd.price = price ∧ nd.side = side := by
  induction hseg with
  | nil => intro x hx; simp at hx
  | cons pv h nd hs last hsl hp hsd hpv htail ih =>
    intro x hx
    rcases List.mem_cons.1 hx with rfl | hx2
    · exact ⟨nd, hsl, hp, hsd⟩
    · exact ih x hx2

/-- Nodes equal on every field `Seg` inspects (everything but qty). -/
def nodeLinkEq (a b : Node) : Prop :=
  a.price = b.price ∧ a.side = b.side ∧ a.prev = b.prev ∧ a.next = b.next

theorem Seg.congr {sl sl' : Handle → Option Node} {price : Int} {side : Side}
    {pv cur : Option Handle} {hs : List Handle} {last : Option Handle}
    (hseg : Seg sl price side pv cur hs last)
    (hagree : ∀ x ∈ hs, ∃ nd' nd, sl' x = some nd' ∧ sl x = some nd ∧ nodeLinkEq nd' nd) :
    Seg sl' price side pv cur hs last := by
  induction hseg with
  | nil pv => exact Seg.nil pv
  | cons pv h nd hs last hsl hp hsd hpv htail ih =>
    obtain ⟨nd', nd2, hsl', hsl2, hle⟩ := hagree h (List.mem_cons_self h hs)
    rw [hsl] at hsl2
    injection hsl2 with hnd2
    subst hnd2
    obtain ⟨he1, he2, he3, he4⟩ := hle
    refine Seg.cons pv h nd' hs last hsl' (by rw [he1, hp]) (by rw [he2, hsd])
      (by rw [he3, hpv]) ?_
    rw [he4]
    exact ih (fun x hx => hagree x (List.mem_cons_of_mem h hx))

theorem Seg.frame {sl sl' : Handle → Option Node} {price : Int} {side : Side}
    {pv cur : Option Handle} {hs : List Handle} {last : Option Handle}
    (hseg : Seg sl price side pv cur hs last)
    (hagree : ∀ x ∈ hs, sl' x = sl x) :
    Seg sl' price side pv cur hs last := by
  refine hseg.congr (fun x hx => ?_)
  obtain ⟨nd, hnd, hp, hsd⟩ := hseg.mem_spec x hx
  exact ⟨nd, nd, by rw [hagree x hx, hnd], hnd, rfl, rfl, rfl, rfl⟩

theorem Seg.unique {sl : Handle → Option Node} {price price' : Int} {side side' : Side}
    {pv cur : Option Handle} {hs hs' : List Handle} {last last' : Option Handle}
    (h1 : Seg sl price side pv cur hs last) (h2 : Seg sl price' side' pv cur hs' last') :
    hs = hs' ∧ last = last' := by
  induction h1 generalizing hs' last' with
  | nil pv =>
    cases h2 with
    | nil => exact ⟨rfl, rfl⟩
  | cons pv h nd hs last hsl hp hsd hpv htail ih =>
    cases h2 with
    | cons _ _ nd2 hs2 last2 hsl2 hp2 hsd2 hpv2 htail2 =>
      rw [hsl] at hsl2
      injection hsl2 with hnd
      subst hnd
      obtain ⟨hh, hl⟩ := ih htail2
      exact ⟨by rw [hh], hl⟩

theorem Seg.nil_inv {sl : Handle → Option Node} {price : Int} {side : Side}
    {pv cur : Option Handle} {last : Option Handle}
    (hseg : Seg sl price side pv cur [] last) : cur = none ∧ last = pv := by
  cases hseg with
  | nil => exact ⟨rfl, rfl⟩

theorem Seg.cons_inv {sl : Handle → Option Node} {price : Int} {side : Side}
    {pv cur : Option Handle} {h : Handle} {hs : List Handle} {last : Option Handle}
    (hseg : Seg sl price side pv cur (h :: hs) last) :
    ∃ nd, cur = some h ∧ sl h = some nd ∧ nd.price = price ∧ nd.side = side ∧
      nd.prev = pv ∧ Seg sl price side (some h) nd.next hs last := by
  cases hseg with
  | cons _ _ nd _ _ hsl hp hsd hpv htail => exact ⟨nd, rfl, hsl, hp, hsd, hpv, htail⟩

/-- The last handle of a non-empty segment is one of its members; an
empty segment's `last` is its `pv`. -/
theorem Seg.last_cases {sl : Handle → Option Node} {price : Int} {side : Side}
    {pv cur : Option Handle} {hs : List Handle} {last : Option Handle}
    (hseg : Seg sl price side pv cur hs last) :
    (hs = [] ∧ last = pv) ∨ (∃ x ∈ hs, last = some x) := by
  induction hseg with
  | nil pv => exact Or.inl ⟨rfl, rfl⟩
  | cons pv h nd hs last hsl hp hsd hpv htail ih =>
    rcases ih with ⟨h1, h2⟩ | ⟨x, hx, h2⟩
    · exact Or.inr ⟨h, List.mem_cons_self h hs, h2⟩
    · exact Or.inr ⟨x, List.mem_cons_of_mem h hx, h2⟩

/-- The back pointer of a mid-segment element: `pv` when the prefix is
empty, otherwise some member of the prefix. -/
theorem Seg.prev_mem {sl : Handle → Option Node} {price : Int} {side : Side}
    {pv cur : Option Handle} {l1 l2 : List Handle} {h : Handle} {last : Option Handle}
    (hseg : Seg sl price side pv cur (l1 ++ h :: l2) last)
    {nd : Node} (hsl : sl h = some nd) :
    (l1 = [] ∧ nd.prev = pv) ∨ (∃ x ∈ l1, nd.prev = some x) := by
  induction l1 generalizing pv cur with
  | nil =>
    obtain ⟨nd2, hcur, hsl2, _, _, hpv2, _⟩ := hseg.cons_inv
    rw [hsl] at hsl2
    injection hsl2 with hnd
    subst hnd
    exact Or.inl ⟨rfl, hpv2⟩
  | cons a l1' ih =>
    obtain ⟨nda, hcur, hsla, _, _, _, htaila⟩ := hseg.cons_inv
    rcases ih htaila with ⟨h1, h2⟩ | ⟨x, hx, h2⟩
    · exact Or.inr ⟨a, List.mem_cons_self a l1', h2⟩
    · exact Or.inr ⟨x, List.mem_cons_of_mem a hx, h2⟩

/-- The forward pointer of a mid-segment element: `none` at the tail,
otherwise the head of the suffix. -/
theorem Seg.next_mem {sl : Handle → Option Node} {price : Int} {side : Side}
    {pv cur : Option Handle} {l1 l2 : List Handle} {h : Handle} {last : Option Handle}
    (hseg : Seg sl price side pv cur (l1 ++ h :: l2) last)
    {nd : Node} (hsl : sl h = some nd) :
    (l2 = [] ∧ nd.next = none) ∨ (∃ x, l2.head? = some x ∧ nd.next = some x) := by
  induction l1 generalizing pv cur with
  | nil =>
    obtain ⟨nd2, hcur, hsl2, _, _, _, htail2⟩ := hseg.cons_inv
    rw [hsl] at hsl2
    injection hsl2 with hnd
    subst hnd
    cases l2 with
    | nil => exact Or.inl ⟨rfl, htail2.nil_inv.1⟩
    | cons b t =>
      obtain ⟨ndb, hcurb, _, _, _, _, _⟩ := htail2.cons_inv
      exact Or.inr ⟨b, rfl, hcurb⟩
  | cons a l1' ih =>
    obtain ⟨nda, hcur, hsla, _, _, _, htaila⟩ := hseg.cons_inv
    exact ih htaila

/-- Appending a fresh node at the tail of a FIFO chain (the pointer
surgery of `InstrumentBook::add`): the old tail's `next` is redirected
to the fresh handle, whose node carries `prev = old tail`,
`next = none`. -/
theorem Seg.snoc {sl sl' : Handle → Option Node} {price : Int} {sd : Side}
    {pv cur tl : Option Handle} {hs : List Handle}
    (hseg : Seg sl price sd pv cur hs tl) (hnodup : hs.Nodup)
    {h : Handle} (hnotin : h ∉ hs)
    {ndh : Node} (hslh : sl' h = some ndh) (hph : ndh.price = price)
    (hsh : ndh.side = sd) (hprevh : ndh.prev = tl) (hnexth : ndh.next = none)
    (hupd : ∀ x ∈ hs,
      (tl = some x → ∃ n0, sl x = some n0 ∧ sl' x = some { n0 with next := some h }) ∧
      (tl ≠ some x → sl' x = sl x)) :
    Seg sl' price sd pv (if hs = [] then some h else cur) (hs ++ [h]) (some h) := by
  induction hs generalizing pv cur with
  | nil =>
    obtain ⟨hcur, htl⟩ := hseg.nil_inv
    rw [if_pos rfl]
    refine Seg.cons pv h ndh [] (some h) hslh hph hsh (by rw [hprevh, htl]) ?_
    rw [hnexth]
    exact Seg.nil (some h)
  | cons a hs0 ih =>
    obtain ⟨nda, hcur, hsla, hpa, hsda, hpva, htaila⟩ := hseg.cons_inv
    subst hcur
    simp only [List.nodup_cons] at hnodup
    simp only [List.mem_cons, not_or] at hnotin
    rw [if_neg (List.cons_ne_nil a hs0)]
    by_cases htla : tl = some a
    · -- a is the tail: hs0 must be empty
      have hhs0 : hs0 = [] := by
        rcases htaila.last_cases with ⟨h1, _⟩ | ⟨x, hx, h2⟩
        · exact h1
        · rw [htla] at h2
          injection h2 with hax
          exact absurd (hax ▸ hx) hnodup.1
      subst hhs0
      obtain ⟨hc1, hc2⟩ := hupd a (by simp)
      obtain ⟨n0, hn0, hn0'⟩ := hc1 htla
      rw [hsla] at hn0
      injection hn0 with hn0
      subst hn0
      refine Seg.cons pv a _ [h] (some h) hn0' hpa hsda hpva ?_
      refine Seg.cons (some a) h ndh [] (some h) hslh hph hsh (by rw [hprevh, htla]) ?_
      rw [hnexth]
      exact Seg.nil (some h)
    · -- a is interior: its stored node is unchanged
      obtain ⟨hc1, hc2⟩ := hupd a (by simp)
      have hsla' : sl' a = some nda := by rw [hc2 htla, hsla]
      have hhs0ne : hs0 ≠ [] := by
        intro hcon
        subst hcon
        exact htla htaila.nil_inv.2
      obtain ⟨b, t, rfl⟩ := List.exists_cons_of_ne_nil hhs0ne
      have hsub := ih htaila hnodup.2 hnotin.2
        (fun x hx => hupd x (List.mem_cons_of_mem a hx))
      rw [if_neg (List.cons_ne_nil b t)] at hsub
      exact Seg.cons pv a nda ((b :: t) ++ [h]) (some h) hsla' hpa hsda hpva hsub

/-- Unlinking a mid-chain node (the pointer surgery of
`InstrumentBook::cancel`): the previous neighbour's `next` and the next
neighbour's `prev` are redirected past the removed handle. -/
theorem Seg.remove {sl sl' : Handle → Option Node} {price : Int} {sd : Side}
    {pv cur : Option Handle} {l1 l2 : List Handle} {h : Handle} {tl : Option Handle}
    (hseg : Seg sl price sd pv cur (l1 ++ h :: l2) tl)
    (hnodup : (l1 ++ h :: l2).Nodup)
    {nd : Node} (hsl : sl h = some nd)
    (hpv_not : ∀ x, pv = some x → x ∉ l1 ++ h :: l2)
    (hupd : ∀ x ∈ l1 ++ l2,
      (nd.prev = some x → ∃ n0, sl x = some n0 ∧ sl' x = some { n0 with next := nd.next }) ∧
      (nd.next = some x → ∃ n0, sl x = some n0 ∧ sl' x = some { n0 with prev := nd.prev }) ∧
      (nd.prev ≠ some x → nd.next ≠ some x → sl' x = sl x)) :
    Seg sl' price sd pv (if l1 = [] then nd.next else cur) (l1 ++ l2)
      (if l2 = [] then nd.prev else tl) := by
  induction l1 generalizing pv cur with
  | nil =>
    obtain ⟨nd2, hcur, hsl2, _, _, hpv2, htail2⟩ := hseg.cons_inv
    rw [hsl] at hsl2
    injection hsl2 with hnd
    subst hnd
    rw [if_pos rfl]
    cases l2 with
    | nil =>
      rw [if_pos rfl, htail2.nil_inv.1, hpv2]
      exact Seg.nil pv
    | cons b t =>
      obtain ⟨ndb, hcurb, hslb, hpb, hsdb, hpvb, htailb⟩ := htail2.cons_inv
      obtain ⟨_, hc2, _⟩ := hupd b (by simp)
      obtain ⟨n0, hn0, hn0'⟩ := hc2 hcurb
      rw [hslb] at hn0
      injection hn0 with hn0
      subst hn0
      rw [if_neg (List.cons_ne_nil b t), hcurb]
      simp only [List.nil_append, List.nodup_cons, List.mem_cons, not_or] at hnodup
      refine Seg.cons pv b _ t tl hn0' hpb hsdb (by simpa using hpv2) ?_
      show Seg sl' price sd (some b) ndb.next t tl
      refine htailb.frame (fun y hy => ?_)
      obtain ⟨hc1', hc2', hc3'⟩ := hupd y (by simp [hy])
      refine hc3' ?_ ?_
      · intro hcon
        rw [hpv2] at hcon
        exact hpv_not y hcon (by simp [hy])
      · rw [hcurb]
        intro hcon
        injection hcon with hby
        exact hnodup.2.1 (hby ▸ hy)
  | cons a l1' ih =>
    obtain ⟨nda, hcur, hsla, hpa, hsda, hpva, htaila⟩ := hseg.cons_inv
    subst hcur
    simp only [List.cons_append, List.nodup_cons, List.mem_append, List.mem_cons,
      not_or] at hnodup
    have hanotin : a ∉ l1' ++ h :: l2 := by
      simp only [List.mem_append, List.mem_cons, not_or]
      exact hnodup.1
    have hsub := ih htaila hnodup.2
      (by
        intro x hx
        injection hx with hax
        exact hax ▸ hanotin)
      (fun x hx => hupd x (by
        simp only [List.cons_append, List.mem_cons]
        right
        exact hx))
    rw [if_neg (List.cons_ne_nil a l1')]
    by_cases hl1e : l1' = []
    · subst hl1e
      rw [if_pos rfl] at hsub
      obtain ⟨ndh2, hcurh, hslh2, _, _, hpvh, _⟩ := htaila.cons_inv
      rw [hsl] at hslh2
      injection hslh2 with hndh
      subst hndh
      obtain ⟨hc1, _, _⟩ := hupd a (by simp)
      obtain ⟨n0, hn0, hn0'⟩ := hc1 hpvh
      rw [hsla] at hn0
      injection hn0 with hn0
      subst hn0
      exact Seg.cons pv a _ l2 (if l2 = [] then nd.prev else tl)
        hn0' hpa hsda hpva hsub
    · obtain ⟨b, t, rfl⟩ := List.exists_cons_of_ne_nil hl1e
      rw [if_neg (List.cons_ne_nil b t)] at hsub
      have hprevne : nd.prev ≠ some a := by
        rcases htaila.prev_mem hsl with ⟨h1, _⟩ | ⟨x, hx, h2⟩
        · simp at h1
        · rw [h2]
          intro hcon
          injection hcon with hxa
          exact hnodup.1.1 (hxa ▸ hx)
      have hnextne : nd.next ≠ some a := by
        rcases htaila.next_mem hsl with ⟨h1, h2⟩ | ⟨x, hx, h2⟩
        · rw [h2]; intro hcon; cases hcon
        · rw [h2]
          intro hcon
          injection hcon with hxa
          have hxl2 : x ∈ l2 := by
            cases l2 with
            | nil => simp at hx
            | cons c u =>
              simp only [List.head?] at hx
              injection hx with hx2
              subst hx2
              exact List.mem_cons_self c u
          exact hnodup.1.2.2 (hxa ▸ hxl2)
      obtain ⟨_, _, hc3⟩ := hupd a (by simp)
      have hsla' : sl' a = some nda := by rw [hc3 hprevne hnextne, hsla]
      exact Seg.cons pv a nda ((b :: t) ++ l2) (if l2 = [] then nd.prev else tl)
        hsla' hpa hsda hpva hsub

/-! ### Bookkeeping helpers for chains and scans -/

/-- The qty stored for handle `x` (0 for a free slot; only applied to
occupied slots in practice). -/
def qtyAt (sl : Handle → Option Node) (x : Handle) : Int :=
  match sl x with
  | some nd => nd.qty
  | none => 0

/-- Sum of stored qtys along a list of handles. -/
def sumQty (sl : Handle → Option Node) (hs : List Handle) : Int :=
  (hs.map (qtyAt sl)).sum

theorem sumQty_congr {sl sl' : Handle → Option Node} {hs : List Handle}
    (h : ∀ x ∈ hs, qtyAt sl' x = qtyAt sl x) : sumQty sl' hs = sumQty sl hs := by
  unfold sumQty
  rw [List.map_congr_left h]

theorem sumQty_append (sl : Handle → Option Node) (l1 l2 : List Handle) :
    sumQty sl (l1 ++ l2) = sumQty sl l1 + sumQty sl l2 := by
  unfold sumQty
  rw [List.map_append, List.sum_append]

theorem sumQty_cons (sl : Handle → Option Node) (x : Handle) (l : List Handle) :
    sumQty sl (x :: l) = qtyAt sl x + sumQty sl l := by
  unfold sumQty
  rw [List.map_cons, List.sum_cons]

theorem sumQty_nil (sl : Handle → Option Node) : sumQty sl [] = 0 := rfl

theorem revRangeFind_spec {β : Type} (f : Nat → Option β) (n : Nat) :
    (((List.range n).reverse.findSome? f = none → ∀ i, i < n → f i = none) ∧
     (∀ b, (List.range n).reverse.findSome? f = some b →
       ∃ i, i < n ∧ f i = some b ∧ ∀ j, i < j → j < n → f j = none)) := by
  induction n with
  | zero => exact ⟨fun _ i hi => absurd hi (Nat.not_lt_zero i), fun b hb => by simp at hb⟩
  | succ m ih =>
    have hrev : (List.range (m + 1)).reverse = m :: (List.range m).reverse := by
      rw [List.range_succ, List.reverse_append]
      rfl
    rw [hrev]
    cases hfm : f m with
    | some b0 =>
      constructor
      · intro hnone
        rw [List.findSome?_cons, hfm] at hnone
        cases hnone
      · intro b hb
        rw [List.findSome?_cons, hfm] at hb
        injection hb with hb
        subst hb
        exact ⟨m, Nat.lt_succ_self m, hfm, fun j hj1 hj2 => absurd hj2 (by omega)⟩
    | none =>
      constructor
      · intro hnone i hi
        rw [List.findSome?_cons, hfm] at hnone
        rcases Nat.lt_succ_iff_lt_or_eq.1 hi with hlt | rfl
        · exact ih.1 hnone i hlt
        · exact hfm
      · intro b hb
        rw [List.findSome?_cons, hfm] at hb
        obtain ⟨i, hi, hfi, hmax⟩ := ih.2 b hb
        refine ⟨i, Nat.lt_succ_of_lt hi, hfi, fun j hj1 hj2 => ?_⟩
        rcases Nat.lt_succ_iff_lt_or_eq.1 hj2 with hlt | rfl
        · exact hmax j hj1 hlt
        · exact hfm


theorem findSome?_append_eq {α β : Type} (l1 l2 : List α) (f : α → Option β) :
    (l1 ++ l2).findSome? f =
      match l1.findSome? f with
      | some b => some b
      | none => l2.findSome? f := by
  induction l1 with
  | nil => rfl
  | cons a t ih =>
    rw [List.cons_append, List.findSome?_cons, List.findSome?_cons]
    cases hfa : f a with
    | some b => rfl
    | none => exact ih


theorem rangeFind_spec {β : Type} (f : Nat → Option β) (n : Nat) :
    (((List.range n).findSome? f = none → ∀ i, i < n → f i = none) ∧
     (∀ b, (List.range n).findSome? f = some b →
       ∃ i, i < n ∧ f i = some b ∧ ∀ j, j < i → f j = none)) := by
  induction n with
  | zero => exact ⟨fun _ i hi => absurd hi (Nat.not_lt_zero i), fun b hb => by simp at hb⟩
  | succ m ih =>
    rw [List.range_succ, findSome?_append_eq]
    constructor
    · intro hnone i hi
      cases h1 : (List.range m).findSome? f with
      | some b1 => rw [h1] at hnone; cases hnone
      | none =>
        rw [h1] at hnone
        rw [List.findSome?_cons] at hnone
        cases hfm : f m with
        | some b0 => rw [hfm] at hnone; cases hnone
        | none =>
          rcases Nat.lt_succ_iff_lt_or_eq.1 hi with hlt | rfl
          · exact ih.1 h1 i hlt
          · exact hfm
    · intro b hb
      cases h1 : (List.range m).findSome? f with
      | some b1 =>
        rw [h1] at hb
        injection hb with hb
        subst hb
        obtain ⟨i, hi, hfi, hmin⟩ := ih.2 b1 h1
        exact ⟨i, Nat.lt_succ_of_lt hi, hfi, hmin⟩
      | none =>
        rw [h1] at hb
        rw [List.findSome?_cons] at hb
        cases hfm : f m with
        | some b0 =>
          rw [hfm] at hb
          injection hb with hb
          subst hb
          exact ⟨m, Nat.lt_succ_self m, hfm, fun j hj => ih.1 h1 j hj⟩
        | none => rw [hfm] at hb; cases hb


/-! ### Grid well-formedness -/

/-- Structural facts about every grid the book ever builds: unit tick,
fixed span, all slots free while uninitialized, nothing stored past the
span. -/
structure GridWf (g : PriceGrid) : Prop where
  tick1 : g.tick = 1
  span16k : g.span = 16384
  uninit : g.initialized = false → ∀ i, g.slots i = none
  bound : ∀ i, g.span ≤ i → g.slots i = none

theorem priceToIdx_spec {g : PriceGrid} (hwf : GridWf g) (p : Int) (i : Nat) :
    g.priceToIdx p = some i ↔
      g.initialized = true ∧ i < g.span ∧ p = g.start_price + (i : Int) := by
  unfold PriceGrid.priceToIdx
  cases hinit : g.initialized with
  | false => simp
  | true =>
    rw [if_neg (by decide : ¬((!true) = true))]
    dsimp only
    rw [hwf.tick1]
    simp only [Int.toNat_one, Nat.mod_one, Nat.div_one]
    rw [if_neg (by decide : ¬(0 ≠ 0))]
    simp only [true_and]
    by_cases hd : p - g.start_price < 0
    · rw [if_pos hd]
      constructor
      · intro h
        cases h
      · rintro ⟨hlt, rfl⟩
        exact absurd hd (by omega)
    · rw [if_neg hd]
      constructor
      · intro h
        by_cases hlt : (p - g.start_price).toNat < g.span
        · rw [if_pos hlt] at h
          injection h with h
          subst h
          exact ⟨hlt, by omega⟩
        · rw [if_neg hlt] at h
          cases h
      · rintro ⟨hlt, rfl⟩
        have heq : (g.start_price + (i : Int) - g.start_price).toNat = i := by omega
        rw [heq, if_pos hlt]

theorem priceToIdx_inj {g : PriceGrid} (hwf : GridWf g) {p q : Int} {i : Nat}
    (hp : g.priceToIdx p = some i) (hq : g.priceToIdx q = some i) : p = q := by
  rw [priceToIdx_spec hwf] at hp hq
  rw [hp.2.2, hq.2.2]

theorem setSlot_priceToIdx (g : PriceGrid) (i : Nat) (l : Option Level) (p : Int) :
    (g.setSlot i l).priceToIdx p = g.priceToIdx p := rfl

theorem setSlot_getL_self {g : PriceGrid} {p : Int} {i : Nat}
    (h : g.priceToIdx p = some i) (l : Option Level) :
    (g.setSlot i l).getL p = l := by
  unfold PriceGrid.getL
  rw [setSlot_priceToIdx, h]
  simp [PriceGrid.setSlot]

theorem setSlot_getL_other {g : PriceGrid} (hwf : GridWf g) {p q : Int} {i : Nat}
    (h : g.priceToIdx p = some i) (hne : q ≠ p) (l : Option Level) :
    (g.setSlot i l).getL q = g.getL q := by
  unfold PriceGrid.getL
  rw [setSlot_priceToIdx]
  cases hq : g.priceToIdx q with
  | none => rfl
  | some j =>
    have hji : j ≠ i := by
      intro hcon
      subst hcon
      exact hne (priceToIdx_inj hwf hq h)
    simp [PriceGrid.setSlot, hji]

theorem setSlot_wf {g : PriceGrid} (hwf : GridWf g) (hinit : g.initialized = true)
    {i : Nat} (hi : i < g.span) (l : Option Level) : GridWf (g.setSlot i l) := by
  refine ⟨hwf.tick1, hwf.span16k, ?_, ?_⟩
  · intro hini
    rw [show (g.setSlot i l).initialized = g.initialized from rfl, hinit] at hini
    cases hini
  · intro j hj
    rw [show (g.setSlot i l).span = g.span from rfl] at hj
    have hji : j ≠ i := by omega
    simp only [PriceGrid.setSlot, if_neg hji]
    exact hwf.bound j hj

/-! ### Overflow map (sorted association list) lemmas -/

def ovSorted (m : OvMap) : Prop := m.Pairwise (fun a b => a.1 < b.1)

theorem find?_setL_self (m : OvMap) (p : Int) (l : Level) :
    OvMap.find? (OvMap.setL m p l) p = some l := by
  induction m with
  | nil => simp [OvMap.setL, OvMap.find?]
  | cons a rest ih =>
    obtain ⟨a1, a2⟩ := a
    unfold OvMap.setL
    by_cases h1 : p < a1
    · rw [if_pos h1]
      simp [OvMap.find?]
    · rw [if_neg h1]
      by_cases h2 : p = a1
      · rw [if_pos h2]
        simp [OvMap.find?]
      · rw [if_neg h2]
        simp only [OvMap.find?]
        rw [if_neg h2]
        exact ih

theorem find?_setL_other (m : OvMap) (p q : Int) (l : Level) (hne : q ≠ p) :
    OvMap.find? (OvMap.setL m p l) q = OvMap.find? m q := by
  induction m with
  | nil => simp [OvMap.setL, OvMap.find?, hne]
  | cons a rest ih =>
    obtain ⟨a1, a2⟩ := a
    unfold OvMap.setL
    by_cases h1 : p < a1
    · rw [if_pos h1]
      simp only [OvMap.find?]
      rw [if_neg hne]
    · rw [if_neg h1]
      by_cases h2 : p = a1
      · rw [if_pos h2]
        simp only [OvMap.find?]
        rw [if_neg (h2 ▸ hne), if_neg (h2 ▸ hne)]
      · rw [if_neg h2]
        simp only [OvMap.find?]
        by_cases h3 : q = a1
        · rw [if_pos h3, if_pos h3]
        · rw [if_neg h3, if_neg h3, ih]

theorem mem_setL {m : OvMap} {p : Int} {l : Level} {x : Int × Level}
    (h : x ∈ OvMap.setL m p l) : x.1 = p ∨ x ∈ m := by
  induction m with
  | nil =>
    simp [OvMap.setL] at h
    subst h
    exact Or.inl rfl
  | cons a rest ih =>
    obtain ⟨a1, a2⟩ := a
    unfold OvMap.setL at h
    by_cases h1 : p < a1
    · rw [if_pos h1] at h
      rcases List.mem_cons.1 h with rfl | h2
      · exact Or.inl rfl
      · exact Or.inr h2
    · rw [if_neg h1] at h
      by_cases h2 : p = a1
      · rw [if_pos h2] at h
        rcases List.mem_cons.1 h with rfl | h3
        · exact Or.inl rfl
        · exact Or.inr (List.mem_cons_of_mem _ h3)
      · rw [if_neg h2] at h
        rcases List.mem_cons.1 h with rfl | h3
        · exact Or.inr (List.mem_cons_self _ rest)
        · rcases ih h3 with h4 | h4
          · exact Or.inl h4
          · exact Or.inr (List.mem_cons_of_mem _ h4)

theorem setL_sorted {m : OvMap} (hs : ovSorted m) (p : Int) (l : Level) :
    ovSorted (OvMap.setL m p l) := by
  induction m with
  | nil => simp [OvMap.setL, ovSorted]
  | cons a rest ih =>
    obtain ⟨a1, a2⟩ := a
    rw [ovSorted, List.pairwise_cons] at hs
    unfold OvMap.setL
    by_cases h1 : p < a1
    · rw [if_pos h1]
      rw [ovSorted, List.pairwise_cons]
      refine ⟨?_, List.pairwise_cons.2 ⟨hs.1, hs.2⟩⟩
      intro x hx
      rcases List.mem_cons.1 hx with rfl | h2
      · exact h1
      · exact lt_trans h1 (hs.1 x h2)
    · rw [if_neg h1]
      by_cases h2 : p = a1
      · rw [if_pos h2]
        rw [ovSorted, List.pairwise_cons]
        exact ⟨fun x hx => by
          have := hs.1 x hx
          simp only at this ⊢
          omega, hs.2⟩
      · rw [if_neg h2]
        rw [ovSorted, List.pairwise_cons]
        refine ⟨?_, ih hs.2⟩
        intro x hx
        rcases mem_setL hx with h3 | h3
        · simp only [h3]
          omega
        · exact hs.1 x h3

theorem find?_erase_self (m : OvMap) (p : Int) :
    OvMap.find? (OvMap.erase m p) p = none := by
  induction m with
  | nil => rfl
  | cons a rest ih =>
    obtain ⟨a1, a2⟩ := a
    unfold OvMap.erase
    by_cases h1 : p = a1
    · rw [if_pos h1]; exact ih
    · rw [if_neg h1]
      simp only [OvMap.find?]
      rw [if_neg h1]
      exact ih

theorem find?_erase_other (m : OvMap) (p q : Int) (hne : q ≠ p) :
    OvMap.find? (OvMap.erase m p) q = OvMap.find? m q := by
  induction m with
  | nil => rfl
  | cons a rest ih =>
    obtain ⟨a1, a2⟩ := a
    unfold OvMap.erase
    by_cases h1 : p = a1
    · rw [if_pos h1]
      simp only [OvMap.find?]
      rw [if_neg (h1 ▸ hne), ih]
    · rw [if_neg h1]
      simp only [OvMap.find?]
      by_cases h3 : q = a1
      · rw [if_pos h3, if_pos h3]
      · rw [if_neg h3, if_neg h3, ih]

theorem mem_erase {m : OvMap} {p : Int} {x : Int × Level}
    (h : x ∈ OvMap.erase m p) : x ∈ m := by
  induction m with
  | nil => exact h
  | cons a rest ih =>
    obtain ⟨a1, a2⟩ := a
    unfold OvMap.erase at h
    by_cases h1 : p = a1
    · rw [if_pos h1] at h
      exact List.mem_cons_of_mem _ (ih h)
    · rw [if_neg h1] at h
      rcases List.mem_cons.1 h with rfl | h2
      · exact List.mem_cons_self _ rest
      · exact List.mem_cons_of_mem _ (ih h2)

theorem erase_sorted {m : OvMap} (hs : ovSorted m) (p : Int) :
    ovSorted (OvMap.erase m p) := by
  induction m with
  | nil => exact hs
  | cons a rest ih =>
    obtain ⟨a1, a2⟩ := a
    rw [ovSorted, List.pairwise_cons] at hs
    unfold OvMap.erase
    by_cases h1 : p = a1
    · rw [if_pos h1]; exact ih hs.2
    · rw [if_neg h1]
      rw [ovSorted, List.pairwise_cons]
      exact ⟨fun x hx => hs.1 x (mem_erase hx), ih hs.2⟩

theorem find?_mem {m : OvMap} {q : Int} {l : Level}
    (h : OvMap.find? m q = some l) : (q, l) ∈ m := by
  induction m with
  | nil => cases h
  | cons a rest ih =>
    obtain ⟨a1, a2⟩ := a
    unfold OvMap.find? at h
    by_cases h1 : q = a1
    · rw [if_pos h1] at h
      injection h with h
      subst h
      subst h1
      exact List.mem_cons_self _ rest
    · rw [if_neg h1] at h
      exact List.mem_cons_of_mem _ (ih h)

theorem mem_find? {m : OvMap} (hs : ovSorted m) {q : Int} {l : Level}
    (h : (q, l) ∈ m) : OvMap.find? m q = some l := by
  induction m with
  | nil => cases h
  | cons a rest ih =>
    obtain ⟨a1, a2⟩ := a
    rw [ovSorted, List.pairwise_cons] at hs
    rcases List.mem_cons.1 h with heq | h2
    · injection heq with he1 he2
      subst he1
      subst he2
      unfold OvMap.find?
      rw [if_pos rfl]
    · have hqa : q ≠ a1 := by
        have := hs.1 _ h2
        simp only at this
        omega
      unfold OvMap.find?
      rw [if_neg hqa]
      exact ih hs.2 h2

theorem maxEntry_spec (m : OvMap) (hs : ovSorted m) :
    (OvMap.maxEntry m = none → m = []) ∧
    (∀ k v, OvMap.maxEntry m = some (k, v) →
      OvMap.find? m k = some v ∧ ∀ q l, OvMap.find? m q = some l → q ≤ k) := by
  induction m with
  | nil => exact ⟨fun _ => rfl, fun k v h => by cases h⟩
  | cons a rest ih =>
    obtain ⟨a1, a2⟩ := a
    rw [ovSorted, List.pairwise_cons] at hs
    cases hrest : rest with
    | nil =>
      constructor
      · intro h
        simp [OvMap.maxEntry] at h
      · intro k v h
        subst hrest
        simp only [OvMap.maxEntry, List.getLast?_singleton] at h
        injection h with h
        injection h with he1 he2
        subst he1
        subst he2
        refine ⟨by unfold OvMap.find?; rw [if_pos rfl], ?_⟩
        intro q l hq
        unfold OvMap.find? at hq
        by_cases h1 : q = a1
        · omega
        · rw [if_neg h1] at hq
          cases hq
    | cons b rest2 =>
      subst hrest
      constructor
      · intro h
        simp [OvMap.maxEntry] at h
      · intro k v h
        have hmax : OvMap.maxEntry (b :: rest2) = some (k, v) := by
          simpa [OvMap.maxEntry, List.getLast?_cons_cons] using h
        obtain ⟨hfind, hub⟩ := (ih hs.2).2 k v hmax
        have hak : a1 < k := by
          have hkm := find?_mem hfind
          have := hs.1 _ hkm
          simpa using this
        constructor
        · unfold OvMap.find?
          rw [if_neg (by omega)]
          exact hfind
        · intro q l hq
          unfold OvMap.find? at hq
          by_cases h1 : q = a1
          · omega
          · rw [if_neg h1] at hq
            exact hub q l hq

theorem minEntry_spec (m : OvMap) (hs : ovSorted m) :
    (OvMap.minEntry m = none → m = []) ∧
    (∀ k v, OvMap.minEntry m = some (k, v) →
      OvMap.find? m k = some v ∧ ∀ q l, OvMap.find? m q = some l → k ≤ q) := by
  cases m with
  | nil => exact ⟨fun _ => rfl, fun k v h => by cases h⟩
  | cons a rest =>
    obtain ⟨a1, a2⟩ := a
    rw [ovSorted, List.pairwise_cons] at hs
    constructor
    · intro h
      simp [OvMap.minEntry] at h
    · intro k v h
      simp only [OvMap.minEntry, List.head?] at h
      injection h with h
      injection h with he1 he2
      subst he1
      subst he2
      constructor
      · unfold OvMap.find?
        rw [if_pos rfl]
      · intro q l hq
        unfold OvMap.find? at hq
        by_cases h1 : q = a1
        · omega
        · rw [if_neg h1] at hq
          have := hs.1 _ (find?_mem hq)
          simp only at this
          omega

/-! ### Book well-formedness -/

/-- Side-indexed grid accessor. -/
def InstrumentBook.gridOf (b : InstrumentBook) : Side → PriceGrid
  | Side.Bid => b.bids_grid
  | Side.Ask => b.asks_grid

/-- Side-indexed overflow accessor. -/
def InstrumentBook.ovOf (b : InstrumentBook) : Side → OvMap
  | Side.Bid => b.bids_overflow
  | Side.Ask => b.asks_overflow

/-- Overflow invariants: sorted keys, keys outside the grid window,
empty while the grid is uninitialized. -/
structure OvWf (g : PriceGrid) (m : OvMap) : Prop where
  sorted : ovSorted m
  disj : ∀ p l, OvMap.find? m p = some l → g.priceToIdx p = none
  uninit : g.initialized = false → m = []

/-- A retained level is represented by a doubly linked FIFO chain whose
length is `count` and whose stored qtys sum to `total_qty`. -/
def LevelRep (b : InstrumentBook) (sd : Side) (p : Int) (lv : Level) : Prop :=
  ∃ hs, Seg b.orders.nodes p sd none lv.head hs lv.tail ∧ hs.Nodup ∧
    lv.count = hs.length ∧ lv.total_qty = sumQty b.orders.nodes hs

/-- Every retained level of a side is chain-represented and non-empty. -/
def SideWf (b : InstrumentBook) (sd : Side) : Prop :=
  ∀ p lv, b.getLevel? sd p = some lv → LevelRep b sd p lv ∧ lv.count ≠ 0

/-- Slab invariants: nothing at or above the high-water mark, and every
stored node lies on the chain of its own (side, price) level. -/
def SlabWf (b : InstrumentBook) : Prop :=
  (∀ h, b.orders.nextH ≤ h → b.orders.nodes h = none) ∧
  (∀ h nd, b.orders.nodes h = some nd →
    ∃ lv hs, b.getLevel? nd.side nd.price = some lv ∧
      Seg b.orders.nodes nd.price nd.side none lv.head hs lv.tail ∧ h ∈ hs)

/-- The cached best bid is the maximum retained bid price, with its
level's total quantity; `none` (with qty 0) exactly when no bid level
is retained. -/
def BestBidWf (b : InstrumentBook) : Prop :=
  (b.best_bid = none →
    (∀ p lv, b.getLevel? Side.Bid p = some lv → False) ∧ b.best_bid_qty = 0) ∧
  (∀ bp, b.best_bid = some bp → ∃ lv, b.getLevel? Side.Bid bp = some lv ∧
    b.best_bid_qty = lv.total_qty ∧
    ∀ p lv', b.getLevel? Side.Bid p = some lv' → p ≤ bp)

/-- The cached best ask is the minimum retained ask price, with its
level's total quantity; `none` (with qty 0) exactly when no ask level
is retained. -/
def BestAskWf (b : InstrumentBook) : Prop :=
  (b.best_ask = none →
    (∀ p lv, b.getLevel? Side.Ask p = some lv → False) ∧ b.best_ask_qty = 0) ∧
  (∀ ap, b.best_ask = some ap → ∃ lv, b.getLevel? Side.Ask ap = some lv ∧
    b.best_ask_qty = lv.total_qty ∧
    ∀ p lv', b.getLevel? Side.Ask p = some lv' → ap ≤ p)

/-- Full instrument-book invariant. -/
structure IBWf (b : InstrumentBook) : Prop where
  grids : ∀ sd, GridWf (b.gridOf sd)
  ovs : ∀ sd, OvWf (b.gridOf sd) (b.ovOf sd)
  sides : ∀ sd, SideWf b sd
  slab : SlabWf b
  bbid : BestBidWf b
  bask : BestAskWf b

theorem getLevel?_eq (b : InstrumentBook) (sd : Side) (p : Int) :
    b.getLevel? sd p =
      match (b.gridOf sd).getL p with
      | some l => some l
      | none => OvMap.find? (b.ovOf sd) p := by
  cases sd <;> rfl

theorem gridOf_orders (b : InstrumentBook) (o : Slab) (sd : Side) :
    ({ b with orders := o } : InstrumentBook).gridOf sd = b.gridOf sd := by
  cases sd <;> rfl

theorem ovOf_orders (b : InstrumentBook) (o : Slab) (sd : Side) :
    ({ b with orders := o } : InstrumentBook).ovOf sd = b.ovOf sd := by
  cases sd <;> rfl

theorem getLevel?_congr {b b' : InstrumentBook}
    (hg : ∀ sd, b'.gridOf sd = b.gridOf sd) (ho : ∀ sd, b'.ovOf sd = b.ovOf sd)
    (sd : Side) (p : Int) : b'.getLevel? sd p = b.getLevel? sd p := by
  rw [getLevel?_eq, getLevel?_eq, hg, ho]

theorem getOrCreate_spec {g : PriceGrid} (hwf : GridWf g) (p : Int) :
    GridWf (g.getOrCreate p).1 ∧
    (g.getOrCreate p).1.initialized = true ∧
    (∀ q, q ≠ p → (g.getOrCreate p).1.getL q = g.getL q) ∧
    (g.initialized = true → ∀ q, (g.getOrCreate p).1.priceToIdx q = g.priceToIdx q) ∧
    ((g.getOrCreate p).2 = none →
      (g.getOrCreate p).1 = g ∧ g.priceToIdx p = none ∧ g.initialized = true) ∧
    (∀ i, (g.getOrCreate p).2 = some i →
      (g.getOrCreate p).1.priceToIdx p = some i ∧
      (g.getOrCreate p).1.getL p = some ((g.getL p).getD Level.default)) := by
  unfold PriceGrid.getOrCreate
  cases hinit : g.initialized with
  | true =>
    rw [if_neg (show ¬((!true) = true) from by decide)]
    dsimp only
    cases hidx : g.priceToIdx p with
    | none =>
      dsimp only
      exact ⟨hwf, hinit, fun q _ => rfl, fun _ q => rfl,
        fun _ => ⟨rfl, rfl, rfl⟩, fun i hi => by cases hi⟩
    | some i =>
      dsimp only
      have hisp := (priceToIdx_spec hwf p i).1 hidx
      cases hslot : g.slots i with
      | none =>
        rw [if_pos (show (none : Option Level).isNone = true from rfl)]
        refine ⟨setSlot_wf hwf hinit hisp.2.1 _, hinit, ?_, fun _ q => rfl, ?_, ?_⟩
        · intro q hq
          exact setSlot_getL_other hwf hidx hq _
        · intro hcon
          cases hcon
        · intro j hj
          injection hj with hj
          subst hj
          refine ⟨hidx, ?_⟩
          rw [setSlot_getL_self hidx]
          unfold PriceGrid.getL
          rw [hidx]
          dsimp only
          rw [hslot]
          rfl
      | some l =>
        rw [if_neg (show ¬(((some l : Option Level)).isNone = true) from
          fun h => Bool.false_ne_true h)]
        refine ⟨hwf, hinit, fun q _ => rfl, fun _ q => rfl, ?_, ?_⟩
        · intro hcon
          cases hcon
        · intro j hj
          injection hj with hj
          subst hj
          refine ⟨hidx, ?_⟩
          unfold PriceGrid.getL
          rw [hidx]
          dsimp only
          rw [hslot]
          rfl
  | false =>
    rw [if_pos (show (!false) = true from rfl)]
    dsimp only
    have hwf1 : GridWf (g.initAround p) :=
      ⟨hwf.tick1, hwf.span16k, fun h i => hwf.uninit hinit i, fun i hi => hwf.bound i hi⟩
    have hini1 : (g.initAround p).initialized = true := rfl
    have hstart : (g.initAround p).start_price = p - (8192 : Int) := by
      unfold PriceGrid.initAround
      dsimp only
      rw [hwf.tick1, hwf.span16k]
      have hm : p.emod 1 = 0 := Int.emod_one p
      rw [hm]
      omega
    have hidx1 : (g.initAround p).priceToIdx p = some 8192 := by
      rw [priceToIdx_spec hwf1]
      refine ⟨hini1, ?_, ?_⟩
      · rw [show (g.initAround p).span = g.span from rfl, hwf.span16k]
        omega
      · rw [hstart]
        omega
    rw [hidx1]
    dsimp only
    have hslots : ∀ i, (g.initAround p).slots i = none := fun i => hwf.uninit hinit i
    rw [hslots 8192]
    rw [if_pos (show (none : Option Level).isNone = true from rfl)]
    have hwf2 : GridWf ((g.initAround p).setSlot 8192 (some Level.default)) :=
      setSlot_wf hwf1 hini1
        (by rw [show (g.initAround p).span = g.span from rfl, hwf.span16k]; omega) _
    have hgetLnone : ∀ q, g.getL q = none := by
      intro q
      unfold PriceGrid.getL
      cases hq3 : g.priceToIdx q with
      | none => rfl
      | some k =>
        rw [priceToIdx_spec hwf] at hq3
        rw [hq3.1] at hinit
        cases hinit
    refine ⟨hwf2, hini1, ?_, ?_, ?_, ?_⟩
    · intro q hq
      rw [setSlot_getL_other hwf1 hidx1 hq, hgetLnone q]
      unfold PriceGrid.getL
      cases hq2 : (g.initAround p).priceToIdx q with
      | none => rfl
      | some j =>
        dsimp only
        rw [hslots j]
    · intro hcon
      cases hcon
    · intro hcon
      cases hcon
    · intro j hj
      injection hj with hj
      subst hj
      refine ⟨hidx1, ?_⟩
      rw [setSlot_getL_self hidx1, hgetLnone p]
      rfl


theorem ensureLevel_spec {b : InstrumentBook} {sd : Side} (p : Int)
    (hg : GridWf (b.gridOf sd)) (hov : OvWf (b.gridOf sd) (b.ovOf sd)) :
    (b.ensureLevel sd p).orders = b.orders ∧
    (b.ensureLevel sd p).best_bid = b.best_bid ∧
    (b.ensureLevel sd p).best_ask = b.best_ask ∧
    (b.ensureLevel sd p).best_bid_qty = b.best_bid_qty ∧
    (b.ensureLevel sd p).best_ask_qty = b.best_ask_qty ∧
    (∀ sd', sd' ≠ sd → (b.ensureLevel sd p).gridOf sd' = b.gridOf sd' ∧
      (b.ensureLevel sd p).ovOf sd' = b.ovOf sd') ∧
    GridWf ((b.ensureLevel sd p).gridOf sd) ∧
    OvWf ((b.ensureLevel sd p).gridOf sd) ((b.ensureLevel sd p).ovOf sd) ∧
    (b.ensureLevel sd p).getLevel? sd p = some ((b.getLevel? sd p).getD Level.default) ∧
    (∀ q, q ≠ p → (b.ensureLevel sd p).getLevel? sd q = b.getLevel? sd q) := by
  cases sd with
  | Bid =>
    simp only [InstrumentBook.gridOf, InstrumentBook.ovOf] at hg hov ⊢
    obtain ⟨hwf1, hinit1, hother, hsame, hnone, hsome⟩ := getOrCreate_spec hg p
    unfold InstrumentBook.ensureLevel
    dsimp only
    cases hgi : (PriceGrid.getOrCreate b.bids_grid p).2 with
    | some i =>
      dsimp only
      obtain ⟨hpidx, hgetl⟩ := hsome i hgi
      have hfind0 : OvMap.find? b.bids_overflow p = none := by
        cases hf : OvMap.find? b.bids_overflow p with
        | none => rfl
        | some l =>
          exfalso
          have hdis := hov.disj p l hf
          cases hini : b.bids_grid.initialized with
          | true =>
            rw [hsame hini p, hdis] at hpidx
            cases hpidx
          | false =>
            rw [hov.uninit hini] at hf
            cases hf
      refine ⟨rfl, rfl, rfl, rfl, rfl, ?_, hwf1, ?_, ?_, ?_⟩
      · intro sd' hne
        cases sd' with
        | Bid => exact absurd rfl hne
        | Ask => exact ⟨rfl, rfl⟩
      · refine ⟨hov.sorted, ?_, ?_⟩
        · intro q l hq
          have hdis := hov.disj q l hq
          cases hini : b.bids_grid.initialized with
          | true => rw [hsame hini q, hdis]
          | false =>
            rw [hov.uninit hini] at hq
            cases hq
        · intro hcon
          rw [hinit1] at hcon
          cases hcon
      · unfold InstrumentBook.getLevel?
        dsimp only
        rw [hgetl]
        dsimp only
        unfold PriceGrid.getL
        cases hq3 : b.bids_grid.priceToIdx p with
        | none =>
          dsimp only
          rw [hfind0]
        | some k =>
          dsimp only
          cases hsl : b.bids_grid.slots k with
          | none =>
            dsimp only
            rw [hfind0]
          | some l => rfl
      · intro q hq
        unfold InstrumentBook.getLevel?
        dsimp only
        rw [hother q hq]
    | none =>
      dsimp only
      obtain ⟨hres, hpidx, hinitb⟩ := hnone hgi
      cases hfind : (OvMap.find? b.bids_overflow p).isSome with
      | true =>
        obtain ⟨l, hl⟩ := Option.isSome_iff_exists.1 hfind
        rw [if_pos (rfl : (true : Bool) = true)]
        refine ⟨rfl, rfl, rfl, rfl, rfl, ?_, ?_, ?_, ?_, ?_⟩
        · intro sd' hne
          cases sd' with
          | Bid => exact absurd rfl hne
          | Ask => exact ⟨rfl, rfl⟩
        · dsimp only
          rw [hres]
          exact hg
        · dsimp only
          rw [hres]
          exact hov
        · unfold InstrumentBook.getLevel?
          dsimp only
          rw [hres]
          unfold PriceGrid.getL
          rw [hpidx]
          dsimp only
          rw [hl]
          rfl
        · intro q hq
          unfold InstrumentBook.getLevel?
          dsimp only
          rw [hres]
      | false =>
        have hfindn : OvMap.find? b.bids_overflow p = none := by
          cases hf : OvMap.find? b.bids_overflow p with
          | none => rfl
          | some l => rw [hf] at hfind; cases hfind
        rw [if_neg (by decide : ¬((false : Bool) = true))]
        refine ⟨rfl, rfl, rfl, rfl, rfl, ?_, ?_, ?_, ?_, ?_⟩
        · intro sd' hne
          cases sd' with
          | Bid => exact absurd rfl hne
          | Ask => exact ⟨rfl, rfl⟩
        · dsimp only
          rw [hres]
          exact hg
        · dsimp only
          refine ⟨setL_sorted hov.sorted p Level.default, ?_, ?_⟩
          · intro q l hq
            rw [hres]
            by_cases hqp : q = p
            · subst hqp
              exact hpidx
            · rw [find?_setL_other _ _ _ _ hqp] at hq
              exact hov.disj q l hq
          · intro hcon
            rw [hres] at hcon
            rw [hcon] at hinitb
            cases hinitb
        · unfold InstrumentBook.getLevel?
          dsimp only
          rw [hres]
          unfold PriceGrid.getL
          rw [hpidx]
          dsimp only
          rw [find?_setL_self, hfindn]
          rfl
        · intro q hq
          unfold InstrumentBook.getLevel?
          dsimp only
          rw [hres, find?_setL_other _ _ _ _ hq]
  | Ask =>
    simp only [InstrumentBook.gridOf, InstrumentBook.ovOf] at hg hov ⊢
    obtain ⟨hwf1, hinit1, hother, hsame, hnone, hsome⟩ := getOrCreate_spec hg p
    unfold InstrumentBook.ensureLevel
    dsimp only
    cases hgi : (PriceGrid.getOrCreate b.asks_grid p).2 with
    | some i =>
      dsimp only
      obtain ⟨hpidx, hgetl⟩ := hsome i hgi
      have hfind0 : OvMap.find? b.asks_overflow p = none := by
        cases hf : OvMap.find? b.asks_overflow p with
        | none => rfl
        | some l =>
          exfalso
          have hdis := hov.disj p l hf
          cases hini : b.asks_grid.initialized with
          | true =>
            rw [hsame hini p, hdis] at hpidx
            cases hpidx
          | false =>
            rw [hov.uninit hini] at hf
            cases hf
      refine ⟨rfl, rfl, rfl, rfl, rfl, ?_, hwf1, ?_, ?_, ?_⟩
      · intro sd' hne
        cases sd' with
        | Ask => exact absurd rfl hne
        | Bid => exact ⟨rfl, rfl⟩
      · refine ⟨hov.sorted, ?_, ?_⟩
        · intro q l hq
          have hdis := hov.disj q l hq
          cases hini : b.asks_grid.initialized with
          | true => rw [hsame hini q, hdis]
          | false =>
            rw [hov.uninit hini] at hq
            cases hq
        · intro hcon
          rw [hinit1] at hcon
          cases hcon
      · unfold InstrumentBook.getLevel?
        dsimp only
        rw [hgetl]
        dsimp only
        unfold PriceGrid.getL
        cases hq3 : b.asks_grid.priceToIdx p with
        | none =>
          dsimp only
          rw [hfind0]
        | some k =>
          dsimp only
          cases hsl : b.asks_grid.slots k with
          | none =>
            dsimp only
            rw [hfind0]
          | some l => rfl
      · intro q hq
        unfold InstrumentBook.getLevel?
        dsimp only
        rw [hother q hq]
    | none =>
      dsimp only
      obtain ⟨hres, hpidx, hinitb⟩ := hnone hgi
      cases hfind : (OvMap.find? b.asks_overflow p).isSome with
      | true =>
        obtain ⟨l, hl⟩ := Option.isSome_iff_exists.1 hfind
        rw [if_pos (rfl : (true : Bool) = true)]
        refine ⟨rfl, rfl, rfl, rfl, rfl, ?_, ?_, ?_, ?_, ?_⟩
        · intro sd' hne
          cases sd' with
          | Ask => exact absurd rfl hne
          | Bid => exact ⟨rfl, rfl⟩
        · dsimp only
          rw [hres]
          exact hg
        · dsimp only
          rw [hres]
          exact hov
        · unfold InstrumentBook.getLevel?
          dsimp only
          rw [hres]
          unfold PriceGrid.getL
          rw [hpidx]
          dsimp only
          rw [hl]
          rfl
        · intro q hq
          unfold InstrumentBook.getLevel?
          dsimp only
          rw [hres]
      | false =>
        have hfindn : OvMap.find? b.asks_overflow p = none := by
          cases hf : OvMap.find? b.asks_overflow p with
          | none => rfl
          | some l => rw [hf] at hfind; cases hfind
        rw [if_neg (by decide : ¬((false : Bool) = true))]
        refine ⟨rfl, rfl, rfl, rfl, rfl, ?_, ?_, ?_, ?_, ?_⟩
        · intro sd' hne
          cases sd' with
          | Ask => exact absurd rfl hne
          | Bid => exact ⟨rfl, rfl⟩
        · dsimp only
          rw [hres]
          exact hg
        · dsimp only
          refine ⟨setL_sorted hov.sorted p Level.default, ?_, ?_⟩
          · intro q l hq
            rw [hres]
            by_cases hqp : q = p
            · subst hqp
              exact hpidx
            · rw [find?_setL_other _ _ _ _ hqp] at hq
              exact hov.disj q l hq
          · intro hcon
            rw [hres] at hcon
            rw [hcon] at hinitb
            cases hinitb
        · unfold InstrumentBook.getLevel?
          dsimp only
          rw [hres]
          unfold PriceGrid.getL
          rw [hpidx]
          dsimp only
          rw [find?_setL_self, hfindn]
          rfl
        · intro q hq
          unfold InstrumentBook.getLevel?
          dsimp only
          rw [hres, find?_setL_other _ _ _ _ hq]


theorem setLevel_spec {b : InstrumentBook} {sd : Side} (p : Int) (l : Level)
    (hg : GridWf (b.gridOf sd)) (hov : OvWf (b.gridOf sd) (b.ovOf sd)) :
    (b.setLevel sd p l).orders = b.orders ∧
    (b.setLevel sd p l).best_bid = b.best_bid ∧
    (b.setLevel sd p l).best_ask = b.best_ask ∧
    (b.setLevel sd p l).best_bid_qty = b.best_bid_qty ∧
    (b.setLevel sd p l).best_ask_qty = b.best_ask_qty ∧
    (∀ sd', sd' ≠ sd → (b.setLevel sd p l).gridOf sd' = b.gridOf sd' ∧
      (b.setLevel sd p l).ovOf sd' = b.ovOf sd') ∧
    GridWf ((b.setLevel sd p l).gridOf sd) ∧
    OvWf ((b.setLevel sd p l).gridOf sd) ((b.setLevel sd p l).ovOf sd) ∧
    ((b.getLevel? sd p).isSome = true → (b.setLevel sd p l).getLevel? sd p = some l) ∧
    (b.getLevel? sd p = none → b.setLevel sd p l = b) ∧
    (∀ q, q ≠ p → (b.setLevel sd p l).getLevel? sd q = b.getLevel? sd q) := by
  cases sd with
  | Bid =>
    simp only [InstrumentBook.gridOf, InstrumentBook.ovOf] at hg hov ⊢
    unfold InstrumentBook.setLevel
    dsimp only
    cases hpi : b.bids_grid.priceToIdx p with
    | some i =>
      dsimp only
      have hspec := (priceToIdx_spec hg p i).1 hpi
      cases hslot : (b.bids_grid.slots i).isSome with
      | true =>
        rw [if_pos (rfl : (true : Bool) = true)]
        obtain ⟨lv0, hlv0⟩ := Option.isSome_iff_exists.1 hslot
        have hgetp : b.getLevel? Side.Bid p = some lv0 := by
          unfold InstrumentBook.getLevel?
          dsimp only
          unfold PriceGrid.getL
          rw [hpi]
          dsimp only
          rw [hlv0]
        refine ⟨rfl, rfl, rfl, rfl, rfl, ?_, ?_, ?_, ?_, ?_, ?_⟩
        · intro sd' hne
          cases sd' with
          | Bid => exact absurd rfl hne
          | Ask => exact ⟨rfl, rfl⟩
        · exact setSlot_wf hg hspec.1 hspec.2.1 _
        · refine ⟨hov.sorted, ?_, ?_⟩
          · intro q lq hq
            rw [setSlot_priceToIdx]
            exact hov.disj q lq hq
          · intro hcon
            rw [show (b.bids_grid.setSlot i (some l)).initialized = b.bids_grid.initialized
              from rfl, hspec.1] at hcon
            cases hcon
        · intro _
          unfold InstrumentBook.getLevel?
          dsimp only
          rw [setSlot_getL_self hpi]
        · intro h
          rw [hgetp] at h
          cases h
        · intro q hq
          unfold InstrumentBook.getLevel?
          dsimp only
          rw [setSlot_getL_other hg hpi hq]
      | false =>
        rw [if_neg (by decide : ¬((false : Bool) = true))]
        have hslotn : b.bids_grid.slots i = none := by
          cases hs : b.bids_grid.slots i with
          | none => rfl
          | some x => rw [hs] at hslot; cases hslot
        have hgetp0 : b.bids_grid.getL p = none := by
          unfold PriceGrid.getL
          rw [hpi]
          dsimp only
          exact hslotn
        cases hovf : (OvMap.find? b.bids_overflow p).isSome with
        | true =>
          exfalso
          obtain ⟨lq, hlq⟩ := Option.isSome_iff_exists.1 hovf
          rw [hov.disj p lq hlq] at hpi
          cases hpi
        | false =>
          rw [if_neg (by decide : ¬((false : Bool) = true))]
          have hfindn : OvMap.find? b.bids_overflow p = none := by
            cases hf : OvMap.find? b.bids_overflow p with
            | none => rfl
            | some x => rw [hf] at hovf; cases hovf
          have hgetp : b.getLevel? Side.Bid p = none := by
            unfold InstrumentBook.getLevel?
            dsimp only
            rw [hgetp0]
            exact hfindn
          refine ⟨rfl, rfl, rfl, rfl, rfl, ?_, hg, hov, ?_, fun _ => rfl, fun q hq => rfl⟩
          · intro sd' hne
            cases sd' with
            | Bid => exact absurd rfl hne
            | Ask => exact ⟨rfl, rfl⟩
          · intro h
            rw [hgetp] at h
            cases h
    | none =>
      dsimp only
      have hgetp0 : b.bids_grid.getL p = none := by
        unfold PriceGrid.getL
        rw [hpi]
      cases hovf : (OvMap.find? b.bids_overflow p).isSome with
      | true =>
        rw [if_pos (rfl : (true : Bool) = true)]
        obtain ⟨lq, hlq⟩ := Option.isSome_iff_exists.1 hovf
        have hgetp : b.getLevel? Side.Bid p = some lq := by
          unfold InstrumentBook.getLevel?
          dsimp only
          rw [hgetp0]
          exact hlq
        refine ⟨rfl, rfl, rfl, rfl, rfl, ?_, hg, ?_, ?_, ?_, ?_⟩
        · intro sd' hne
          cases sd' with
          | Bid => exact absurd rfl hne
          | Ask => exact ⟨rfl, rfl⟩
        · refine ⟨setL_sorted hov.sorted p l, ?_, ?_⟩
          · intro q lw hq
            by_cases hqp : q = p
            · subst hqp
              exact hpi
            · rw [find?_setL_other _ _ _ _ hqp] at hq
              exact hov.disj q lw hq
          · intro hcon
            rw [hov.uninit hcon] at hlq
            cases hlq
        · intro _
          unfold InstrumentBook.getLevel?
          dsimp only
          rw [hgetp0]
          exact find?_setL_self _ _ _
        · intro h
          rw [hgetp] at h
          cases h
        · intro q hq
          unfold InstrumentBook.getLevel?
          dsimp only
          rw [find?_setL_other _ _ _ _ hq]
      | false =>
        rw [if_neg (by decide : ¬((false : Bool) = true))]
        have hfindn : OvMap.find? b.bids_overflow p = none := by
          cases hf : OvMap.find? b.bids_overflow p with
          | none => rfl
          | some x => rw [hf] at hovf; cases hovf
        have hgetp : b.getLevel? Side.Bid p = none := by
          unfold InstrumentBook.getLevel?
          dsimp only
          rw [hgetp0]
          exact hfindn
        refine ⟨rfl, rfl, rfl, rfl, rfl, ?_, hg, hov, ?_, fun _ => rfl, fun q hq => rfl⟩
        · intro sd' hne
          cases sd' with
          | Bid => exact absurd rfl hne
          | Ask => exact ⟨rfl, rfl⟩
        · intro h
          rw [hgetp] at h
          cases h
  | Ask =>
    simp only [InstrumentBook.gridOf, InstrumentBook.ovOf] at hg hov ⊢
    unfold InstrumentBook.setLevel
    dsimp only
    cases hpi : b.asks_grid.priceToIdx p with
    | some i =>
      dsimp only
      have hspec := (priceToIdx_spec hg p i).1 hpi
      cases hslot : (b.asks_grid.slots i).isSome with
      | true =>
        rw [if_pos (rfl : (true : Bool) = true)]
        obtain ⟨lv0, hlv0⟩ := Option.isSome_iff_exists.1 hslot
        have hgetp : b.getLevel? Side.Ask p = some lv0 := by
          unfold InstrumentBook.getLevel?
          dsimp only
          unfold PriceGrid.getL
          rw [hpi]
          dsimp only
          rw [hlv0]
        refine ⟨rfl, rfl, rfl, rfl, rfl, ?_, ?_, ?_, ?_, ?_, ?_⟩
        · intro sd' hne
          cases sd' with
          | Ask => exact absurd rfl hne
          | Bid => exact ⟨rfl, rfl⟩
        · exact setSlot_wf hg hspec.1 hspec.2.1 _
        · refine ⟨hov.sorted, ?_, ?_⟩
          · intro q lq hq
            rw [setSlot_priceToIdx]
            exact hov.disj q lq hq
          · intro hcon
            rw [show (b.asks_grid.setSlot i (some l)).initialized = b.asks_grid.initialized
              from rfl, hspec.1] at hcon
            cases hcon
        · intro _
          unfold InstrumentBook.getLevel?
          dsimp only
          rw [setSlot_getL_self hpi]
        · intro h
          rw [hgetp] at h
          cases h
        · intro q hq
          unfold InstrumentBook.getLevel?
          dsimp only
          rw [setSlot_getL_other hg hpi hq]
      | false =>
        rw [if_neg (by decide : ¬((false : Bool) = true))]
        have hslotn : b.asks_grid.slots i = none := by
          cases hs : b.asks_grid.slots i with
          | none => rfl
          | some x => rw [hs] at hslot; cases hslot
        have hgetp0 : b.asks_grid.getL p = none := by
          unfold PriceGrid.getL
          rw [hpi]
          dsimp only
          exact hslotn
        cases hovf : (OvMap.find? b.asks_overflow p).isSome with
        | true =>
          exfalso
          obtain ⟨lq, hlq⟩ := Option.isSome_iff_exists.1 hovf
          rw [hov.disj p lq hlq] at hpi
          cases hpi
        | false =>
          rw [if_neg (by decide : ¬((false : Bool) = true))]
          have hfindn : OvMap.find? b.asks_overflow p = none := by
            cases hf : OvMap.find? b.asks_overflow p with
            | none => rfl
            | some x => rw [hf] at hovf; cases hovf
          have hgetp : b.getLevel? Side.Ask p = none := by
            unfold InstrumentBook.getLevel?
            dsimp only
            rw [hgetp0]
            exact hfindn
          refine ⟨rfl, rfl, rfl, rfl, rfl, ?_, hg, hov, ?_, fun _ => rfl, fun q hq => rfl⟩
          · intro sd' hne
            cases sd' with
            | Ask => exact absurd rfl hne
            | Bid => exact ⟨rfl, rfl⟩
          · intro h
            rw [hgetp] at h
            cases h
    | none =>
      dsimp only
      have hgetp0 : b.asks_grid.getL p = none := by
        unfold PriceGrid.getL
        rw [hpi]
      cases hovf : (OvMap.find? b.asks_overflow p).isSome with
      | true =>
        rw [if_pos (rfl : (true : Bool) = true)]
        obtain ⟨lq, hlq⟩ := Option.isSome_iff_exists.1 hovf
        have hgetp : b.getLevel? Side.Ask p = some lq := by
          unfold InstrumentBook.getLevel?
          dsimp only
          rw [hgetp0]
          exact hlq
        refine ⟨rfl, rfl, rfl, rfl, rfl, ?_, hg, ?_, ?_, ?_, ?_⟩
        · intro sd' hne
          cases sd' with
          | Ask => exact absurd rfl hne
          | Bid => exact ⟨rfl, rfl⟩
        · refine ⟨setL_sorted hov.sorted p l, ?_, ?_⟩
          · intro q lw hq
            by_cases hqp : q = p
            · subst hqp
              exact hpi
            · rw [find?_setL_other _ _ _ _ hqp] at hq
              exact hov.disj q lw hq
          · intro hcon
            rw [hov.uninit hcon] at hlq
            cases hlq
        · intro _
          unfold InstrumentBook.getLevel?
          dsimp only
          rw [hgetp0]
          exact find?_setL_self _ _ _
        · intro h
          rw [hgetp] at h
          cases h
        · intro q hq
          unfold InstrumentBook.getLevel?
          dsimp only
          rw [find?_setL_other _ _ _ _ hq]
      | false =>
        rw [if_neg (by decide : ¬((false : Bool) = true))]
        have hfindn : OvMap.find? b.asks_overflow p = none := by
          cases hf : OvMap.find? b.asks_overflow p with
          | none => rfl
          | some x => rw [hf] at hovf; cases hovf
        have hgetp : b.getLevel? Side.Ask p = none := by
          unfold InstrumentBook.getLevel?
          dsimp only
          rw [hgetp0]
          exact hfindn
        refine ⟨rfl, rfl, rfl, rfl, rfl, ?_, hg, hov, ?_, fun _ => rfl, fun q hq => rfl⟩
        · intro sd' hne
          cases sd' with
          | Ask => exact absurd rfl hne
          | Bid => exact ⟨rfl, rfl⟩
        · intro h
          rw [hgetp] at h
          cases h


theorem removeLevel_spec {b : InstrumentBook} {sd : Side} (p : Int)
    (hg : GridWf (b.gridOf sd)) (hov : OvWf (b.gridOf sd) (b.ovOf sd))
    {lv : Level} (hlv : b.getLevel? sd p = some lv) (hemp : lv.isEmpty = true) :
    (b.removeLevelIfEmpty sd p).orders = b.orders ∧
    (b.removeLevelIfEmpty sd p).best_bid = b.best_bid ∧
    (b.removeLevelIfEmpty sd p).best_ask = b.best_ask ∧
    (b.removeLevelIfEmpty sd p).best_bid_qty = b.best_bid_qty ∧
    (b.removeLevelIfEmpty sd p).best_ask_qty = b.best_ask_qty ∧
    (∀ sd', sd' ≠ sd → (b.removeLevelIfEmpty sd p).gridOf sd' = b.gridOf sd' ∧
      (b.removeLevelIfEmpty sd p).ovOf sd' = b.ovOf sd') ∧
    GridWf ((b.removeLevelIfEmpty sd p).gridOf sd) ∧
    OvWf ((b.removeLevelIfEmpty sd p).gridOf sd) ((b.removeLevelIfEmpty sd p).ovOf sd) ∧
    (b.removeLevelIfEmpty sd p).getLevel? sd p = none ∧
    (∀ q, q ≠ p → (b.removeLevelIfEmpty sd p).getLevel? sd q = b.getLevel? sd q) := by
  cases sd with
  | Bid =>
    simp only [InstrumentBook.gridOf, InstrumentBook.ovOf] at hg hov ⊢
    cases hpi : b.bids_grid.priceToIdx p with
    | some i =>
      have hspec := (priceToIdx_spec hg p i).1 hpi
      have hfindn : OvMap.find? b.bids_overflow p = none := by
        cases hf : OvMap.find? b.bids_overflow p with
        | none => rfl
        | some x =>
          rw [hov.disj p x hf] at hpi
          cases hpi
      cases hsl : b.bids_grid.slots i with
      | none =>
        exfalso
        have hnone : b.getLevel? Side.Bid p = none := by
          unfold InstrumentBook.getLevel?
          dsimp only
          unfold PriceGrid.getL
          rw [hpi]
          dsimp only
          rw [hsl]
          exact hfindn
        rw [hnone] at hlv
        cases hlv
      | some l0 =>
        have hl0 : l0 = lv := by
          have hsome : b.getLevel? Side.Bid p = some l0 := by
            unfold InstrumentBook.getLevel?
            dsimp only
            unfold PriceGrid.getL
            rw [hpi]
            dsimp only
            rw [hsl]
          rw [hlv] at hsome
          injection hsome with h2
          exact h2.symm
        subst hl0
        unfold InstrumentBook.removeLevelIfEmpty
        dsimp only
        unfold PriceGrid.removeL
        rw [hpi]
        dsimp only
        rw [hsl]
        dsimp only
        rw [if_pos hemp]
        dsimp only
        rw [if_pos (rfl : (true : Bool) = true)]
        refine ⟨rfl, rfl, rfl, rfl, rfl, ?_, ?_, ?_, ?_, ?_⟩
        · intro sd' hne
          cases sd' with
          | Bid => exact absurd rfl hne
          | Ask => exact ⟨rfl, rfl⟩
        · exact setSlot_wf hg hspec.1 hspec.2.1 _
        · refine ⟨hov.sorted, ?_, ?_⟩
          · intro q lq hq
            rw [setSlot_priceToIdx]
            exact hov.disj q lq hq
          · intro hcon
            rw [show (b.bids_grid.setSlot i none).initialized = b.bids_grid.initialized
              from rfl, hspec.1] at hcon
            cases hcon
        · unfold InstrumentBook.getLevel?
          dsimp only
          rw [setSlot_getL_self hpi]
          exact hfindn
        · intro q hq
          unfold InstrumentBook.getLevel?
          dsimp only
          rw [setSlot_getL_other hg hpi hq]
    | none =>
      have hgl : b.bids_grid.getL p = none := by
        unfold PriceGrid.getL
        rw [hpi]
      have hfind : OvMap.find? b.bids_overflow p = some lv := by
        have := hlv
        unfold InstrumentBook.getLevel? at this
        dsimp only at this
        rw [hgl] at this
        exact this
      unfold InstrumentBook.removeLevelIfEmpty
      dsimp only
      unfold PriceGrid.removeL
      rw [hpi]
      dsimp only
      rw [if_neg (by decide : ¬((false : Bool) = true))]
      rw [hfind]
      dsimp only
      rw [if_pos hemp]
      refine ⟨rfl, rfl, rfl, rfl, rfl, ?_, hg, ?_, ?_, ?_⟩
      · intro sd' hne
        cases sd' with
        | Bid => exact absurd rfl hne
        | Ask => exact ⟨rfl, rfl⟩
      · refine ⟨erase_sorted hov.sorted p, ?_, ?_⟩
        · intro q lq hq
          by_cases hqp : q = p
          · subst hqp
            exact hpi
          · rw [find?_erase_other _ _ _ hqp] at hq
            exact hov.disj q lq hq
        · intro hcon
          rw [hov.uninit hcon] at hfind
          cases hfind
      · unfold InstrumentBook.getLevel?
        dsimp only
        rw [hgl]
        exact find?_erase_self _ _
      · intro q hq
        unfold InstrumentBook.getLevel?
        dsimp only
        rw [find?_erase_other _ _ _ hq]
  | Ask =>
    simp only [InstrumentBook.gridOf, InstrumentBook.ovOf] at hg hov ⊢
    cases hpi : b.asks_grid.priceToIdx p with
    | some i =>
      have hspec := (priceToIdx_spec hg p i).1 hpi
      have hfindn : OvMap.find? b.asks_overflow p = none := by
        cases hf : OvMap.find? b.asks_overflow p with
        | none => rfl
        | some x =>
          rw [hov.disj p x hf] at hpi
          cases hpi
      cases hsl : b.asks_grid.slots i with
      | none =>
        exfalso
        have hnone : b.getLevel? Side.Ask p = none := by
          unfold InstrumentBook.getLevel?
          dsimp only
          unfold PriceGrid.getL
          rw [hpi]
          dsimp only
          rw [hsl]
          exact hfindn
        rw [hnone] at hlv
        cases hlv
      | some l0 =>
        have hl0 : l0 = lv := by
          have hsome : b.getLevel? Side.Ask p = some l0 := by
            unfold InstrumentBook.getLevel?
            dsimp only
            unfold PriceGrid.getL
            rw [hpi]
            dsimp only
            rw [hsl]
          rw [hlv] at hsome
          injection hsome with h2
          exact h2.symm
        subst hl0
        unfold InstrumentBook.removeLevelIfEmpty
        dsimp only
        unfold PriceGrid.removeL
        rw [hpi]
        dsimp only
        rw [hsl]
        dsimp only
        rw [if_pos hemp]
        dsimp only
        rw [if_pos (rfl : (true : Bool) = true)]
        refine ⟨rfl, rfl, rfl, rfl, rfl, ?_, ?_, ?_, ?_, ?_⟩
        · intro sd' hne
          cases sd' with
          | Ask => exact absurd rfl hne
          | Bid => exact ⟨rfl, rfl⟩
        · exact setSlot_wf hg hspec.1 hspec.2.1 _
        · refine ⟨hov.sorted, ?_, ?_⟩
          · intro q lq hq
            rw [setSlot_priceToIdx]
            exact hov.disj q lq hq
          · intro hcon
            rw [show (b.asks_grid.setSlot i none).initialized = b.asks_grid.initialized
              from rfl, hspec.1] at hcon
            cases hcon
        · unfold InstrumentBook.getLevel?
          dsimp only
          rw [setSlot_getL_self hpi]
          exact hfindn
        · intro q hq
          unfold InstrumentBook.getLevel?
          dsimp only
          rw [setSlot_getL_other hg hpi hq]
    | none =>
      have hgl : b.asks_grid.getL p = none := by
        unfold PriceGrid.getL
        rw [hpi]
      have hfind : OvMap.find? b.asks_overflow p = some lv := by
        have := hlv
        unfold InstrumentBook.getLevel? at this
        dsimp only at this
        rw [hgl] at this
        exact this
      unfold InstrumentBook.removeLevelIfEmpty
      dsimp only
      unfold PriceGrid.removeL
      rw [hpi]
      dsimp only
      rw [if_neg (by decide : ¬((false : Bool) = true))]
      rw [hfind]
      dsimp only
      rw [if_pos hemp]
      refine ⟨rfl, rfl, rfl, rfl, rfl, ?_, hg, ?_, ?_, ?_⟩
      · intro sd' hne
        cases sd' with
        | Ask => exact absurd rfl hne
        | Bid => exact ⟨rfl, rfl⟩
      · refine ⟨erase_sorted hov.sorted p, ?_, ?_⟩
        · intro q lq hq
          by_cases hqp : q = p
          · subst hqp
            exact hpi
          · rw [find?_erase_other _ _ _ hqp] at hq
            exact hov.disj q lq hq
        · intro hcon
          rw [hov.uninit hcon] at hfind
          cases hfind
      · unfold InstrumentBook.getLevel?
        dsimp only
        rw [hgl]
        exact find?_erase_self _ _
      · intro q hq
        unfold InstrumentBook.getLevel?
        dsimp only
        rw [find?_erase_other _ _ _ hq]


theorem bestbestBidCandidate_spec {g : PriceGrid} (hwf : GridWf g) :
    (g.bestBidCandidate = none → ∀ p lv, g.getL p = some lv → lv.isEmpty = true) ∧
    (∀ pr q, g.bestBidCandidate = some (pr, q) →
      ∃ lv, g.getL pr = some lv ∧ lv.isEmpty = false ∧ q = lv.total_qty ∧
        ∀ p lv', g.getL p = some lv' → lv'.isEmpty = false → p ≤ pr) := by
  have hrr := revRangeFind_spec (fun i => match g.slots i with
    | some l =>
      if !l.isEmpty then some (g.start_price + (i : Int) * g.tick, l.total_qty) else none
    | none => none) g.span
  constructor
  · intro hnone p lv hgl
    have hnone' := hnone
    unfold PriceGrid.bestBidCandidate at hnone'
    unfold PriceGrid.getL at hgl
    cases hpi : g.priceToIdx p with
    | none => rw [hpi] at hgl; cases hgl
    | some i =>
      rw [hpi] at hgl
      dsimp only at hgl
      have hspec := (priceToIdx_spec hwf p i).1 hpi
      have hfi := hrr.1 hnone' i hspec.2.1
      rw [hgl] at hfi
      dsimp only at hfi
      cases hemp : lv.isEmpty with
      | true => rfl
      | false =>
        rw [hemp] at hfi
        simp at hfi
  · intro pr q hsome
    have hsome' := hsome
    unfold PriceGrid.bestBidCandidate at hsome'
    obtain ⟨i, hi, hfi, hmax⟩ := hrr.2 (pr, q) hsome'
    cases hsl : g.slots i with
    | none => rw [hsl] at hfi; cases hfi
    | some l =>
      rw [hsl] at hfi
      dsimp only at hfi
      cases hemp : l.isEmpty with
      | true => rw [hemp] at hfi; simp at hfi
      | false =>
        rw [hemp] at hfi
        simp only [Bool.not_false, if_pos] at hfi
        injection hfi with hfi
        injection hfi with hpr hq
        have hinit : g.initialized = true := by
          cases hini : g.initialized with
          | true => rfl
          | false =>
            rw [hwf.uninit hini i] at hsl
            cases hsl
        have hpidx : g.priceToIdx pr = some i := by
          rw [priceToIdx_spec hwf]
          refine ⟨hinit, hi, ?_⟩
          rw [← hpr, hwf.tick1]
          omega
        refine ⟨l, ?_, hemp, hq.symm, ?_⟩
        · unfold PriceGrid.getL
          rw [hpidx]
          dsimp only
          exact hsl
        · intro p lv' hgl hnemp
          unfold PriceGrid.getL at hgl
          cases hpi2 : g.priceToIdx p with
          | none => rw [hpi2] at hgl; cases hgl
          | some j =>
            rw [hpi2] at hgl
            dsimp only at hgl
            have hspec2 := (priceToIdx_spec hwf p j).1 hpi2
            have hjle : j ≤ i := by
              by_contra hcon
              have hfj := hmax j (by omega) hspec2.2.1
              rw [hgl] at hfj
              dsimp only at hfj
              rw [hnemp] at hfj
              simp at hfj
            rw [hspec2.2.2, ← hpr, hwf.tick1]
            omega


theorem bestbestAskCandidate_spec {g : PriceGrid} (hwf : GridWf g) :
    (g.bestAskCandidate = none → ∀ p lv, g.getL p = some lv → lv.isEmpty = true) ∧
    (∀ pr q, g.bestAskCandidate = some (pr, q) →
      ∃ lv, g.getL pr = some lv ∧ lv.isEmpty = false ∧ q = lv.total_qty ∧
        ∀ p lv', g.getL p = some lv' → lv'.isEmpty = false → pr ≤ p) := by
  have hrr := rangeFind_spec (fun i => match g.slots i with
    | some l =>
      if !l.isEmpty then some (g.start_price + (i : Int) * g.tick, l.total_qty) else none
    | none => none) g.span
  constructor
  · intro hnone p lv hgl
    have hnone' := hnone
    unfold PriceGrid.bestAskCandidate at hnone'
    unfold PriceGrid.getL at hgl
    cases hpi : g.priceToIdx p with
    | none => rw [hpi] at hgl; cases hgl
    | some i =>
      rw [hpi] at hgl
      dsimp only at hgl
      have hspec := (priceToIdx_spec hwf p i).1 hpi
      have hfi := hrr.1 hnone' i hspec.2.1
      rw [hgl] at hfi
      dsimp only at hfi
      cases hemp : lv.isEmpty with
      | true => rfl
      | false =>
        rw [hemp] at hfi
        simp at hfi
  · intro pr q hsome
    have hsome' := hsome
    unfold PriceGrid.bestAskCandidate at hsome'
    obtain ⟨i, hi, hfi, hmax⟩ := hrr.2 (pr, q) hsome'
    cases hsl : g.slots i with
    | none => rw [hsl] at hfi; cases hfi
    | some l =>
      rw [hsl] at hfi
      dsimp only at hfi
      cases hemp : l.isEmpty with
      | true => rw [hemp] at hfi; simp at hfi
      | false =>
        rw [hemp] at hfi
        simp only [Bool.not_false, if_pos] at hfi
        injection hfi with hfi
        injection hfi with hpr hq
        have hinit : g.initialized = true := by
          cases hini : g.initialized with
          | true => rfl
          | false =>
            rw [hwf.uninit hini i] at hsl
            cases hsl
        have hpidx : g.priceToIdx pr = some i := by
          rw [priceToIdx_spec hwf]
          refine ⟨hinit, hi, ?_⟩
          rw [← hpr, hwf.tick1]
          omega
        refine ⟨l, ?_, hemp, hq.symm, ?_⟩
        · unfold PriceGrid.getL
          rw [hpidx]
          dsimp only
          exact hsl
        · intro p lv' hgl hnemp
          unfold PriceGrid.getL at hgl
          cases hpi2 : g.priceToIdx p with
          | none => rw [hpi2] at hgl; cases hgl
          | some j =>
            rw [hpi2] at hgl
            dsimp only at hgl
            have hspec2 := (priceToIdx_spec hwf p j).1 hpi2
            have hjle : i ≤ j := by
              by_contra hcon
              have hfj := hmax j (by omega : j < i)
              rw [hgl] at hfj
              dsimp only at hfj
              rw [hnemp] at hfj
              simp at hfj
            rw [hspec2.2.2, ← hpr, hwf.tick1]
            omega


theorem recomputeBid_spec {b : InstrumentBook}
    (hg : GridWf b.bids_grid) (hov : OvWf b.bids_grid b.bids_overflow)
    (hne : ∀ p lv, b.getLevel? Side.Bid p = some lv → lv.isEmpty = false) :
    (b.recomputeBestAfterRemoval Side.Bid).bids_grid = b.bids_grid ∧
    (b.recomputeBestAfterRemoval Side.Bid).asks_grid = b.asks_grid ∧
    (b.recomputeBestAfterRemoval Side.Bid).bids_overflow = b.bids_overflow ∧
    (b.recomputeBestAfterRemoval Side.Bid).asks_overflow = b.asks_overflow ∧
    (b.recomputeBestAfterRemoval Side.Bid).orders = b.orders ∧
    (b.recomputeBestAfterRemoval Side.Bid).best_ask = b.best_ask ∧
    (b.recomputeBestAfterRemoval Side.Bid).best_ask_qty = b.best_ask_qty ∧
    BestBidWf (b.recomputeBestAfterRemoval Side.Bid) := by
  have hget_of_grid : ∀ p lv, b.bids_grid.getL p = some lv →
      b.getLevel? Side.Bid p = some lv := by
    intro p lv h
    unfold InstrumentBook.getLevel?
    dsimp only
    rw [h]
  have hget_split : ∀ p lv, b.getLevel? Side.Bid p = some lv →
      b.bids_grid.getL p = some lv ∨
        (b.bids_grid.getL p = none ∧ OvMap.find? b.bids_overflow p = some lv) := by
    intro p lv h
    unfold InstrumentBook.getLevel? at h
    dsimp only at h
    cases hgl : b.bids_grid.getL p with
    | some l =>
      rw [hgl] at h
      exact Or.inl h
    | none =>
      rw [hgl] at h
      exact Or.inr ⟨rfl, h⟩
  obtain ⟨hc1, hc2⟩ := bestbestBidCandidate_spec hg
  obtain ⟨hm1, hm2⟩ := maxEntry_spec b.bids_overflow hov.sorted
  unfold InstrumentBook.recomputeBestAfterRemoval
  dsimp only
  cases hgc : b.bids_grid.bestBidCandidate with
  | none =>
    cases hoc : OvMap.maxEntry b.bids_overflow with
    | none =>
      refine ⟨rfl, rfl, rfl, rfl, rfl, rfl, rfl, ?_, ?_⟩
      · intro _
        constructor
        · intro p lv hplv
          have hplv' : b.getLevel? Side.Bid p = some lv := hplv
          rcases hget_split p lv hplv' with hgl | ⟨hgl, hf⟩
          · have h2 := hne p lv hplv'
            rw [hc1 hgc p lv hgl] at h2
            cases h2
          · rw [hm1 hoc] at hf
            cases hf
        · rfl
      · intro bp hbp
        cases hbp
    | some e =>
      obtain ⟨k, v⟩ := e
      obtain ⟨hfk, hub⟩ := hm2 k v hoc
      refine ⟨rfl, rfl, rfl, rfl, rfl, rfl, rfl, ?_, ?_⟩
      · intro hcon
        cases hcon
      · intro bp hbp
        injection hbp with hbp
        subst hbp
        have hglk : b.bids_grid.getL k = none := by
          cases hgl : b.bids_grid.getL k with
          | none => rfl
          | some lvk =>
            have hfalse := hne k lvk (hget_of_grid k lvk hgl)
            rw [hc1 hgc k lvk hgl] at hfalse
            cases hfalse
        refine ⟨v, ?_, rfl, ?_⟩
        · show b.getLevel? Side.Bid k = some v
          unfold InstrumentBook.getLevel?
          dsimp only
          rw [hglk]
          exact hfk
        · intro p lv' hplv
          have hplv' : b.getLevel? Side.Bid p = some lv' := hplv
          rcases hget_split p lv' hplv' with hgl | ⟨hgl, hf⟩
          · have h2 := hne p lv' hplv'
            rw [hc1 hgc p lv' hgl] at h2
            cases h2
          · exact hub p lv' hf
  | some gc =>
    obtain ⟨gp, gq⟩ := gc
    obtain ⟨lv, hglv, hnemp, hq, hmax⟩ := hc2 gp gq hgc
    cases hoc : OvMap.maxEntry b.bids_overflow with
    | none =>
      refine ⟨rfl, rfl, rfl, rfl, rfl, rfl, rfl, ?_, ?_⟩
      · intro hcon
        cases hcon
      · intro bp hbp
        injection hbp with hbp
        subst hbp
        refine ⟨lv, hget_of_grid gp lv hglv, hq, ?_⟩
        intro p lv' hplv
        have hplv' : b.getLevel? Side.Bid p = some lv' := hplv
        rcases hget_split p lv' hplv' with hgl | ⟨hgl, hf⟩
        · exact hmax p lv' hgl (hne p lv' hplv')
        · rw [hm1 hoc] at hf
          cases hf
    | some e =>
      obtain ⟨k, v⟩ := e
      obtain ⟨hfk, hub⟩ := hm2 k v hoc
      simp only [Option.map]
      dsimp only
      by_cases hcmp : gp ≥ k
      · rw [if_pos hcmp]
        dsimp only
        refine ⟨rfl, rfl, rfl, rfl, rfl, rfl, rfl, ?_, ?_⟩
        · intro hcon
          cases hcon
        · intro bp hbp
          injection hbp with hbp
          subst hbp
          refine ⟨lv, hget_of_grid gp lv hglv, hq, ?_⟩
          intro p lv' hplv
          have hplv' : b.getLevel? Side.Bid p = some lv' := hplv
          rcases hget_split p lv' hplv' with hgl | ⟨hgl, hf⟩
          · exact hmax p lv' hgl (hne p lv' hplv')
          · have := hub p lv' hf
            omega
      · rw [if_neg hcmp]
        dsimp only
        refine ⟨rfl, rfl, rfl, rfl, rfl, rfl, rfl, ?_, ?_⟩
        · intro hcon
          cases hcon
        · intro bp hbp
          injection hbp with hbp
          subst hbp
          have hglk : b.bids_grid.getL k = none := by
            cases hgl : b.bids_grid.getL k with
            | none => rfl
            | some lvk =>
              have := hmax k lvk hgl (hne k lvk (hget_of_grid k lvk hgl))
              omega
          refine ⟨v, ?_, rfl, ?_⟩
          · show b.getLevel? Side.Bid k = some v
            unfold InstrumentBook.getLevel?
            dsimp only
            rw [hglk]
            exact hfk
          · intro p lv' hplv
            have hplv' : b.getLevel? Side.Bid p = some lv' := hplv
            rcases hget_split p lv' hplv' with hgl | ⟨hgl, hf⟩
            · have := hmax p lv' hgl (hne p lv' hplv')
              omega
            · exact hub p lv' hf


theorem recomputeAsk_spec {b : InstrumentBook}
    (hg : GridWf b.asks_grid) (hov : OvWf b.asks_grid b.asks_overflow)
    (hne : ∀ p lv, b.getLevel? Side.Ask p = some lv → lv.isEmpty = false) :
    (b.recomputeBestAfterRemoval Side.Ask).bids_grid = b.bids_grid ∧
    (b.recomputeBestAfterRemoval Side.Ask).asks_grid = b.asks_grid ∧
    (b.recomputeBestAfterRemoval Side.Ask).bids_overflow = b.bids_overflow ∧
    (b.recomputeBestAfterRemoval Side.Ask).asks_overflow = b.asks_overflow ∧
    (b.recomputeBestAfterRemoval Side.Ask).orders = b.orders ∧
    (b.recomputeBestAfterRemoval Side.Ask).best_bid = b.best_bid ∧
    (b.recomputeBestAfterRemoval Side.Ask).best_bid_qty = b.best_bid_qty ∧
    BestAskWf (b.recomputeBestAfterRemoval Side.Ask) := by
  have hget_of_grid : ∀ p lv, b.asks_grid.getL p = some lv →
      b.getLevel? Side.Ask p = some lv := by
    intro p lv h
    unfold InstrumentBook.getLevel?
    dsimp only
    rw [h]
  have hget_split : ∀ p lv, b.getLevel? Side.Ask p = some lv →
      b.asks_grid.getL p = some lv ∨
        (b.asks_grid.getL p = none ∧ OvMap.find? b.asks_overflow p = some lv) := by
    intro p lv h
    unfold InstrumentBook.getLevel? at h
    dsimp only at h
    cases hgl : b.asks_grid.getL p with
    | some l =>
      rw [hgl] at h
      exact Or.inl h
    | none =>
      rw [hgl] at h
      exact Or.inr ⟨rfl, h⟩
  obtain ⟨hc1, hc2⟩ := bestbestAskCandidate_spec hg
  obtain ⟨hm1, hm2⟩ := minEntry_spec b.asks_overflow hov.sorted
  unfold InstrumentBook.recomputeBestAfterRemoval
  dsimp only
  cases hgc : b.asks_grid.bestAskCandidate with
  | none =>
    cases hoc : OvMap.minEntry b.asks_overflow with
    | none =>
      refine ⟨rfl, rfl, rfl, rfl, rfl, rfl, rfl, ?_, ?_⟩
      · intro _
        constructor
        · intro p lv hplv
          have hplv' : b.getLevel? Side.Ask p = some lv := hplv
          rcases hget_split p lv hplv' with hgl | ⟨hgl, hf⟩
          · have h2 := hne p lv hplv'
            rw [hc1 hgc p lv hgl] at h2
            cases h2
          · rw [hm1 hoc] at hf
            cases hf
        · rfl
      · intro bp hbp
        cases hbp
    | some e =>
      obtain ⟨k, v⟩ := e
      obtain ⟨hfk, hub⟩ := hm2 k v hoc
      refine ⟨rfl, rfl, rfl, rfl, rfl, rfl, rfl, ?_, ?_⟩
      · intro hcon
        cases hcon
      · intro bp hbp
        injection hbp with hbp
        subst hbp
        have hglk : b.asks_grid.getL k = none := by
          cases hgl : b.asks_grid.getL k with
          | none => rfl
          | some lvk =>
            have hfalse := hne k lvk (hget_of_grid k lvk hgl)
            rw [hc1 hgc k lvk hgl] at hfalse
            cases hfalse
        refine ⟨v, ?_, rfl, ?_⟩
        · show b.getLevel? Side.Ask k = some v
          unfold InstrumentBook.getLevel?
          dsimp only
          rw [hglk]
          exact hfk
        · intro p lv' hplv
          have hplv' : b.getLevel? Side.Ask p = some lv' := hplv
          rcases hget_split p lv' hplv' with hgl | ⟨hgl, hf⟩
          · have h2 := hne p lv' hplv'
            rw [hc1 hgc p lv' hgl] at h2
            cases h2
          · exact hub p lv' hf
  | some gc =>
    obtain ⟨gp, gq⟩ := gc
    obtain ⟨lv, hglv, hnemp, hq, hmax⟩ := hc2 gp gq hgc
    cases hoc : OvMap.minEntry b.asks_overflow with
    | none =>
      refine ⟨rfl, rfl, rfl, rfl, rfl, rfl, rfl, ?_, ?_⟩
      · intro hcon
        cases hcon
      · intro bp hbp
        injection hbp with hbp
        subst hbp
        refine ⟨lv, hget_of_grid gp lv hglv, hq, ?_⟩
        intro p lv' hplv
        have hplv' : b.getLevel? Side.Ask p = some lv' := hplv
        rcases hget_split p lv' hplv' with hgl | ⟨hgl, hf⟩
        · exact hmax p lv' hgl (hne p lv' hplv')
        · rw [hm1 hoc] at hf
          cases hf
    | some e =>
      obtain ⟨k, v⟩ := e
      obtain ⟨hfk, hub⟩ := hm2 k v hoc
      simp only [Option.map]
      dsimp only
      by_cases hcmp : gp ≤ k
      · rw [if_pos hcmp]
        dsimp only
        refine ⟨rfl, rfl, rfl, rfl, rfl, rfl, rfl, ?_, ?_⟩
        · intro hcon
          cases hcon
        · intro bp hbp
          injection hbp with hbp
          subst hbp
          refine ⟨lv, hget_of_grid gp lv hglv, hq, ?_⟩
          intro p lv' hplv
          have hplv' : b.getLevel? Side.Ask p = some lv' := hplv
          rcases hget_split p lv' hplv' with hgl | ⟨hgl, hf⟩
          · exact hmax p lv' hgl (hne p lv' hplv')
          · have := hub p lv' hf
            omega
      · rw [if_neg hcmp]
        dsimp only
        refine ⟨rfl, rfl, rfl, rfl, rfl, rfl, rfl, ?_, ?_⟩
        · intro hcon
          cases hcon
        · intro bp hbp
          injection hbp with hbp
          subst hbp
          have hglk : b.asks_grid.getL k = none := by
            cases hgl : b.asks_grid.getL k with
            | none => rfl
            | some lvk =>
              have := hmax k lvk hgl (hne k lvk (hget_of_grid k lvk hgl))
              omega
          refine ⟨v, ?_, rfl, ?_⟩
          · show b.getLevel? Side.Ask k = some v
            unfold InstrumentBook.getLevel?
            dsimp only
            rw [hglk]
            exact hfk
          · intro p lv' hplv
            have hplv' : b.getLevel? Side.Ask p = some lv' := hplv
            rcases hget_split p lv' hplv' with hgl | ⟨hgl, hf⟩
            · have := hmax p lv' hgl (hne p lv' hplv')
              omega
            · exact hub p lv' hf


theorem getLevel?_orders (b : InstrumentBook) (o : Slab) (sd : Side) (p : Int) :
    ({ b with orders := o } : InstrumentBook).getLevel? sd p = b.getLevel? sd p := by
  cases sd <;> rfl

theorem bestBidWf_congr {b b' : InstrumentBook}
    (hbb : b'.best_bid = b.best_bid) (hq : b'.best_bid_qty = b.best_bid_qty)
    (hlv : ∀ p, b'.getLevel? Side.Bid p = b.getLevel? Side.Bid p)
    (h : BestBidWf b) : BestBidWf b' := by
  unfold BestBidWf at h ⊢
  simp only [hbb, hq, hlv]
  exact h

theorem bestAskWf_congr {b b' : InstrumentBook}
    (hba : b'.best_ask = b.best_ask) (hq : b'.best_ask_qty = b.best_ask_qty)
    (hlv : ∀ p, b'.getLevel? Side.Ask p = b.getLevel? Side.Ask p)
    (h : BestAskWf b) : BestAskWf b' := by
  unfold BestAskWf at h ⊢
  simp only [hba, hq, hlv]
  exact h

/-- The tail-link update of `InstrumentBook::add`. -/
def addStep3 (b : InstrumentBook) (h : Handle) (prevTail : Option Handle) :
    InstrumentBook :=
  match prevTail with
  | some t =>
    match b.orders.nodes t with
    | some tn => { b with orders := b.orders.set t { tn with next := some h } }
    | none => b
  | none => b

/-- The fresh-node pointer initialisation of `InstrumentBook::add`. -/
def addStep4 (b : InstrumentBook) (h : Handle) (prevTail : Option Handle) :
    InstrumentBook :=
  match b.orders.nodes h with
  | some hn => { b with orders := b.orders.set h { hn with prev := prevTail, next := none } }
  | none => b

/-- The cached-best update of `InstrumentBook::add`. -/
def addStep6 (b : InstrumentBook) (price : Int) (lvl2 : Level) (sd : Side) :
    InstrumentBook :=
  match sd with
  | Side.Bid =>
    match b.best_bid with
    | none => { b with best_bid := some price, best_bid_qty := lvl2.total_qty }
    | some bb =>
      if price > bb then { b with best_bid := some price, best_bid_qty := lvl2.total_qty }
      else if bb = price then { b with best_bid_qty := lvl2.total_qty }
      else b
  | Side.Ask =>
    match b.best_ask with
    | none => { b with best_ask := some price, best_ask_qty := lvl2.total_qty }
    | some aa =>
      if price < aa then { b with best_ask := some price, best_ask_qty := lvl2.total_qty }
      else if aa = price then { b with best_ask_qty := lvl2.total_qty }
      else b

/-- `InstrumentBook.add` decomposed into its sequential steps. -/
def addDecomp (b : InstrumentBook) (price qty : Int) (sd : Side) :
    InstrumentBook × Handle :=
  let h := b.orders.nextH
  let b1 : InstrumentBook := { b with orders := (b.orders.insert (Node.new price qty sd)).1 }
  let b2 := b1.ensureLevel sd price
  let prevTail := ((b2.getLevel? sd price).getD Level.default).tail
  let b3 := addStep3 b2 h prevTail
  let b4 := addStep4 b3 h prevTail
  let lvl1 := (b4.getLevel? sd price).getD Level.default
  let lvl2 := { lvl1 with
    head := if prevTail.isNone then some h else lvl1.head,
    tail := some h,
    count := lvl1.count + 1,
    total_qty := lvl1.total_qty + qty }
  let b5 := b4.setLevel sd price lvl2
  (addStep6 b5 price lvl2 sd, h)

theorem add_eq_decomp (b : InstrumentBook) (price qty : Int) (sd : Side) :
    b.add price qty sd = addDecomp b price qty sd := rfl

theorem addStep6_frame (b : InstrumentBook) (price : Int) (lvl2 : Level) (sd : Side) :
    (addStep6 b price lvl2 sd).orders = b.orders ∧
    (∀ sd', (addStep6 b price lvl2 sd).gridOf sd' = b.gridOf sd') ∧
    (∀ sd', (addStep6 b price lvl2 sd).ovOf sd' = b.ovOf sd') ∧
    (∀ sd' p, (addStep6 b price lvl2 sd).getLevel? sd' p = b.getLevel? sd' p) := by
  have hgen : ∀ b' : InstrumentBook, b'.bids_grid = b.bids_grid → b'.asks_grid = b.asks_grid →
      b'.bids_overflow = b.bids_overflow → b'.asks_overflow = b.asks_overflow →
      b'.orders = b.orders →
      (b'.orders = b.orders ∧
        (∀ sd', b'.gridOf sd' = b.gridOf sd') ∧
        (∀ sd', b'.ovOf sd' = b.ovOf sd') ∧
        (∀ sd' p, b'.getLevel? sd' p = b.getLevel? sd' p)) := by
    intro b' h1 h2 h3 h4 h5
    refine ⟨h5, fun sd' => ?_, fun sd' => ?_, fun sd' p => ?_⟩
    · cases sd' <;> simp [InstrumentBook.gridOf, h1, h2]
    · cases sd' <;> simp [InstrumentBook.ovOf, h3, h4]
    · cases sd' <;> simp [InstrumentBook.getLevel?, PriceGrid.getL, h1, h2, h3, h4]
  unfold addStep6
  cases sd with
  | Bid =>
    cases b.best_bid with
    | none => exact hgen _ rfl rfl rfl rfl rfl
    | some bb =>
      dsimp only
      split
      · exact hgen _ rfl rfl rfl rfl rfl
      · split
        · exact hgen _ rfl rfl rfl rfl rfl
        · exact hgen _ rfl rfl rfl rfl rfl
  | Ask =>
    cases b.best_ask with
    | none => exact hgen _ rfl rfl rfl rfl rfl
    | some aa =>
      dsimp only
      split
      · exact hgen _ rfl rfl rfl rfl rfl
      · split
        · exact hgen _ rfl rfl rfl rfl rfl
        · exact hgen _ rfl rfl rfl rfl rfl


theorem addStep3_frame (b : InstrumentBook) (h : Handle) (pt : Option Handle) :
    (addStep3 b h pt).best_bid = b.best_bid ∧ (addStep3 b h pt).best_ask = b.best_ask ∧
    (addStep3 b h pt).best_bid_qty = b.best_bid_qty ∧
    (addStep3 b h pt).best_ask_qty = b.best_ask_qty ∧
    (addStep3 b h pt).orders.nextH = b.orders.nextH ∧
    (∀ sd' q, (addStep3 b h pt).getLevel? sd' q = b.getLevel? sd' q) ∧
    (∀ sd', (addStep3 b h pt).gridOf sd' = b.gridOf sd') ∧
    (∀ sd', (addStep3 b h pt).ovOf sd' = b.ovOf sd') := by
  unfold addStep3
  cases pt with
  | none =>
    exact ⟨rfl, rfl, rfl, rfl, rfl, fun _ _ => rfl, fun _ => rfl, fun _ => rfl⟩
  | some t =>
    dsimp only
    cases hnt : b.orders.nodes t with
    | none =>
      exact ⟨rfl, rfl, rfl, rfl, rfl, fun _ _ => rfl, fun _ => rfl, fun _ => rfl⟩
    | some tn =>
      exact ⟨rfl, rfl, rfl, rfl, rfl,
        fun sd' q => getLevel?_orders b _ sd' q,
        fun sd' => gridOf_orders b _ sd', fun sd' => ovOf_orders b _ sd'⟩

theorem addStep3_nodes (b : InstrumentBook) (h : Handle) (pt : Option Handle) :
    (∀ j, pt ≠ some j → (addStep3 b h pt).orders.nodes j = b.orders.nodes j) ∧
    (∀ t tn, pt = some t → b.orders.nodes t = some tn →
      (addStep3 b h pt).orders.nodes t = some { tn with next := some h }) := by
  unfold addStep3
  cases pt with
  | none => exact ⟨fun j _ => rfl, fun t tn hpt' _ => by cases hpt'⟩
  | some t0 =>
    dsimp only
    cases hnt : b.orders.nodes t0 with
    | none =>
      refine ⟨fun j _ => rfl, fun t tn hpt' hnt' => ?_⟩
      injection hpt' with h1
      subst h1
      rw [hnt] at hnt'
      cases hnt'
    | some tn0 =>
      constructor
      · intro j hj
        have hjt : j ≠ t0 := by
          intro hcon
          exact hj (by rw [hcon])
        show (if j = t0 then _ else b.orders.nodes j) = b.orders.nodes j
        rw [if_neg hjt]
      · intro t tn hpt' hnt'
        injection hpt' with h1
        subst h1
        rw [hnt] at hnt'
        injection hnt' with h2
        subst h2
        show (if t0 = t0 then _ else b.orders.nodes t0) = _
        rw [if_pos rfl]

theorem addStep4_frame (b : InstrumentBook) (h : Handle) (pt : Option Handle) :
    (addStep4 b h pt).best_bid = b.best_bid ∧ (addStep4 b h pt).best_ask = b.best_ask ∧
    (addStep4 b h pt).best_bid_qty = b.best_bid_qty ∧
    (addStep4 b h pt).best_ask_qty = b.best_ask_qty ∧
    (addStep4 b h pt).orders.nextH = b.orders.nextH ∧
    (∀ sd' q, (addStep4 b h pt).getLevel? sd' q = b.getLevel? sd' q) ∧
    (∀ sd', (addStep4 b h pt).gridOf sd' = b.gridOf sd') ∧
    (∀ sd', (addStep4 b h pt).ovOf sd' = b.ovOf sd') := by
  unfold addStep4
  cases hnh : b.orders.nodes h with
  | none =>
    exact ⟨rfl, rfl, rfl, rfl, rfl, fun _ _ => rfl, fun _ => rfl, fun _ => rfl⟩
  | some hn =>
    exact ⟨rfl, rfl, rfl, rfl, rfl,
      fun sd' q => getLevel?_orders b _ sd' q,
      fun sd' => gridOf_orders b _ sd', fun sd' => ovOf_orders b _ sd'⟩

theorem addStep4_nodes (b : InstrumentBook) (h : Handle) (pt : Option Handle) :
    (∀ j, j ≠ h → (addStep4 b h pt).orders.nodes j = b.orders.nodes j) ∧
    (∀ hn, b.orders.nodes h = some hn →
      (addStep4 b h pt).orders.nodes h = some { hn with prev := pt, next := none }) := by
  unfold addStep4
  cases hnh : b.orders.nodes h with
  | none => exact ⟨fun j _ => rfl, fun hn h1 => by cases h1⟩
  | some hn0 =>
    constructor
    · intro j hj
      show (if j = h then _ else b.orders.nodes j) = b.orders.nodes j
      rw [if_neg hj]
    · intro hn h1
      injection h1 with h2
      subst h2
      show (if h = h then _ else b.orders.nodes h) = _
      rw [if_pos rfl]

theorem addStep6_bid_frame (b : InstrumentBook) (price : Int) (lvl2 : Level) :
    (addStep6 b price lvl2 Side.Bid).best_ask = b.best_ask ∧
    (addStep6 b price lvl2 Side.Bid).best_ask_qty = b.best_ask_qty := by
  unfold addStep6
  cases b.best_bid with
  | none => exact ⟨rfl, rfl⟩
  | some bb =>
    dsimp only
    split
    · exact ⟨rfl, rfl⟩
    · split
      · exact ⟨rfl, rfl⟩
      · exact ⟨rfl, rfl⟩

theorem addStep6_ask_frame (b : InstrumentBook) (price : Int) (lvl2 : Level) :
    (addStep6 b price lvl2 Side.Ask).best_bid = b.best_bid ∧
    (addStep6 b price lvl2 Side.Ask).best_bid_qty = b.best_bid_qty := by
  unfold addStep6
  cases b.best_ask with
  | none => exact ⟨rfl, rfl⟩
  | some aa =>
    dsimp only
    split
    · exact ⟨rfl, rfl⟩
    · split
      · exact ⟨rfl, rfl⟩
      · exact ⟨rfl, rfl⟩


theorem add_wf_aux (price qty : Int) (sd : Side)
    {b b1 b2 b3 b4 b5 b6 : InstrumentBook} {h0 : Handle} {pt : Option Handle}
    {lvl1 lvl2 : Level}
    (hwf : IBWf b)
    (hh0 : h0 = b.orders.nextH)
    (hb1 : b1 = { b with orders := (b.orders.insert (Node.new price qty sd)).1 })
    (hb2 : b2 = b1.ensureLevel sd price)
    (hpt : pt = ((b2.getLevel? sd price).getD Level.default).tail)
    (hb3 : b3 = addStep3 b2 h0 pt)
    (hb4 : b4 = addStep4 b3 h0 pt)
    (hlvl1 : lvl1 = (b4.getLevel? sd price).getD Level.default)
    (hlvl2 : lvl2 = { lvl1 with
      head := if pt.isNone then some h0 else lvl1.head,
      tail := some h0,
      count := lvl1.count + 1,
      total_qty := lvl1.total_qty + qty })
    (hb5 : b5 = b4.setLevel sd price lvl2)
    (hb6 : b6 = addStep6 b5 price lvl2 sd) :
    IBWf b6 := by
  -- stage 1: the slab insert
  have hfresh : b.orders.nodes h0 = none := hh0 ▸ hwf.slab.1 _ (le_refl _)
  have hb1nodes : ∀ j, b1.orders.nodes j =
      if j = h0 then some (Node.new price qty sd) else b.orders.nodes j := by
    intro j
    rw [hb1, hh0]
    rfl
  have hb1nextH : b1.orders.nextH = h0 + 1 := by
    rw [hb1, hh0]
    rfl
  have hb1get : ∀ sd' q, b1.getLevel? sd' q = b.getLevel? sd' q := by
    intro sd' q
    rw [hb1]
    exact getLevel?_orders b _ sd' q
  have hb1grid : ∀ sd', b1.gridOf sd' = b.gridOf sd' := by
    intro sd'
    rw [hb1]
    exact gridOf_orders b _ sd'
  have hb1ov : ∀ sd', b1.ovOf sd' = b.ovOf sd' := by
    intro sd'
    rw [hb1]
    exact ovOf_orders b _ sd'
  have hb1bb : b1.best_bid = b.best_bid := by rw [hb1]
  have hb1ba : b1.best_ask = b.best_ask := by rw [hb1]
  have hb1bbq : b1.best_bid_qty = b.best_bid_qty := by rw [hb1]
  have hb1baq : b1.best_ask_qty = b.best_ask_qty := by rw [hb1]
  -- stage 2: ensure_level
  have hg1 : GridWf (b1.gridOf sd) := by rw [hb1grid]; exact hwf.grids sd
  have hov1 : OvWf (b1.gridOf sd) (b1.ovOf sd) := by
    rw [hb1grid, hb1ov]
    exact hwf.ovs sd
  obtain ⟨hens_ord, hens_bb, hens_ba, hens_bbq, hens_baq, hens_os, hens_gw, hens_ow, hens_self, hens_other⟩ := ensureLevel_spec price hg1 hov1
  rw [← hb2] at hens_ord hens_bb hens_ba hens_bbq hens_baq hens_os hens_gw hens_ow hens_self hens_other
  rw [hb1get] at hens_self
  rw [hens_self] at hpt
  simp only [Option.getD_some] at hpt
  -- the base chain of the target level
  obtain ⟨hs0, hseg0, hnd0, hcnt0, hsum0⟩ : ∃ hs,
      Seg b.orders.nodes price sd none ((b.getLevel? sd price).getD Level.default).head hs
        ((b.getLevel? sd price).getD Level.default).tail ∧ hs.Nodup ∧
      ((b.getLevel? sd price).getD Level.default).count = hs.length ∧
      ((b.getLevel? sd price).getD Level.default).total_qty = sumQty b.orders.nodes hs := by
    cases hlvb : b.getLevel? sd price with
    | some lv0 =>
      obtain ⟨⟨hs, hseg, hnd, hcnt, hsum⟩, hnz⟩ := hwf.sides sd price lv0 hlvb
      simp only [Option.getD_some]
      exact ⟨hs, hseg, hnd, hcnt, hsum⟩
    | none =>
      simp only [Option.getD_none]
      exact ⟨[], Seg.nil none, List.nodup_nil, rfl, rfl⟩
  have hmemlt : ∀ x ∈ hs0, x < h0 := by
    intro x hx
    obtain ⟨nd, hnd, _, _⟩ := hseg0.mem_spec x hx
    by_contra hcon
    rw [Nat.not_lt] at hcon
    rw [hh0] at hcon
    rw [hwf.slab.1 x hcon] at hnd
    cases hnd
  have hpt_some : ∀ t, pt = some t → t ∈ hs0 := by
    intro t ht
    rw [hpt] at ht
    rcases hseg0.last_cases with ⟨h1, h2⟩ | ⟨x, hx, h2⟩
    · rw [h2] at ht
      cases ht
    · rw [h2] at ht
      injection ht with ht
      subst ht
      exact hx
  have hpt_nil : pt = none → hs0 = [] := by
    intro hpn
    rw [hpt] at hpn
    rcases hseg0.last_cases with ⟨h1, _⟩ | ⟨x, hx, h2⟩
    · exact h1
    · rw [h2] at hpn
      cases hpn
  have hpt_cons : hs0 ≠ [] → pt.isNone = false := by
    intro hne
    rcases hseg0.last_cases with ⟨h1, _⟩ | ⟨x, hx, h2⟩
    · exact absurd h1 hne
    · rw [hpt, h2]
      rfl
  have hpt_ne_h0 : pt ≠ some h0 := by
    intro hcon
    exact lt_irrefl h0 (hmemlt h0 (hpt_some h0 hcon))
  -- stage 3/4 node tracking
  obtain ⟨hs3_bb, hs3_ba, hs3_bbq, hs3_baq, hs3_nextH, hs3_get, hs3_grid, hs3_ov⟩ :=
    addStep3_frame b2 h0 pt
  obtain ⟨hs3_keep, hs3_tail⟩ := addStep3_nodes b2 h0 pt
  rw [← hb3] at hs3_bb hs3_ba hs3_bbq hs3_baq hs3_nextH hs3_get hs3_grid hs3_ov hs3_keep hs3_tail
  obtain ⟨hs4_bb, hs4_ba, hs4_bbq, hs4_baq, hs4_nextH, hs4_get, hs4_grid, hs4_ov⟩ :=
    addStep4_frame b3 h0 pt
  obtain ⟨hs4_keep, hs4_new⟩ := addStep4_nodes b3 h0 pt
  rw [← hb4] at hs4_bb hs4_ba hs4_bbq hs4_baq hs4_nextH hs4_get hs4_grid hs4_ov hs4_keep hs4_new
  have hnodes2 : ∀ j, b2.orders.nodes j =
      if j = h0 then some (Node.new price qty sd) else b.orders.nodes j := by
    intro j
    rw [hens_ord]
    exact hb1nodes j
  have hb4_other : ∀ j, j ≠ h0 → pt ≠ some j → b4.orders.nodes j = b.orders.nodes j := by
    intro j hj hptj
    rw [hs4_keep j hj, hs3_keep j hptj, hnodes2 j, if_neg hj]
  have hb4_tail : ∀ t, pt = some t → ∃ tn, b.orders.nodes t = some tn ∧
      b4.orders.nodes t = some { tn with next := some h0 } := by
    intro t hts
    have htmem := hpt_some t hts
    have htlt := hmemlt t htmem
    obtain ⟨tn, htn, htp, htsd⟩ := hseg0.mem_spec t htmem
    have hb2t : b2.orders.nodes t = some tn := by
      rw [hnodes2 t, if_neg (Nat.ne_of_lt htlt)]
      exact htn
    refine ⟨tn, htn, ?_⟩
    rw [hs4_keep t (Nat.ne_of_lt htlt)]
    exact hs3_tail t tn hts hb2t
  have hb3_h0 : b3.orders.nodes h0 = some (Node.new price qty sd) := by
    rw [hs3_keep h0 hpt_ne_h0, hnodes2 h0, if_pos rfl]
  have hb4_h0 : b4.orders.nodes h0 = some ⟨price, qty, sd, pt, none⟩ := by
    rw [hs4_new _ hb3_h0]
    rfl
  have hb4_nextH : b4.orders.nextH = h0 + 1 := by
    rw [hs4_nextH, hs3_nextH, hens_ord, hb1nextH]
  have hb4get : ∀ sd' q, b4.getLevel? sd' q = b2.getLevel? sd' q := by
    intro sd' q
    rw [hs4_get, hs3_get]
  have hb4get_p : b4.getLevel? sd price =
      some ((b.getLevel? sd price).getD Level.default) := by
    rw [hb4get, hens_self]
  have hlvl1eq : lvl1 = (b.getLevel? sd price).getD Level.default := by
    rw [hlvl1, hb4get_p]
    rfl
  -- the new chain
  have hsegnew : Seg b4.orders.nodes price sd none
      (if hs0 = [] then some h0 else lvl1.head) (hs0 ++ [h0]) (some h0) := by
    rw [hlvl1eq]
    refine hseg0.snoc hnd0 ?_ hb4_h0 rfl rfl hpt rfl ?_
    · intro hx
      exact lt_irrefl h0 (hmemlt h0 hx)
    · intro x hx
      constructor
      · intro htx
        have hptx : pt = some x := by rw [hpt]; exact htx
        obtain ⟨tn, htn, hb4t⟩ := hb4_tail x hptx
        exact ⟨tn, htn, hb4t⟩
      · intro htx
        have hptx : pt ≠ some x := by rw [hpt]; exact htx
        exact hb4_other x (Nat.ne_of_lt (hmemlt x hx)) hptx
  -- shape of the written level
  have htail2 : lvl2.tail = some h0 := by rw [hlvl2]
  have hhead2 : lvl2.head = (if hs0 = [] then some h0 else lvl1.head) := by
    rw [hlvl2]
    by_cases hh : hs0 = []
    · rw [if_pos hh]
      have hptn : pt = none := by
        rcases hseg0.last_cases with ⟨h1, h2⟩ | ⟨x, hx, h2⟩
        · rw [hpt, h2]
        · rw [hh] at hx
          cases hx
      show (if pt.isNone = true then some h0 else lvl1.head) = some h0
      rw [hptn]
      rfl
    · rw [if_neg hh]
      show (if pt.isNone = true then some h0 else lvl1.head) = lvl1.head
      rw [hpt_cons hh]
      rfl
  have hcnt2 : lvl2.count = hs0.length + 1 := by
    rw [hlvl2]
    dsimp only
    rw [hlvl1eq, hcnt0]
  have hqty_frame : ∀ x ∈ hs0, qtyAt b4.orders.nodes x = qtyAt b.orders.nodes x := by
    intro x hx
    unfold qtyAt
    by_cases hptx : pt = some x
    · obtain ⟨tn, htn, hb4t⟩ := hb4_tail x hptx
      rw [htn, hb4t]
    · rw [hb4_other x (Nat.ne_of_lt (hmemlt x hx)) hptx]
  have hsum_new : sumQty b4.orders.nodes (hs0 ++ [h0]) =
      sumQty b.orders.nodes hs0 + qty := by
    rw [sumQty_append, sumQty_cons, sumQty_nil, sumQty_congr hqty_frame]
    have hq0 : qtyAt b4.orders.nodes h0 = qty := by
      unfold qtyAt
      rw [hb4_h0]
    rw [hq0]
    omega
  have htot2 : lvl2.total_qty = sumQty b.orders.nodes hs0 + qty := by
    rw [hlvl2]
    dsimp only
    rw [hlvl1eq, hsum0]
  have hnodup_new : (hs0 ++ [h0]).Nodup := by
    refine List.Nodup.append hnd0 (List.nodup_singleton h0) ?_
    intro x hx hx2
    rw [List.mem_singleton] at hx2
    subst hx2
    exact lt_irrefl x (hmemlt x hx)
  -- stage 5: set_level
  have hg4 : GridWf (b4.gridOf sd) := by
    rw [hs4_grid, hs3_grid]
    exact hens_gw
  have hov4 : OvWf (b4.gridOf sd) (b4.ovOf sd) := by
    rw [hs4_grid, hs3_grid, hs4_ov, hs3_ov]
    exact hens_ow
  obtain ⟨hset_ord, hset_bb, hset_ba, hset_bbq, hset_baq, hset_os, hset_gw, hset_ow, hset_self, hset_noop, hset_other⟩ := setLevel_spec price lvl2 hg4 hov4
  rw [← hb5] at hset_ord hset_bb hset_ba hset_bbq hset_baq hset_os hset_gw hset_ow hset_self hset_noop hset_other
  have hb5get_p : b5.getLevel? sd price = some lvl2 := hset_self (by rw [hb4get_p]; rfl)
  have hb5get_same : ∀ q, q ≠ price → b5.getLevel? sd q = b.getLevel? sd q := by
    intro q hq
    rw [hset_other q hq, hb4get, hens_other q hq, hb1get]
  have hb5get_opp : ∀ sd', sd' ≠ sd → ∀ q, b5.getLevel? sd' q = b.getLevel? sd' q := by
    intro sd' hne q
    rw [getLevel?_eq, getLevel?_eq, (hset_os sd' hne).1, (hset_os sd' hne).2, hs4_grid,
      hs3_grid, hs4_ov, hs3_ov, (hens_os sd' hne).1, (hens_os sd' hne).2, hb1grid, hb1ov]
  have hb5bb : b5.best_bid = b.best_bid := by rw [hset_bb, hs4_bb, hs3_bb, hens_bb, hb1bb]
  have hb5ba : b5.best_ask = b.best_ask := by rw [hset_ba, hs4_ba, hs3_ba, hens_ba, hb1ba]
  have hb5bbq : b5.best_bid_qty = b.best_bid_qty := by
    rw [hset_bbq, hs4_bbq, hs3_bbq, hens_bbq, hb1bbq]
  have hb5baq : b5.best_ask_qty = b.best_ask_qty := by
    rw [hset_baq, hs4_baq, hs3_baq, hens_baq, hb1baq]
  -- stage 6 frame
  obtain ⟨h6ord, h6grid, h6ov, h6get⟩ := addStep6_frame b5 price lvl2 sd
  rw [← hb6] at h6ord h6grid h6ov h6get
  have hb6ord4 : b6.orders = b4.orders := by rw [h6ord, hset_ord]
  have hb6get_p : b6.getLevel? sd price = some lvl2 := by
    rw [h6get]
    exact hb5get_p
  have hb6get_other : ∀ sd' q, ¬(sd' = sd ∧ q = price) →
      b6.getLevel? sd' q = b.getLevel? sd' q := by
    intro sd' q hne
    rw [h6get]
    by_cases hsd' : sd' = sd
    · subst hsd'
      exact hb5get_same q (fun hc => hne ⟨rfl, hc⟩)
    · exact hb5get_opp sd' hsd' q
  have hb4_frame_nodes : ∀ x nd', b.orders.nodes x = some nd' →
      ¬(nd'.side = sd ∧ nd'.price = price) → b4.orders.nodes x = b.orders.nodes x := by
    intro x nd' hnd' hne
    have hxlt : x < h0 := by
      by_contra hcon
      rw [Nat.not_lt] at hcon
      rw [hh0] at hcon
      rw [hwf.slab.1 x hcon] at hnd'
      cases hnd'
    refine hb4_other x (Nat.ne_of_lt hxlt) ?_
    intro hptx
    obtain ⟨nd2, hnd2, hp2, hs2⟩ := hseg0.mem_spec x (hpt_some x hptx)
    rw [hnd'] at hnd2
    injection hnd2 with hnd2
    subst hnd2
    exact hne ⟨hs2, hp2⟩
  -- assemble the invariant
  refine ⟨?_, ?_, ?_, ?_, ?_, ?_⟩
  · -- grids
    intro sd'
    rw [h6grid]
    by_cases hsd' : sd' = sd
    · subst hsd'
      exact hset_gw
    · rw [(hset_os sd' hsd').1, hs4_grid, hs3_grid, (hens_os sd' hsd').1, hb1grid]
      exact hwf.grids sd'
  · -- overflows
    intro sd'
    rw [h6grid, h6ov]
    by_cases hsd' : sd' = sd
    · subst hsd'
      exact hset_ow
    · rw [(hset_os sd' hsd').1, (hset_os sd' hsd').2, hs4_grid, hs3_grid, hs4_ov, hs3_ov,
        (hens_os sd' hsd').1, (hens_os sd' hsd').2, hb1grid, hb1ov]
      exact hwf.ovs sd'
  · -- sides
    intro sd' q lv hlv6
    by_cases hqe : sd' = sd ∧ q = price
    · obtain ⟨rfl, rfl⟩ := hqe
      rw [hb6get_p] at hlv6
      injection hlv6 with hlv6
      subst hlv6
      constructor
      · refine ⟨hs0 ++ [h0], ?_, hnodup_new, ?_, ?_⟩
        · rw [hb6ord4, hhead2, htail2]
          exact hsegnew
        · rw [hcnt2, List.length_append]
          rfl
        · rw [hb6ord4, hsum_new, htot2]
      · rw [hcnt2]
        exact Nat.succ_ne_zero _
    · rw [hb6get_other sd' q hqe] at hlv6
      obtain ⟨⟨hs, hseg, hnd, hcnt, hsum⟩, hnz⟩ := hwf.sides sd' q lv hlv6
      have hframe_level : ∀ x ∈ hs, b4.orders.nodes x = b.orders.nodes x := by
        intro x hx
        obtain ⟨nd2, hnd2, hp2, hs2⟩ := hseg.mem_spec x hx
        refine hb4_frame_nodes x nd2 hnd2 ?_
        rintro ⟨hc1, hc2⟩
        exact hqe ⟨by rw [← hs2]; exact hc1, by rw [← hp2]; exact hc2⟩
      refine ⟨⟨hs, ?_, hnd, hcnt, ?_⟩, hnz⟩
      · rw [hb6ord4]
        exact hseg.frame hframe_level
      · rw [hb6ord4, hsum]
        exact (sumQty_congr (fun x hx => by unfold qtyAt; rw [hframe_level x hx])).symm
  · -- slab
    constructor
    · intro j hj
      rw [hb6ord4] at hj ⊢
      rw [hb4_nextH] at hj
      have hj0 : j ≠ h0 := by
        intro hc
        subst hc
        exact Nat.not_succ_le_self j hj
      have hptj : pt ≠ some j := by
        intro hcon
        have h2 := hmemlt j (hpt_some j hcon)
        exact absurd (lt_trans h2 (Nat.lt_of_succ_le hj)) (lt_irrefl j)
      rw [hb4_other j hj0 hptj]
      refine hwf.slab.1 j ?_
      rw [← hh0]
      exact Nat.le_of_succ_le hj
    · intro x nd hx
      rw [hb6ord4] at hx
      by_cases hxh : x = h0
      · rw [hxh, hb4_h0] at hx
        injection hx with hx
        subst hx
        refine ⟨lvl2, hs0 ++ [h0], hb6get_p, ?_, ?_⟩
        · rw [hb6ord4, hhead2, htail2]
          exact hsegnew
        · exact List.mem_append.2 (Or.inr (List.mem_singleton.2 hxh))
      · by_cases hptx : pt = some x
        · obtain ⟨tn, htn, hb4t⟩ := hb4_tail x hptx
          rw [hb4t] at hx
          injection hx with hx
          subst hx
          obtain ⟨nd2, hnd2, hp2, hs2⟩ := hseg0.mem_spec x (hpt_some x hptx)
          rw [htn] at hnd2
          injection hnd2 with hnd2
          subst hnd2
          refine ⟨lvl2, hs0 ++ [h0], ?_, ?_, ?_⟩
          · show b6.getLevel? tn.side tn.price = some lvl2
            rw [hs2, hp2]
            exact hb6get_p
          · show Seg b6.orders.nodes tn.price tn.side none lvl2.head (hs0 ++ [h0]) lvl2.tail
            rw [hs2, hp2, hb6ord4, hhead2, htail2]
            exact hsegnew
          · exact List.mem_append.2 (Or.inl (hpt_some x hptx))
        · rw [hb4_other x hxh hptx] at hx
          obtain ⟨lv, hs, hlvold, hsegold, hmem⟩ := hwf.slab.2 x nd hx
          by_cases hqe2 : nd.side = sd ∧ nd.price = price
          · obtain ⟨he1, he2⟩ := hqe2
            rw [he1, he2] at hlvold hsegold
            have hlv0eq : ((b.getLevel? sd price).getD Level.default) = lv := by
              rw [hlvold]
              rfl
            rw [hlv0eq] at hseg0
            obtain ⟨hhs_eq, _⟩ := Seg.unique hsegold hseg0
            refine ⟨lvl2, hs0 ++ [h0], ?_, ?_, ?_⟩
            · rw [he1, he2]
              exact hb6get_p
            · rw [he1, he2, hb6ord4, hhead2, htail2]
              exact hsegnew
            · exact List.mem_append.2 (Or.inl (hhs_eq ▸ hmem))
          · have hlv6 : b6.getLevel? nd.side nd.price = some lv := by
              rw [hb6get_other nd.side nd.price hqe2]
              exact hlvold
            refine ⟨lv, hs, hlv6, ?_, hmem⟩
            rw [hb6ord4]
            refine hsegold.frame (fun y hy => ?_)
            obtain ⟨nd2, hnd2, hp2, hs2⟩ := hsegold.mem_spec y hy
            refine hb4_frame_nodes y nd2 hnd2 ?_
            rintro ⟨hc1, hc2⟩
            exact hqe2 ⟨by rw [← hs2]; exact hc1, by rw [← hp2]; exact hc2⟩
  · -- best bid
    cases sd with
    | Bid =>
      rw [hb6]
      unfold addStep6
      dsimp only
      rw [hb5bb]
      cases hbb : b.best_bid with
      | none =>
        have hnolevels := (hwf.bbid.1 hbb).1
        refine ⟨fun hcon => Option.noConfusion hcon, ?_⟩
        intro bp hbp
        have hbp' : some price = some bp := hbp
        injection hbp' with hbp'
        subst hbp'
        refine ⟨lvl2, ?_, rfl, ?_⟩
        · show b5.getLevel? Side.Bid price = some lvl2
          exact hb5get_p
        · intro p lv' hplv
          have hplv' : b5.getLevel? Side.Bid p = some lv' := hplv
          by_cases hpp : p = price
          · exact le_of_eq hpp
          · rw [hb5get_same p hpp] at hplv'
            exact absurd hplv' (fun hc => hnolevels p lv' hc)
      | some bb =>
        obtain ⟨lvb, hlvb, hqb, hmaxb⟩ := hwf.bbid.2 bb hbb
        dsimp only
        by_cases hgt : price > bb
        · rw [if_pos hgt]
          refine ⟨fun hcon => Option.noConfusion hcon, ?_⟩
          intro bp hbp
          have hbp' : some price = some bp := hbp
          injection hbp' with hbp'
          subst hbp'
          refine ⟨lvl2, ?_, rfl, ?_⟩
          · show b5.getLevel? Side.Bid price = some lvl2
            exact hb5get_p
          · intro p lv' hplv
            have hplv' : b5.getLevel? Side.Bid p = some lv' := hplv
            by_cases hpp : p = price
            · exact le_of_eq hpp
            · rw [hb5get_same p hpp] at hplv'
              have := hmaxb p lv' hplv'
              omega
        · rw [if_neg hgt]
          by_cases heq : bb = price
          · rw [if_pos heq]
            refine ⟨fun hcon => Option.noConfusion hcon, ?_⟩
            intro bp hbp
            have hbp' : some bb = some bp := hbp
            injection hbp' with hbp'
            subst hbp'
            refine ⟨lvl2, ?_, rfl, ?_⟩
            · show b5.getLevel? Side.Bid bb = some lvl2
              rw [heq]
              exact hb5get_p
            · intro p lv' hplv
              have hplv' : b5.getLevel? Side.Bid p = some lv' := hplv
              by_cases hpp : p = bb
              · exact le_of_eq hpp
              · rw [heq] at hpp
                rw [hb5get_same p hpp] at hplv'
                exact hmaxb p lv' hplv'
          · rw [if_neg heq]
            refine ⟨?_, ?_⟩
            · intro hcon
              rw [hb5bb, hbb] at hcon
              cases hcon
            · intro bp hbp
              have hbp' : b5.best_bid = some bp := hbp
              rw [hb5bb, hbb] at hbp'
              injection hbp' with hbp'
              subst hbp'
              refine ⟨lvb, ?_, ?_, ?_⟩
              · show b5.getLevel? Side.Bid bb = some lvb
                rw [hb5get_same bb heq]
                exact hlvb
              · show b5.best_bid_qty = lvb.total_qty
                rw [hb5bbq]
                exact hqb
              · intro p lv' hplv
                have hplv' : b5.getLevel? Side.Bid p = some lv' := hplv
                by_cases hpp : p = price
                · subst hpp
                  omega
                · rw [hb5get_same p hpp] at hplv'
                  exact hmaxb p lv' hplv'
    | Ask =>
      obtain ⟨h6bid, h6bidq⟩ := addStep6_ask_frame b5 price lvl2
      rw [← hb6] at h6bid h6bidq
      refine bestBidWf_congr ?_ ?_ ?_ hwf.bbid
      · rw [h6bid, hb5bb]
      · rw [h6bidq, hb5bbq]
      · intro p
        rw [h6get]
        exact hb5get_opp Side.Bid (fun hc => by cases hc) p
  · -- best ask
    cases sd with
    | Ask =>
      rw [hb6]
      unfold addStep6
      dsimp only
      rw [hb5ba]
      cases hba : b.best_ask with
      | none =>
        have hnolevels := (hwf.bask.1 hba).1
        refine ⟨fun hcon => Option.noConfusion hcon, ?_⟩
        intro ap hap
        have hap' : some price = some ap := hap
        injection hap' with hap'
        subst hap'
        refine ⟨lvl2, ?_, rfl, ?_⟩
        · show b5.getLevel? Side.Ask price = some lvl2
          exact hb5get_p
        · intro p lv' hplv
          have hplv' : b5.getLevel? Side.Ask p = some lv' := hplv
          by_cases hpp : p = price
          · exact le_of_eq hpp.symm
          · rw [hb5get_same p hpp] at hplv'
            exact absurd hplv' (fun hc => hnolevels p lv' hc)
      | some aa =>
        obtain ⟨lva, hlva, hqa, hmina⟩ := hwf.bask.2 aa hba
        dsimp only
        by_cases hlt : price < aa
        · rw [if_pos hlt]
          refine ⟨fun hcon => Option.noConfusion hcon, ?_⟩
          intro ap hap
          have hap' : some price = some ap := hap
          injection hap' with hap'
          subst hap'
          refine ⟨lvl2, ?_, rfl, ?_⟩
          · show b5.getLevel? Side.Ask price = some lvl2
            exact hb5get_p
          · intro p lv' hplv
            have hplv' : b5.getLevel? Side.Ask p = some lv' := hplv
            by_cases hpp : p = price
            · exact le_of_eq hpp.symm
            · rw [hb5get_same p hpp] at hplv'
              have := hmina p lv' hplv'
              omega
        · rw [if_neg hlt]
          by_cases heq : aa = price
          · rw [if_pos heq]
            refine ⟨fun hcon => Option.noConfusion hcon, ?_⟩
            intro ap hap
            have hap' : some aa = some ap := hap
            injection hap' with hap'
            subst hap'
            refine ⟨lvl2, ?_, rfl, ?_⟩
            · show b5.getLevel? Side.Ask aa = some lvl2
              rw [heq]
              exact hb5get_p
            · intro p lv' hplv
              have hplv' : b5.getLevel? Side.Ask p = some lv' := hplv
              by_cases hpp : p = aa
              · exact le_of_eq hpp.symm
              · rw [heq] at hpp
                rw [hb5get_same p hpp] at hplv'
                exact hmina p lv' hplv'
          · rw [if_neg heq]
            refine ⟨?_, ?_⟩
            · intro hcon
              rw [hb5ba, hba] at hcon
              cases hcon
            · intro ap hap
              have hap' : b5.best_ask = some ap := hap
              rw [hb5ba, hba] at hap'
              injection hap' with hap'
              subst hap'
              refine ⟨lva, ?_, ?_, ?_⟩
              · show b5.getLevel? Side.Ask aa = some lva
                rw [hb5get_same aa heq]
                exact hlva
              · show b5.best_ask_qty = lva.total_qty
                rw [hb5baq]
                exact hqa
              · intro p lv' hplv
                have hplv' : b5.getLevel? Side.Ask p = some lv' := hplv
                by_cases hpp : p = price
                · subst hpp
                  omega
                · rw [hb5get_same p hpp] at hplv'
                  exact hmina p lv' hplv'
    | Bid =>
      obtain ⟨h6ask, h6askq⟩ := addStep6_bid_frame b5 price lvl2
      rw [← hb6] at h6ask h6askq
      refine bestAskWf_congr ?_ ?_ ?_ hwf.bask
      · rw [h6ask, hb5ba]
      · rw [h6askq, hb5baq]
      · intro p
        rw [h6get]
        exact hb5get_opp Side.Ask (fun hc => by cases hc) p

theorem add_wf {b : InstrumentBook} (hwf : IBWf b) (price qty : Int) (sd : Side) :
    IBWf (b.add price qty sd).1 := by
  exact add_wf_aux price qty sd hwf rfl rfl rfl rfl rfl rfl rfl rfl rfl rfl


theorem sumQty_update {sl sl' : Handle → Option Node} {hs : List Handle}
    (hnd : hs.Nodup) {h : Handle} (hmem : h ∈ hs)
    (hagree : ∀ x ∈ hs, x ≠ h → qtyAt sl' x = qtyAt sl x) :
    sumQty sl' hs = sumQty sl hs - qtyAt sl h + qtyAt sl' h := by
  induction hs with
  | nil => cases hmem
  | cons a t ih =>
    simp only [List.nodup_cons] at hnd
    rw [sumQty_cons, sumQty_cons]
    rcases List.mem_cons.1 hmem with heq | hmem2
    · subst heq
      have hteq : sumQty sl' t = sumQty sl t := by
        refine sumQty_congr (fun x hx => ?_)
        exact hagree x (List.mem_cons_of_mem h hx) (fun hc => hnd.1 (hc ▸ hx))
      rw [hteq]
      omega
    · have hane : a ≠ h := fun hc => hnd.1 (hc ▸ hmem2)
      rw [hagree a (List.mem_cons_self a t) hane]
      have := ih hnd.2 hmem2 (fun x hx hxh => hagree x (List.mem_cons_of_mem a hx) hxh)
      omega

/-- The qty-cache refresh of `InstrumentBook::set_qty`. -/
def setQtyStep3 (b : InstrumentBook) (n : Node) (lvl2 : Level) : InstrumentBook :=
  match n.side with
  | Side.Bid =>
    if b.best_bid = some n.price then { b with best_bid_qty := lvl2.total_qty } else b
  | Side.Ask =>
    if b.best_ask = some n.price then { b with best_ask_qty := lvl2.total_qty } else b

theorem setQtyStep3_frame (b : InstrumentBook) (n : Node) (lvl2 : Level) :
    (setQtyStep3 b n lvl2).orders = b.orders ∧
    (setQtyStep3 b n lvl2).best_bid = b.best_bid ∧
    (setQtyStep3 b n lvl2).best_ask = b.best_ask ∧
    (∀ sd', (setQtyStep3 b n lvl2).gridOf sd' = b.gridOf sd') ∧
    (∀ sd', (setQtyStep3 b n lvl2).ovOf sd' = b.ovOf sd') ∧
    (∀ sd' p, (setQtyStep3 b n lvl2).getLevel? sd' p = b.getLevel? sd' p) := by
  have hgen : ∀ b' : InstrumentBook, b'.bids_grid = b.bids_grid → b'.asks_grid = b.asks_grid →
      b'.bids_overflow = b.bids_overflow → b'.asks_overflow = b.asks_overflow →
      b'.orders = b.orders → b'.best_bid = b.best_bid → b'.best_ask = b.best_ask →
      (b'.orders = b.orders ∧ b'.best_bid = b.best_bid ∧ b'.best_ask = b.best_ask ∧
        (∀ sd', b'.gridOf sd' = b.gridOf sd') ∧
        (∀ sd', b'.ovOf sd' = b.ovOf sd') ∧
        (∀ sd' p, b'.getLevel? sd' p = b.getLevel? sd' p)) := by
    intro b' h1 h2 h3 h4 h5 h6 h7
    refine ⟨h5, h6, h7, fun sd' => ?_, fun sd' => ?_, fun sd' p => ?_⟩
    · cases sd' <;> simp [InstrumentBook.gridOf, h1, h2]
    · cases sd' <;> simp [InstrumentBook.ovOf, h3, h4]
    · cases sd' <;> simp [InstrumentBook.getLevel?, PriceGrid.getL, h1, h2, h3, h4]
  unfold setQtyStep3
  cases n.side with
  | Bid =>
    dsimp only
    split
    · exact hgen _ rfl rfl rfl rfl rfl rfl rfl
    · exact hgen _ rfl rfl rfl rfl rfl rfl rfl
  | Ask =>
    dsimp only
    split
    · exact hgen _ rfl rfl rfl rfl rfl rfl rfl
    · exact hgen _ rfl rfl rfl rfl rfl rfl rfl


theorem setQtyStep3_ask_frame (b : InstrumentBook) (n : Node) (lvl2 : Level)
    (hsd : n.side = Side.Ask) :
    (setQtyStep3 b n lvl2).best_bid_qty = b.best_bid_qty := by
  unfold setQtyStep3
  rw [hsd]
  dsimp only
  split <;> rfl

theorem setQtyStep3_bid_frame (b : InstrumentBook) (n : Node) (lvl2 : Level)
    (hsd : n.side = Side.Bid) :
    (setQtyStep3 b n lvl2).best_ask_qty = b.best_ask_qty := by
  unfold setQtyStep3
  rw [hsd]
  dsimp only
  split <;> rfl

theorem setQty_wf_aux (newQty : Int) {b b1 b2 b3 : InstrumentBook} {h : Handle} {n : Node}
    {lv lvl2 : Level}
    (hwf : IBWf b)
    (hn : b.orders.nodes h = some n)
    (hb1 : b1 = { b with orders := b.orders.set h { n with qty := newQty } })
    (hlv1 : b1.getLevel? n.side n.price = some lv)
    (hlvl2 : lvl2 = { lv with total_qty := lv.total_qty + newQty - n.qty })
    (hb2 : b2 = b1.setLevel n.side n.price lvl2)
    (hb3 : b3 = setQtyStep3 b2 n lvl2) :
    IBWf b3 := by
  have hb1get : ∀ sd' q, b1.getLevel? sd' q = b.getLevel? sd' q := by
    intro sd' q
    rw [hb1]
    exact getLevel?_orders b _ sd' q
  have hlvb : b.getLevel? n.side n.price = some lv := by
    rw [← hb1get]
    exact hlv1
  obtain ⟨⟨hs, hseg, hnd, hcnt, hsum⟩, hnz⟩ := hwf.sides n.side n.price lv hlvb
  obtain ⟨lv', hs', hlv', hseg', hmem'⟩ := hwf.slab.2 h n hn
  have hlv'eq : lv' = lv := by
    rw [hlvb] at hlv'
    injection hlv' with h2
    exact h2.symm
  rw [hlv'eq] at hseg'
  obtain ⟨hhs'eq, _⟩ := Seg.unique hseg' hseg
  have hmem : h ∈ hs := hhs'eq ▸ hmem'
  have hhlt : h < b.orders.nextH := by
    by_contra hcon
    rw [Nat.not_lt] at hcon
    rw [hwf.slab.1 h hcon] at hn
    cases hn
  have hb1nodes : ∀ j, b1.orders.nodes j =
      if j = h then some { n with qty := newQty } else b.orders.nodes j := by
    intro j
    rw [hb1]
    rfl
  have hb1nextH : b1.orders.nextH = b.orders.nextH := by
    rw [hb1]
    rfl
  have hb1grid : ∀ sd', b1.gridOf sd' = b.gridOf sd' := by
    intro sd'
    rw [hb1]
    exact gridOf_orders b _ sd'
  have hb1ov : ∀ sd', b1.ovOf sd' = b.ovOf sd' := by
    intro sd'
    rw [hb1]
    exact ovOf_orders b _ sd'
  have hb1bb : b1.best_bid = b.best_bid := by rw [hb1]
  have hb1ba : b1.best_ask = b.best_ask := by rw [hb1]
  have hb1bbq : b1.best_bid_qty = b.best_bid_qty := by rw [hb1]
  have hb1baq : b1.best_ask_qty = b.best_ask_qty := by rw [hb1]
  have hcongr : ∀ {pr : Int} {sdd : Side} {pv cur : Option Handle} {hs2 : List Handle}
      {last : Option Handle}, Seg b.orders.nodes pr sdd pv cur hs2 last →
      Seg b1.orders.nodes pr sdd pv cur hs2 last := by
    intro pr sdd pv cur hs2 last hsg
    refine hsg.congr (fun x hx => ?_)
    obtain ⟨nd0, hnd0, _, _⟩ := hsg.mem_spec x hx
    by_cases hxh : x = h
    · subst hxh
      rw [hn] at hnd0
      injection hnd0 with hnd0
      exact ⟨{ n with qty := newQty }, n, by rw [hb1nodes, if_pos rfl], hn,
        rfl, rfl, rfl, rfl⟩
    · exact ⟨nd0, nd0, by rw [hb1nodes, if_neg hxh]; exact hnd0, hnd0, rfl, rfl, rfl, rfl⟩
  have hqty_h : qtyAt b.orders.nodes h = n.qty := by
    unfold qtyAt
    rw [hn]
  have hqty_h1 : qtyAt b1.orders.nodes h = newQty := by
    unfold qtyAt
    rw [hb1nodes, if_pos rfl]
  have hqty_other : ∀ x, x ≠ h → qtyAt b1.orders.nodes x = qtyAt b.orders.nodes x := by
    intro x hx
    unfold qtyAt
    rw [hb1nodes, if_neg hx]
  -- stage 2: set_level
  have hg1 : GridWf (b1.gridOf n.side) := by
    rw [hb1grid]
    exact hwf.grids n.side
  have hov1 : OvWf (b1.gridOf n.side) (b1.ovOf n.side) := by
    rw [hb1grid, hb1ov]
    exact hwf.ovs n.side
  obtain ⟨hset_ord, hset_bb, hset_ba, hset_bbq, hset_baq, hset_os, hset_gw, hset_ow, hset_self, hset_noop, hset_other⟩ := setLevel_spec n.price lvl2 hg1 hov1
  rw [← hb2] at hset_ord hset_bb hset_ba hset_bbq hset_baq hset_os hset_gw hset_ow hset_self hset_noop hset_other
  have hb2get_p : b2.getLevel? n.side n.price = some lvl2 := hset_self (by rw [hlv1]; rfl)
  -- stage 3 frame
  obtain ⟨h3ord, h3bb, h3ba, h3grid, h3ov, h3get⟩ := setQtyStep3_frame b2 n lvl2
  rw [← hb3] at h3ord h3bb h3ba h3grid h3ov h3get
  have hb3ord : b3.orders = b1.orders := by rw [h3ord, hset_ord]
  have hb3get_p : b3.getLevel? n.side n.price = some lvl2 := by
    rw [h3get]
    exact hb2get_p
  have hb3get_other : ∀ sd' q, ¬(sd' = n.side ∧ q = n.price) →
      b3.getLevel? sd' q = b.getLevel? sd' q := by
    intro sd' q hne
    rw [h3get]
    by_cases hsd' : sd' = n.side
    · subst hsd'
      rw [hset_other q (fun hc => hne ⟨rfl, hc⟩), hb1get]
    · rw [getLevel?_eq, getLevel?_eq, (hset_os sd' hsd').1, (hset_os sd' hsd').2, hb1grid,
        hb1ov]
  have hb3bb : b3.best_bid = b.best_bid := by rw [h3bb, hset_bb, hb1bb]
  have hb3ba : b3.best_ask = b.best_ask := by rw [h3ba, hset_ba, hb1ba]
  have hmemfields : ∀ x ∈ hs, ∃ nd0, b.orders.nodes x = some nd0 ∧ nd0.price = n.price ∧
      nd0.side = n.side := fun x hx => hseg.mem_spec x hx
  have hother_ne_h : ∀ {sd' : Side} {q : Int}, ¬(sd' = n.side ∧ q = n.price) →
      ∀ {hs2 : List Handle} {pv cur last : Option Handle},
      Seg b.orders.nodes q sd' pv cur hs2 last → ∀ x ∈ hs2, x ≠ h := by
    intro sd' q hne hs2 pv cur last hsg x hx hxh
    subst hxh
    obtain ⟨nd0, hnd0, hp0, hs0'⟩ := hsg.mem_spec x hx
    rw [hn] at hnd0
    injection hnd0 with hnd0
    subst hnd0
    exact hne ⟨hs0'.symm, hp0.symm⟩
  -- the new total
  have hsum1 : sumQty b1.orders.nodes hs = sumQty b.orders.nodes hs - n.qty + newQty := by
    rw [sumQty_update hnd hmem (fun x _ hxh => hqty_other x hxh), hqty_h, hqty_h1]
  have hlvl2head : lvl2.head = lv.head := by rw [hlvl2]
  have hlvl2tail : lvl2.tail = lv.tail := by rw [hlvl2]
  have hlvl2cnt : lvl2.count = lv.count := by rw [hlvl2]
  have hlvl2tot : lvl2.total_qty = lv.total_qty + newQty - n.qty := by rw [hlvl2]
  refine ⟨?_, ?_, ?_, ?_, ?_, ?_⟩
  · -- grids
    intro sd'
    rw [h3grid]
    by_cases hsd' : sd' = n.side
    · subst hsd'
      exact hset_gw
    · rw [(hset_os sd' hsd').1, hb1grid]
      exact hwf.grids sd'
  · -- overflows
    intro sd'
    rw [h3grid, h3ov]
    by_cases hsd' : sd' = n.side
    · subst hsd'
      exact hset_ow
    · rw [(hset_os sd' hsd').1, (hset_os sd' hsd').2, hb1grid, hb1ov]
      exact hwf.ovs sd'
  · -- sides
    intro sd' q lvq hlvq
    by_cases hqe : sd' = n.side ∧ q = n.price
    · obtain ⟨rfl, rfl⟩ := hqe
      rw [hb3get_p] at hlvq
      injection hlvq with hlvq
      subst hlvq
      refine ⟨⟨hs, ?_, hnd, ?_, ?_⟩, ?_⟩
      · rw [hb3ord, hlvl2head, hlvl2tail]
        exact hcongr hseg
      · rw [hlvl2cnt, hcnt]
      · rw [hb3ord, hlvl2tot, hsum1, hsum]
        omega
      · rw [hlvl2cnt]
        exact hnz
    · rw [hb3get_other sd' q hqe] at hlvq
      obtain ⟨⟨hsq, hsegq, hndq, hcntq, hsumq⟩, hnzq⟩ := hwf.sides sd' q lvq hlvq
      have hneh := hother_ne_h hqe hsegq
      refine ⟨⟨hsq, ?_, hndq, hcntq, ?_⟩, hnzq⟩
      · rw [hb3ord]
        exact hcongr hsegq
      · rw [hb3ord, hsumq]
        exact (sumQty_congr (fun x hx => hqty_other x (hneh x hx))).symm
  · -- slab
    constructor
    · intro j hj
      rw [hb3ord, hb1nextH] at hj
      have hjh : j ≠ h := by
        intro hc
        subst hc
        exact absurd hhlt (Nat.not_lt.2 hj)
      rw [hb3ord, hb1nodes, if_neg hjh]
      exact hwf.slab.1 j hj
    · intro x nd hx
      rw [hb3ord, hb1nodes] at hx
      by_cases hxh : x = h
      · rw [if_pos hxh] at hx
        injection hx with hx
        subst hx
        refine ⟨lvl2, hs, ?_, ?_, ?_⟩
        · show b3.getLevel? n.side n.price = some lvl2
          exact hb3get_p
        · show Seg b3.orders.nodes n.price n.side none lvl2.head hs lvl2.tail
          rw [hb3ord, hlvl2head, hlvl2tail]
          exact hcongr hseg
        · exact hxh ▸ hmem
      · rw [if_neg hxh] at hx
        obtain ⟨lvx, hsx, hlvx, hsegx, hmemx⟩ := hwf.slab.2 x nd hx
        by_cases hqe2 : nd.side = n.side ∧ nd.price = n.price
        · obtain ⟨he1, he2⟩ := hqe2
          rw [he1, he2] at hlvx hsegx
          have hlvxeq : lvx = lv := by
            rw [hlvb] at hlvx
            injection hlvx with h2
            exact h2.symm
          subst hlvxeq
          obtain ⟨hhs_eq, _⟩ := Seg.unique hsegx hseg
          refine ⟨lvl2, hs, ?_, ?_, ?_⟩
          · rw [he1, he2]
            exact hb3get_p
          · rw [he1, he2, hb3ord, hlvl2head, hlvl2tail]
            exact hcongr hseg
          · exact hhs_eq ▸ hmemx
        · refine ⟨lvx, hsx, ?_, ?_, hmemx⟩
          · rw [hb3get_other nd.side nd.price hqe2]
            exact hlvx
          · rw [hb3ord]
            exact hcongr hsegx
  · -- best Bid
    have hb2bb : b2.best_bid = b.best_bid := by rw [hset_bb, hb1bb]
    have hb2bbq : b2.best_bid_qty = b.best_bid_qty := by rw [hset_bbq, hb1bbq]
    cases hside : n.side with
    | Bid =>
      have hb3eq : b3 = if b2.best_bid = some n.price then
          { b2 with best_bid_qty := lvl2.total_qty } else b2 := by
        rw [hb3]
        unfold setQtyStep3
        rw [hside]
      have hlvbid : b.getLevel? Side.Bid n.price = some lv := by
        rw [← hside]
        exact hlvb
      have hgp : b2.getLevel? Side.Bid n.price = some lvl2 := by
        rw [← hside]
        exact hb2get_p
      have hget2same : ∀ q, q ≠ n.price →
          b2.getLevel? Side.Bid q = b.getLevel? Side.Bid q := by
        have base : ∀ q, q ≠ n.price →
            b2.getLevel? n.side q = b.getLevel? n.side q := by
          intro q hq
          rw [hset_other q hq, hb1get]
        rw [hside] at base
        exact base
      by_cases hif : b2.best_bid = some n.price
      · rw [if_pos hif] at hb3eq
        rw [hb3eq]
        have hbb : b.best_bid = some n.price := by
          rw [← hb2bb]
          exact hif
        obtain ⟨lvb, hlvbp, hqb, hmaxb⟩ := hwf.bbid.2 n.price hbb
        refine ⟨?_, ?_⟩
        · intro hcon
          have hcon' : b2.best_bid = none := hcon
          rw [hif] at hcon'
          cases hcon'
        · intro bp hbp
          have hbp' : b2.best_bid = some bp := hbp
          rw [hif] at hbp'
          injection hbp' with hbp'
          subst hbp'
          refine ⟨lvl2, ?_, rfl, ?_⟩
          · show b2.getLevel? Side.Bid n.price = some lvl2
            exact hgp
          · intro p lvp hplv
            have hplv' : b2.getLevel? Side.Bid p = some lvp := hplv
            by_cases hpp : p = n.price
            · exact le_of_eq hpp
            · rw [hget2same p hpp] at hplv'
              exact hmaxb p lvp hplv'
      · rw [if_neg hif] at hb3eq
        rw [hb3eq]
        have hbbne : b.best_bid ≠ some n.price := by
          rw [← hb2bb]
          exact hif
        refine ⟨?_, ?_⟩
        · intro hcon
          rw [hb2bb] at hcon
          exact False.elim ((hwf.bbid.1 hcon).1 n.price lv hlvbid)
        · intro bp hbp
          rw [hb2bb] at hbp
          obtain ⟨lvb, hlvbp, hqb, hmaxb⟩ := hwf.bbid.2 bp hbp
          have hbpne : bp ≠ n.price := by
            intro hc
            exact hbbne (hc ▸ hbp)
          refine ⟨lvb, ?_, ?_, ?_⟩
          · rw [hget2same bp hbpne]
            exact hlvbp
          · rw [hb2bbq]
            exact hqb
          · intro p lvp hplv
            have hplv' : b2.getLevel? Side.Bid p = some lvp := hplv
            by_cases hpp : p = n.price
            · subst hpp
              exact hmaxb n.price lv hlvbid
            · rw [hget2same p hpp] at hplv'
              exact hmaxb p lvp hplv'
    | Ask =>
      have hq3 : b3.best_bid_qty = b.best_bid_qty := by
        rw [hb3, setQtyStep3_ask_frame b2 n lvl2 hside, hset_bbq, hb1bbq]
      refine bestBidWf_congr hb3bb hq3 ?_ hwf.bbid
      intro p
      exact hb3get_other Side.Bid p (fun hc => by rw [hside] at hc; cases hc.1)
  · -- best Ask
    have hb2bb : b2.best_ask = b.best_ask := by rw [hset_ba, hb1ba]
    have hb2bbq : b2.best_ask_qty = b.best_ask_qty := by rw [hset_baq, hb1baq]
    cases hside : n.side with
    | Ask =>
      have hb3eq : b3 = if b2.best_ask = some n.price then
          { b2 with best_ask_qty := lvl2.total_qty } else b2 := by
        rw [hb3]
        unfold setQtyStep3
        rw [hside]
      have hlvbid : b.getLevel? Side.Ask n.price = some lv := by
        rw [← hside]
        exact hlvb
      have hgp : b2.getLevel? Side.Ask n.price = some lvl2 := by
        rw [← hside]
        exact hb2get_p
      have hget2same : ∀ q, q ≠ n.price →
          b2.getLevel? Side.Ask q = b.getLevel? Side.Ask q := by
        have base : ∀ q, q ≠ n.price →
            b2.getLevel? n.side q = b.getLevel? n.side q := by
          intro q hq
          rw [hset_other q hq, hb1get]
        rw [hside] at base
        exact base
      by_cases hif : b2.best_ask = some n.price
      · rw [if_pos hif] at hb3eq
        rw [hb3eq]
        have hbb : b.best_ask = some n.price := by
          rw [← hb2bb]
          exact hif
        obtain ⟨lvb, hlvbp, hqb, hmaxb⟩ := hwf.bask.2 n.price hbb
        refine ⟨?_, ?_⟩
        · intro hcon
          have hcon' : b2.best_ask = none := hcon
          rw [hif] at hcon'
          cases hcon'
        · intro bp hbp
          have hbp' : b2.best_ask = some bp := hbp
          rw [hif] at hbp'
          injection hbp' with hbp'
          subst hbp'
          refine ⟨lvl2, ?_, rfl, ?_⟩
          · show b2.getLevel? Side.Ask n.price = some lvl2
            exact hgp
          · intro p lvp hplv
            have hplv' : b2.getLevel? Side.Ask p = some lvp := hplv
            by_cases hpp : p = n.price
            · exact le_of_eq hpp.symm
            · rw [hget2same p hpp] at hplv'
              exact hmaxb p lvp hplv'
      · rw [if_neg hif] at hb3eq
        rw [hb3eq]
        have hbbne : b.best_ask ≠ some n.price := by
          rw [← hb2bb]
          exact hif
        refine ⟨?_, ?_⟩
        · intro hcon
          rw [hb2bb] at hcon
          exact False.elim ((hwf.bask.1 hcon).1 n.price lv hlvbid)
        · intro bp hbp
          rw [hb2bb] at hbp
          obtain ⟨lvb, hlvbp, hqb, hmaxb⟩ := hwf.bask.2 bp hbp
          have hbpne : bp ≠ n.price := by
            intro hc
            exact hbbne (hc ▸ hbp)
          refine ⟨lvb, ?_, ?_, ?_⟩
          · rw [hget2same bp hbpne]
            exact hlvbp
          · rw [hb2bbq]
            exact hqb
          · intro p lvp hplv
            have hplv' : b2.getLevel? Side.Ask p = some lvp := hplv
            by_cases hpp : p = n.price
            · subst hpp
              exact hmaxb n.price lv hlvbid
            · rw [hget2same p hpp] at hplv'
              exact hmaxb p lvp hplv'
    | Bid =>
      have hq3 : b3.best_ask_qty = b.best_ask_qty := by
        rw [hb3, setQtyStep3_bid_frame b2 n lvl2 hside, hset_baq, hb1baq]
      refine bestAskWf_congr hb3ba hq3 ?_ hwf.bask
      intro p
      exact hb3get_other Side.Ask p (fun hc => by rw [hside] at hc; cases hc.1)

theorem setQty_wf {b : InstrumentBook} (hwf : IBWf b) (h : Handle) (newQty : Int) :
    IBWf (b.setQty h newQty) := by
  cases hn : b.orders.nodes h with
  | none =>
    unfold InstrumentBook.setQty
    rw [hn]
    exact hwf
  | some n =>
    unfold InstrumentBook.setQty
    rw [hn]
    dsimp only
    cases hgl : ({ b with orders := b.orders.set h { n with qty := newQty } } :
        InstrumentBook).getLevel? n.side n.price with
    | none =>
      exfalso
      rw [getLevel?_orders] at hgl
      obtain ⟨lv, hs, hlv, _, _⟩ := hwf.slab.2 h n hn
      rw [hlv] at hgl
      cases hgl
    | some lv =>
      exact setQty_wf_aux newQty hwf hn rfl hgl rfl rfl rfl

/-! ### Decomposition of `cancel` -/

/-- The previous-neighbour relink of `InstrumentBook::cancel`. -/
def cancelStep1 (b : InstrumentBook) (n : Node) : InstrumentBook :=
  match n.prev with
  | some p =>
    match b.orders.nodes p with
    | some pn => { b with orders := b.orders.set p { pn with next := n.next } }
    | none => b
  | none => b

/-- The next-neighbour relink of `InstrumentBook::cancel`. -/
def cancelStep2 (b : InstrumentBook) (n : Node) : InstrumentBook :=
  match n.next with
  | some nh =>
    match b.orders.nodes nh with
    | some nn => { b with orders := b.orders.set nh { nn with prev := n.prev } }
    | none => b
  | none => b

/-- The `is_best` test of `InstrumentBook::cancel`. -/
def cancelIsBest (b : InstrumentBook) (n : Node) : Bool :=
  match n.side with
  | Side.Bid => b.best_bid == some n.price
  | Side.Ask => b.best_ask == some n.price

/-- The shrunk level written back by `InstrumentBook::cancel`. -/
def cancelLvl2 (lvl : Level) (n : Node) : Level :=
  { lvl with
    head := if n.prev.isNone then n.next else lvl.head,
    tail := if n.next.isNone then n.prev else lvl.tail,
    count := lvl.count - 1,
    total_qty := lvl.total_qty - n.qty }

/-- The level/best maintenance of `InstrumentBook::cancel`. -/
def cancelStep3 (b : InstrumentBook) (n : Node) (isBest : Bool) : InstrumentBook :=
  match b.getLevel? n.side n.price with
  | none => b
  | some lvl =>
    let lvl2 := cancelLvl2 lvl n
    let b := b.setLevel n.side n.price lvl2
    if lvl2.isEmpty then
      let b := b.removeLevelIfEmpty n.side n.price
      if isBest then b.recomputeBestAfterRemoval n.side else b
    else
      if isBest then
        match n.side with
        | Side.Bid => { b with best_bid_qty := lvl2.total_qty }
        | Side.Ask => { b with best_ask_qty := lvl2.total_qty }
      else b

/-- `cancel` as the composition of its stages. -/
def cancelDecomp (b : InstrumentBook) (h : Handle) : InstrumentBook :=
  match b.orders.nodes h with
  | none => b
  | some n =>
    let b1 := cancelStep1 b n
    let b2 := cancelStep2 b1 n
    let b3 := cancelStep3 b2 n (cancelIsBest b2 n)
    { b3 with orders := b3.orders.remove h }

theorem cancel_eq_decomp (b : InstrumentBook) (h : Handle) :
    b.cancel h = cancelDecomp b h := rfl

/-- Combined effect of the two relink stages on the store: the previous
neighbour's `next` and the next neighbour's `prev` are redirected past
the node, everything else (including every book field other than the
order store) is untouched. -/
theorem cancelSteps12_nodes {b : InstrumentBook} {n : Node}
    (hprev_some : ∀ x, n.prev = some x → ∃ n0, b.orders.nodes x = some n0)
    (hnext_some : ∀ x, n.next = some x → ∃ n0, b.orders.nodes x = some n0)
    (hpn_ne : ∀ x y, n.prev = some x → n.next = some y → x ≠ y) :
    (∀ x, n.prev = some x → ∃ n0, b.orders.nodes x = some n0 ∧
       (cancelStep2 (cancelStep1 b n) n).orders.nodes x = some { n0 with next := n.next }) ∧
    (∀ x, n.next = some x → ∃ n0, b.orders.nodes x = some n0 ∧
       (cancelStep2 (cancelStep1 b n) n).orders.nodes x = some { n0 with prev := n.prev }) ∧
    (∀ x, n.prev ≠ some x → n.next ≠ some x →
       (cancelStep2 (cancelStep1 b n) n).orders.nodes x = b.orders.nodes x) ∧
    (cancelStep2 (cancelStep1 b n) n).orders.nextH = b.orders.nextH ∧
    (∀ sd, (cancelStep2 (cancelStep1 b n) n).gridOf sd = b.gridOf sd) ∧
    (∀ sd, (cancelStep2 (cancelStep1 b n) n).ovOf sd = b.ovOf sd) ∧
    (∀ sd p, (cancelStep2 (cancelStep1 b n) n).getLevel? sd p = b.getLevel? sd p) ∧
    (cancelStep2 (cancelStep1 b n) n).best_bid = b.best_bid ∧
    (cancelStep2 (cancelStep1 b n) n).best_ask = b.best_ask ∧
    (cancelStep2 (cancelStep1 b n) n).best_bid_qty = b.best_bid_qty ∧
    (cancelStep2 (cancelStep1 b n) n).best_ask_qty = b.best_ask_qty ∧
    (∀ x, qtyAt (cancelStep2 (cancelStep1 b n) n).orders.nodes x =
      qtyAt b.orders.nodes x) := by
  cases hpv : n.prev with
  | none =>
    have h1 : cancelStep1 b n = b := by
      unfold cancelStep1
      rw [hpv]
    rw [h1]
    cases hnx : n.next with
    | none =>
      have h2 : cancelStep2 b n = b := by
        unfold cancelStep2
        rw [hnx]
      rw [h2]
      refine ⟨?_, ?_, ?_, ?_, ?_, ?_, ?_, ?_, ?_, ?_, ?_, ?_⟩
      · intro x hx
        cases hx
      · intro x hx
        cases hx
      · intro x _ _
        rfl
      · rfl
      · intro sd
        rfl
      · intro sd
        rfl
      · intro sd p
        rfl
      · rfl
      · rfl
      · rfl
      · rfl
      · intro x
        rfl
    | some nh =>
      obtain ⟨nn0, hnn0⟩ := hnext_some nh hnx
      have h2 : cancelStep2 b n =
          { b with orders := b.orders.set nh { nn0 with prev := none } } := by
        unfold cancelStep2
        rw [hnx]
        dsimp only
        rw [hnn0, hpv]
      rw [h2]
      have hnodes : ∀ j, (b.orders.set nh { nn0 with prev := none }).nodes j =
          if j = nh then some { nn0 with prev := none } else b.orders.nodes j :=
        fun j => rfl
      refine ⟨?_, ?_, ?_, ?_, ?_, ?_, ?_, ?_, ?_, ?_, ?_, ?_⟩
      · intro x hx
        cases hx
      · intro x hx
        injection hx with hx
        subst hx
        exact ⟨nn0, hnn0, by rw [hnodes, if_pos rfl]⟩
      · intro x _ hx2
        have hxnh : x ≠ nh := by
          intro hc
          exact hx2 (by rw [hc])
        rw [hnodes, if_neg hxnh]
      · rfl
      · intro sd
        exact gridOf_orders b _ sd
      · intro sd
        exact ovOf_orders b _ sd
      · intro sd q
        exact getLevel?_orders b _ sd q
      · rfl
      · rfl
      · rfl
      · rfl
      · intro x
        unfold qtyAt
        rw [hnodes]
        by_cases hxnh : x = nh
        · subst hxnh
          rw [if_pos rfl, hnn0]
        · rw [if_neg hxnh]
  | some p =>
    obtain ⟨pn0, hpn0⟩ := hprev_some p hpv
    have h1 : cancelStep1 b n =
        { b with orders := b.orders.set p { pn0 with next := n.next } } := by
      unfold cancelStep1
      rw [hpv]
      dsimp only
      rw [hpn0]
    rw [h1]
    have hnodes1 : ∀ j, (b.orders.set p { pn0 with next := n.next }).nodes j =
        if j = p then some { pn0 with next := n.next } else b.orders.nodes j :=
      fun j => rfl
    cases hnx : n.next with
    | none =>
      rw [hnx] at hnodes1
      have h2 : ∀ b' : InstrumentBook, cancelStep2 b' n = b' := by
        intro b'
        unfold cancelStep2
        rw [hnx]
      rw [h2]
      refine ⟨?_, ?_, ?_, ?_, ?_, ?_, ?_, ?_, ?_, ?_, ?_, ?_⟩
      · intro x hx
        injection hx with hx
        subst hx
        exact ⟨pn0, hpn0, by rw [hnodes1, if_pos rfl]⟩
      · intro x hx
        cases hx
      · intro x hx1 _
        have hxp : x ≠ p := by
          intro hc
          exact hx1 (by rw [hc])
        rw [hnodes1, if_neg hxp]
      · rfl
      · intro sd
        exact gridOf_orders b _ sd
      · intro sd
        exact ovOf_orders b _ sd
      · intro sd q
        exact getLevel?_orders b _ sd q
      · rfl
      · rfl
      · rfl
      · rfl
      · intro x
        unfold qtyAt
        rw [hnodes1]
        by_cases hxp : x = p
        · subst hxp
          rw [if_pos rfl, hpn0]
        · rw [if_neg hxp]
    | some nh =>
      rw [hnx] at hnodes1
      have hpnh : p ≠ nh := hpn_ne p nh hpv hnx
      obtain ⟨nn0, hnn0⟩ := hnext_some nh hnx
      have hnn0' : (b.orders.set p { pn0 with next := some nh }).nodes nh = some nn0 := by
        rw [hnodes1, if_neg (fun hc => hpnh hc.symm)]
        exact hnn0
      have h2 : cancelStep2 { b with orders := b.orders.set p { pn0 with next := some nh } } n = { b with orders := (b.orders.set p { pn0 with next := some nh }).set nh { nn0 with prev := some p } } := by
        unfold cancelStep2
        rw [hnx]
        dsimp only
        rw [hnn0', hpv]
      rw [h2]
      have hnodes2 : ∀ j, ((b.orders.set p { pn0 with next := some nh }).set nh { nn0 with prev := some p }).nodes j =
          if j = nh then some { nn0 with prev := some p }
          else if j = p then some { pn0 with next := some nh }
          else b.orders.nodes j := fun j => rfl
      refine ⟨?_, ?_, ?_, ?_, ?_, ?_, ?_, ?_, ?_, ?_, ?_, ?_⟩
      · intro x hx
        injection hx with hx
        subst hx
        exact ⟨pn0, hpn0, by rw [hnodes2, if_neg hpnh, if_pos rfl]⟩
      · intro x hx
        injection hx with hx
        subst hx
        exact ⟨nn0, hnn0, by rw [hnodes2, if_pos rfl]⟩
      · intro x hx1 hx2
        have hxp : x ≠ p := by
          intro hc
          exact hx1 (by rw [hc])
        have hxnh : x ≠ nh := by
          intro hc
          exact hx2 (by rw [hc])
        rw [hnodes2, if_neg hxnh, if_neg hxp]
      · rfl
      · intro sd
        exact gridOf_orders b _ sd
      · intro sd
        exact ovOf_orders b _ sd
      · intro sd q
        exact getLevel?_orders b _ sd q
      · rfl
      · rfl
      · rfl
      · rfl
      · intro x
        unfold qtyAt
        rw [hnodes2]
        by_cases hxnh : x = nh
        · subst hxnh
          rw [if_pos rfl, hnn0]
        · rw [if_neg hxnh]
          by_cases hxp : x = p
          · subst hxp
            rw [if_pos rfl, hpn0]
          · rw [if_neg hxp]

theorem isEmpty_false_of_count {lv : Level} (h : lv.count ≠ 0) : lv.isEmpty = false := by
  unfold Level.isEmpty
  exact decide_eq_false h

/-- Assembling the invariant after `cancel` when the whole level was
removed (the cancelled order was alone on its level). -/
theorem cancel_assemble_removed {b bC : InstrumentBook} {h : Handle} {n : Node} {lv : Level}
    (hwf : IBWf b) (hn : b.orders.nodes h = some n)
    (hlvS : b.getLevel? n.side n.price = some lv)
    (hseg1 : Seg b.orders.nodes n.price n.side none lv.head [h] lv.tail)
    (hCnextH : bC.orders.nextH = b.orders.nextH)
    (hCnodes : ∀ j, bC.orders.nodes j = b.orders.nodes j)
    (hCgetp : bC.getLevel? n.side n.price = none)
    (hCget_other : ∀ sd' q, ¬(sd' = n.side ∧ q = n.price) →
      bC.getLevel? sd' q = b.getLevel? sd' q)
    (hCgw : ∀ sd', GridWf (bC.gridOf sd'))
    (hCow : ∀ sd', OvWf (bC.gridOf sd') (bC.ovOf sd'))
    (hbb : BestBidWf bC) (hba : BestAskWf bC) :
    IBWf { bC with orders := bC.orders.remove h } := by
  have hFnodes : ∀ j, ({ bC with orders := bC.orders.remove h } : InstrumentBook).orders.nodes j =
      if j = h then none else b.orders.nodes j := by
    intro j
    show (if j = h then none else bC.orders.nodes j) = _
    by_cases hj : j = h
    · rw [if_pos hj, if_pos hj]
    · rw [if_neg hj, if_neg hj, hCnodes]
  have hFget : ∀ sd' q, ({ bC with orders := bC.orders.remove h } : InstrumentBook).getLevel? sd' q =
      bC.getLevel? sd' q := fun sd' q => getLevel?_orders bC _ sd' q
  have hFgrid : ∀ sd', ({ bC with orders := bC.orders.remove h } : InstrumentBook).gridOf sd' =
      bC.gridOf sd' := fun sd' => gridOf_orders bC _ sd'
  have hFov : ∀ sd', ({ bC with orders := bC.orders.remove h } : InstrumentBook).ovOf sd' =
      bC.ovOf sd' := fun sd' => ovOf_orders bC _ sd'
  have hother_ne_h : ∀ {sd' : Side} {q : Int}, ¬(sd' = n.side ∧ q = n.price) →
      ∀ {hs2 : List Handle} {pv cur last : Option Handle},
      Seg b.orders.nodes q sd' pv cur hs2 last → ∀ x ∈ hs2, x ≠ h := by
    intro sd' q hne hs2 pv cur last hsg x hx hxh
    subst hxh
    obtain ⟨nd0, hnd0, hp0, hs0'⟩ := hsg.mem_spec x hx
    rw [hn] at hnd0
    injection hnd0 with hnd0
    subst hnd0
    exact hne ⟨hs0'.symm, hp0.symm⟩
  have hframe : ∀ {sd' : Side} {q : Int}, ¬(sd' = n.side ∧ q = n.price) →
      ∀ {hs2 : List Handle} {pv cur last : Option Handle},
      Seg b.orders.nodes q sd' pv cur hs2 last →
      Seg ({ bC with orders := bC.orders.remove h } : InstrumentBook).orders.nodes
        q sd' pv cur hs2 last := by
    intro sd' q hne hs2 pv cur last hsg
    refine hsg.frame (fun x hx => ?_)
    rw [hFnodes, if_neg (hother_ne_h hne hsg x hx)]
  refine ⟨?_, ?_, ?_, ?_, ?_, ?_⟩
  · intro sd'
    rw [hFgrid]
    exact hCgw sd'
  · intro sd'
    rw [hFgrid, hFov]
    exact hCow sd'
  · -- sides
    intro sd' q lvq hlvq
    rw [hFget] at hlvq
    by_cases hqe : sd' = n.side ∧ q = n.price
    · obtain ⟨rfl, rfl⟩ := hqe
      rw [hCgetp] at hlvq
      cases hlvq
    · rw [hCget_other sd' q hqe] at hlvq
      obtain ⟨⟨hs2, hsg2, hnd2, hcnt2, hsum2⟩, hnz2⟩ := hwf.sides sd' q lvq hlvq
      refine ⟨⟨hs2, hframe hqe hsg2, hnd2, hcnt2, ?_⟩, hnz2⟩
      rw [hsum2]
      refine (sumQty_congr (fun x hx => ?_)).symm
      unfold qtyAt
      rw [hFnodes, if_neg (hother_ne_h hqe hsg2 x hx)]
  · -- slab
    constructor
    · intro j hj
      rw [hFnodes]
      by_cases hjh : j = h
      · rw [if_pos hjh]
      · rw [if_neg hjh]
        have hj' : bC.orders.nextH ≤ j := hj
        rw [hCnextH] at hj'
        exact hwf.slab.1 j hj'
    · intro j nd hjnd
      rw [hFnodes] at hjnd
      by_cases hjh : j = h
      · rw [if_pos hjh] at hjnd
        cases hjnd
      · rw [if_neg hjh] at hjnd
        obtain ⟨lv'', hs'', hget'', hseg'', hmem''⟩ := hwf.slab.2 j nd hjnd
        by_cases hqe : nd.side = n.side ∧ nd.price = n.price
        · exfalso
          obtain ⟨hside, hprice⟩ := hqe
          rw [hside, hprice, hlvS] at hget''
          injection hget'' with hget''
          subst hget''
          rw [hprice, hside] at hseg''
          obtain ⟨hhs'', _⟩ := Seg.unique hseg'' hseg1
          rw [hhs''] at hmem''
          simp only [List.mem_singleton] at hmem''
          exact hjh hmem''
        · refine ⟨lv'', hs'', ?_, hframe hqe hseg'', hmem''⟩
          rw [hFget, hCget_other nd.side nd.price hqe]
          exact hget''
  · -- best bid
    refine bestBidWf_congr rfl rfl (fun p => hFget Side.Bid p) hbb
  · -- best ask
    refine bestAskWf_congr rfl rfl (fun p => hFget Side.Ask p) hba

/-- Assembling the invariant after `cancel` when the level stays (other
orders remain on the cancelled order's level). -/
theorem cancel_assemble_retained {b bB bC : InstrumentBook} {h : Handle} {n : Node}
    {lv L2 : Level} {l1 l2 : List Handle}
    (hwf : IBWf b) (hn : b.orders.nodes h = some n)
    (hlvS : b.getLevel? n.side n.price = some lv)
    (hseg : Seg b.orders.nodes n.price n.side none lv.head (l1 ++ h :: l2) lv.tail)
    (hnd : (l1 ++ h :: l2).Nodup)
    (hsegB : Seg bB.orders.nodes n.price n.side none L2.head (l1 ++ l2) L2.tail)
    (hL2cnt : L2.count = l1.length + l2.length)
    (hL2tot : L2.total_qty = sumQty bB.orders.nodes (l1 ++ l2))
    (hne12 : l1 ++ l2 ≠ [])
    (hBnextH : bB.orders.nextH = b.orders.nextH)
    (hBother : ∀ x, n.prev ≠ some x → n.next ≠ some x →
      bB.orders.nodes x = b.orders.nodes x)
    (hpskeep : ∀ j nd', bB.orders.nodes j = some nd' →
      ∃ nd0, b.orders.nodes j = some nd0 ∧ nd0.price = nd'.price ∧ nd0.side = nd'.side)
    (hprev_key : ∀ x, n.prev = some x →
      ∃ nd0, b.orders.nodes x = some nd0 ∧ nd0.price = n.price ∧ nd0.side = n.side)
    (hnext_key : ∀ x, n.next = some x →
      ∃ nd0, b.orders.nodes x = some nd0 ∧ nd0.price = n.price ∧ nd0.side = n.side)
    (hBqty : ∀ x, qtyAt bB.orders.nodes x = qtyAt b.orders.nodes x)
    (hCord : bC.orders = bB.orders)
    (hCgetp : bC.getLevel? n.side n.price = some L2)
    (hCget_other : ∀ sd' q, ¬(sd' = n.side ∧ q = n.price) →
      bC.getLevel? sd' q = b.getLevel? sd' q)
    (hCgw : ∀ sd', GridWf (bC.gridOf sd'))
    (hCow : ∀ sd', OvWf (bC.gridOf sd') (bC.ovOf sd'))
    (hbb : BestBidWf bC) (hba : BestAskWf bC) :
    IBWf { bC with orders := bC.orders.remove h } := by
  have hndparts : l1.Nodup ∧ (h ∉ l2 ∧ l2.Nodup) ∧ ∀ a ∈ l1, a ∉ h :: l2 := by
    rw [List.nodup_append] at hnd
    obtain ⟨h1, h2, h3⟩ := hnd
    rw [List.nodup_cons] at h2
    exact ⟨h1, h2, h3⟩
  have hmem12_ne_h : ∀ x ∈ l1 ++ l2, x ≠ h := by
    intro x hx
    rcases List.mem_append.1 hx with hx1 | hx2
    · intro hc
      exact hndparts.2.2 x hx1 (hc ▸ List.mem_cons_self h l2)
    · intro hc
      exact hndparts.2.1.1 (hc ▸ hx2)
  have hnd12 : (l1 ++ l2).Nodup := by
    refine List.Nodup.append hndparts.1 hndparts.2.1.2 ?_
    intro a ha1 ha2
    exact hndparts.2.2 a ha1 (List.mem_cons_of_mem h ha2)
  have hFnodes : ∀ j, ({ bC with orders := bC.orders.remove h } : InstrumentBook).orders.nodes j =
      if j = h then none else bB.orders.nodes j := by
    intro j
    show (if j = h then none else bC.orders.nodes j) = _
    rw [hCord]
  have hFget : ∀ sd' q, ({ bC with orders := bC.orders.remove h } : InstrumentBook).getLevel? sd' q =
      bC.getLevel? sd' q := fun sd' q => getLevel?_orders bC _ sd' q
  have hFgrid : ∀ sd', ({ bC with orders := bC.orders.remove h } : InstrumentBook).gridOf sd' =
      bC.gridOf sd' := fun sd' => gridOf_orders bC _ sd' 
  have hFov : ∀ sd', ({ bC with orders := bC.orders.remove h } : InstrumentBook).ovOf sd' =
      bC.ovOf sd' := fun sd' => ovOf_orders bC _ sd'
  have hsegF : Seg ({ bC with orders := bC.orders.remove h } : InstrumentBook).orders.nodes
      n.price n.side none L2.head (l1 ++ l2) L2.tail := by
    refine hsegB.frame (fun x hx => ?_)
    rw [hFnodes, if_neg (hmem12_ne_h x hx)]
  have hother_ne : ∀ {sd' : Side} {q : Int}, ¬(sd' = n.side ∧ q = n.price) →
      ∀ {hs2 : List Handle} {pv cur last : Option Handle},
      Seg b.orders.nodes q sd' pv cur hs2 last → ∀ x ∈ hs2,
      x ≠ h ∧ n.prev ≠ some x ∧ n.next ≠ some x := by
    intro sd' q hne hs2 pv cur last hsg x hx
    obtain ⟨nd0, hnd0, hp0, hs0'⟩ := hsg.mem_spec x hx
    refine ⟨?_, ?_, ?_⟩
    · intro hc
      subst hc
      rw [hn] at hnd0
      injection hnd0 with hnd0
      subst hnd0
      exact hne ⟨hs0'.symm, hp0.symm⟩
    · intro hc
      obtain ⟨nd1, hnd1, hp1, hs1⟩ := hprev_key x hc
      rw [hnd0] at hnd1
      injection hnd1 with hnd1
      subst hnd1
      exact hne ⟨by rw [← hs0', hs1], by rw [← hp0, hp1]⟩
    · intro hc
      obtain ⟨nd1, hnd1, hp1, hs1⟩ := hnext_key x hc
      rw [hnd0] at hnd1
      injection hnd1 with hnd1
      subst hnd1
      exact hne ⟨by rw [← hs0', hs1], by rw [← hp0, hp1]⟩
  have hframe : ∀ {sd' : Side} {q : Int}, ¬(sd' = n.side ∧ q = n.price) →
      ∀ {hs2 : List Handle} {pv cur last : Option Handle},
      Seg b.orders.nodes q sd' pv cur hs2 last →
      Seg ({ bC with orders := bC.orders.remove h } : InstrumentBook).orders.nodes
        q sd' pv cur hs2 last := by
    intro sd' q hne hs2 pv cur last hsg
    refine hsg.frame (fun x hx => ?_)
    obtain ⟨hxh, hxp, hxn⟩ := hother_ne hne hsg x hx
    rw [hFnodes, if_neg hxh]
    exact hBother x hxp hxn
  refine ⟨?_, ?_, ?_, ?_, ?_, ?_⟩
  · intro sd'
    rw [hFgrid]
    exact hCgw sd'
  · intro sd'
    rw [hFgrid, hFov]
    exact hCow sd'
  · -- sides
    intro sd' q lvq hlvq
    rw [hFget] at hlvq
    by_cases hqe : sd' = n.side ∧ q = n.price
    · obtain ⟨rfl, rfl⟩ := hqe
      rw [hCgetp] at hlvq
      injection hlvq with hlvq
      subst hlvq
      refine ⟨⟨l1 ++ l2, hsegF, hnd12, ?_, ?_⟩, ?_⟩
      · rw [hL2cnt, List.length_append]
      · rw [hL2tot]
        refine (sumQty_congr (fun x hx => ?_)).symm
        unfold qtyAt
        rw [hFnodes, if_neg (hmem12_ne_h x hx)]
      · rw [hL2cnt]
        intro hc
        refine hne12 ?_
        have hl1 : l1 = [] := List.length_eq_zero.1 (by omega)
        have hl2 : l2 = [] := List.length_eq_zero.1 (by omega)
        rw [hl1, hl2]
        rfl
    · rw [hCget_other sd' q hqe] at hlvq
      obtain ⟨⟨hs2, hsg2, hnd2, hcnt2, hsum2⟩, hnz2⟩ := hwf.sides sd' q lvq hlvq
      refine ⟨⟨hs2, hframe hqe hsg2, hnd2, hcnt2, ?_⟩, hnz2⟩
      rw [hsum2]
      refine (sumQty_congr (fun x hx => ?_)).symm
      obtain ⟨hxh, hxp, hxn⟩ := hother_ne hqe hsg2 x hx
      unfold qtyAt
      rw [hFnodes, if_neg hxh, hBother x hxp hxn]
  · -- slab
    constructor
    · intro j hj
      have hj' : bC.orders.nextH ≤ j := hj
      rw [hCord, hBnextH] at hj'
      rw [hFnodes]
      by_cases hjh : j = h
      · rw [if_pos hjh]
      · rw [if_neg hjh]
        cases hBj : bB.orders.nodes j with
        | none => rfl
        | some ndj =>
          obtain ⟨nd0, hnd0, _, _⟩ := hpskeep j ndj hBj
          rw [hwf.slab.1 j hj'] at hnd0
          cases hnd0
    · intro j nd hjnd
      rw [hFnodes] at hjnd
      by_cases hjh : j = h
      · rw [if_pos hjh] at hjnd
        cases hjnd
      · rw [if_neg hjh] at hjnd
        obtain ⟨nd0, hnd0, hp0, hs0⟩ := hpskeep j nd hjnd
        obtain ⟨lv'', hs'', hget'', hseg'', hmem''⟩ := hwf.slab.2 j nd0 hnd0
        by_cases hqe : nd0.side = n.side ∧ nd0.price = n.price
        · obtain ⟨hside, hprice⟩ := hqe
          rw [hside, hprice, hlvS] at hget''
          injection hget'' with hget''
          subst hget''
          rw [hprice, hside] at hseg''
          obtain ⟨hhs'', _⟩ := Seg.unique hseg'' hseg
          rw [hhs''] at hmem''
          have hj12 : j ∈ l1 ++ l2 := by
            rcases List.mem_append.1 hmem'' with hx1 | hx2
            · exact List.mem_append.2 (Or.inl hx1)
            · rcases List.mem_cons.1 hx2 with hc | hx2'
              · exact absurd hc hjh
              · exact List.mem_append.2 (Or.inr hx2')
          refine ⟨L2, l1 ++ l2, ?_, ?_, hj12⟩
          · rw [hFget, ← hs0, ← hp0, hside, hprice]
            exact hCgetp
          · rw [← hs0, ← hp0, hside, hprice]
            exact hsegF
        · refine ⟨lv'', hs'', ?_, ?_, hmem''⟩
          · rw [hFget, ← hs0, ← hp0, hCget_other nd0.side nd0.price hqe]
            exact hget''
          · rw [← hs0, ← hp0]
            exact hframe hqe hseg''
  · refine bestBidWf_congr rfl rfl (fun p => hFget Side.Bid p) hbb
  · refine bestAskWf_congr rfl rfl (fun p => hFget Side.Ask p) hba

theorem cancelIsBest_true_bid {b : InstrumentBook} {n : Node} (hsd : n.side = Side.Bid) :
    cancelIsBest b n = true ↔ b.best_bid = some n.price := by
  unfold cancelIsBest
  rw [hsd]
  exact beq_iff_eq

theorem cancelIsBest_true_ask {b : InstrumentBook} {n : Node} (hsd : n.side = Side.Ask) :
    cancelIsBest b n = true ↔ b.best_ask = some n.price := by
  unfold cancelIsBest
  rw [hsd]
  exact beq_iff_eq

theorem cancel_wf_aux {b bB bC : InstrumentBook} {h : Handle} {n : Node}
    (hwf : IBWf b) (hn : b.orders.nodes h = some n)
    (hbB : bB = cancelStep2 (cancelStep1 b n) n)
    (hbC : bC = cancelStep3 bB n (cancelIsBest bB n)) :
    IBWf { bC with orders := bC.orders.remove h } := by
  -- locate the cancelled order's level and chain
  obtain ⟨lvS, hsS, hlvS, hsegS, hmemS⟩ := hwf.slab.2 h n hn
  obtain ⟨⟨hs, hseg, hnd, hcnt, hsum⟩, hnz⟩ := hwf.sides n.side n.price lvS hlvS
  obtain ⟨hhs_eq, _⟩ := Seg.unique hsegS hseg
  have hmem : h ∈ hs := hhs_eq ▸ hmemS
  obtain ⟨l1, l2, hhs⟩ := List.append_of_mem hmem
  subst hhs
  have hnd' := hnd
  rw [List.nodup_append, List.nodup_cons] at hnd'
  obtain ⟨hnd1, ⟨hhl2, hnd2⟩, hdisj⟩ := hnd'
  -- neighbour positions
  have hprevc := hseg.prev_mem hn
  have hnextc := hseg.next_mem hn
  have hprev_in : ∀ x, n.prev = some x → x ∈ l1 := by
    intro x hx
    rcases hprevc with ⟨_, hp⟩ | ⟨y, hy, hp⟩
    · rw [hp] at hx
      cases hx
    · rw [hp] at hx
      injection hx with hx
      exact hx ▸ hy
  have hnext_in : ∀ x, n.next = some x → x ∈ l2 := by
    intro x hx
    rcases hnextc with ⟨_, hp⟩ | ⟨y, hy, hp⟩
    · rw [hp] at hx
      cases hx
    · rw [hp] at hx
      injection hx with hx
      subst hx
      cases l2 with
      | nil => simp at hy
      | cons c t =>
        injection hy with hy
        exact hy ▸ List.mem_cons_self c t
  have hprev_key : ∀ x, n.prev = some x →
      ∃ nd0, b.orders.nodes x = some nd0 ∧ nd0.price = n.price ∧ nd0.side = n.side := by
    intro x hx
    exact hseg.mem_spec x (List.mem_append.2 (Or.inl (hprev_in x hx)))
  have hnext_key : ∀ x, n.next = some x →
      ∃ nd0, b.orders.nodes x = some nd0 ∧ nd0.price = n.price ∧ nd0.side = n.side := by
    intro x hx
    exact hseg.mem_spec x
      (List.mem_append.2 (Or.inr (List.mem_cons_of_mem h (hnext_in x hx))))
  have hprev_some : ∀ x, n.prev = some x → ∃ n0, b.orders.nodes x = some n0 := by
    intro x hx
    obtain ⟨n0, hn0, _, _⟩ := hprev_key x hx
    exact ⟨n0, hn0⟩
  have hnext_some : ∀ x, n.next = some x → ∃ n0, b.orders.nodes x = some n0 := by
    intro x hx
    obtain ⟨n0, hn0, _, _⟩ := hnext_key x hx
    exact ⟨n0, hn0⟩
  have hpn_ne : ∀ x y, n.prev = some x → n.next = some y → x ≠ y := by
    intro x y hx hy hc
    subst hc
    exact hdisj (hprev_in x hx) (List.mem_cons_of_mem h (hnext_in x hy))
  obtain ⟨hupd_prev, hupd_next, hupd_other, hBnextH, hBgrid, hBov, hBget, hBbb, hBba,
    hBbbq, hBbaq, hBqty⟩ := cancelSteps12_nodes hprev_some hnext_some hpn_ne
  rw [← hbB] at hupd_prev hupd_next hupd_other hBnextH hBgrid hBov hBget hBbb hBba hBbbq hBbaq hBqty
  have hprev_ne_h : n.prev ≠ some h := by
    intro hc
    exact hdisj (hprev_in h hc) (List.mem_cons_self h l2)
  have hnext_ne_h : n.next ≠ some h := by
    intro hc
    exact hhl2 (hnext_in h hc)
  have hBgetp : bB.getLevel? n.side n.price = some lvS := by
    rw [hBget]
    exact hlvS
  have hqty_h : qtyAt b.orders.nodes h = n.qty := by
    unfold qtyAt
    rw [hn]
  have hlen : lvS.count = l1.length + 1 + l2.length := by
    rw [hcnt]
    simp only [List.length_append, List.length_cons]
    omega
  have hsumdec : lvS.total_qty =
      sumQty b.orders.nodes l1 + n.qty + sumQty b.orders.nodes l2 := by
    rw [hsum, sumQty_append, sumQty_cons, hqty_h]
    omega
  have hsegB0 : Seg bB.orders.nodes n.price n.side none
      (if l1 = [] then n.next else lvS.head) (l1 ++ l2)
      (if l2 = [] then n.prev else lvS.tail) :=
    Seg.remove hseg hnd hn (fun x hx => nomatch hx)
      (fun x _ => ⟨fun hx => hupd_prev x hx, fun hx => hupd_next x hx,
        fun h1 h2 => hupd_other x h1 h2⟩)
  have hpskeep : ∀ j nd', bB.orders.nodes j = some nd' →
      ∃ nd0, b.orders.nodes j = some nd0 ∧ nd0.price = nd'.price ∧ nd0.side = nd'.side := by
    intro j nd' hj
    by_cases hp : n.prev = some j
    · obtain ⟨n0, hn0, hBn0⟩ := hupd_prev j hp
      rw [hj] at hBn0
      injection hBn0 with hBn0
      subst hBn0
      exact ⟨n0, hn0, rfl, rfl⟩
    · by_cases hq : n.next = some j
      · obtain ⟨n0, hn0, hBn0⟩ := hupd_next j hq
        rw [hj] at hBn0
        injection hBn0 with hBn0
        subst hBn0
        exact ⟨n0, hn0, rfl, rfl⟩
      · rw [hupd_other j hp hq] at hj
        exact ⟨nd', hj, rfl, rfl⟩
  -- reduce step 3 to the retained-level case split
  unfold cancelStep3 at hbC
  rw [hBgetp] at hbC
  dsimp only at hbC
  have hg4 : GridWf (bB.gridOf n.side) := by
    rw [hBgrid]
    exact hwf.grids n.side
  have hov4 : OvWf (bB.gridOf n.side) (bB.ovOf n.side) := by
    rw [hBgrid, hBov]
    exact hwf.ovs n.side
  obtain ⟨hs4ord, hs4bb, hs4ba, hs4bbq, hs4baq, hs4os, hs4gw, hs4ow, hs4self, hs4noop,
    hs4other⟩ := setLevel_spec n.price (cancelLvl2 lvS n) hg4 hov4
  have hb4getp : (bB.setLevel n.side n.price (cancelLvl2 lvS n)).getLevel? n.side n.price =
      some (cancelLvl2 lvS n) := hs4self (by rw [hBgetp]; rfl)
  have hb4get_other : ∀ sd' q, ¬(sd' = n.side ∧ q = n.price) →
      (bB.setLevel n.side n.price (cancelLvl2 lvS n)).getLevel? sd' q =
        b.getLevel? sd' q := by
    intro sd' q hne
    by_cases hsd' : sd' = n.side
    · subst hsd'
      rw [hs4other q (fun hc => hne ⟨rfl, hc⟩), hBget]
    · rw [getLevel?_eq, getLevel?_eq, (hs4os sd' hsd').1, (hs4os sd' hsd').2, hBgrid, hBov]
  have hb4gw : ∀ sd', GridWf ((bB.setLevel n.side n.price (cancelLvl2 lvS n)).gridOf sd') := by
    intro sd'
    by_cases hsd' : sd' = n.side
    · subst hsd'
      exact hs4gw
    · rw [(hs4os sd' hsd').1, hBgrid]
      exact hwf.grids sd'
  have hb4ow : ∀ sd', OvWf ((bB.setLevel n.side n.price (cancelLvl2 lvS n)).gridOf sd')
      ((bB.setLevel n.side n.price (cancelLvl2 lvS n)).ovOf sd') := by
    intro sd'
    by_cases hsd' : sd' = n.side
    · subst hsd'
      exact hs4ow
    · rw [(hs4os sd' hsd').1, (hs4os sd' hsd').2, hBgrid, hBov]
      exact hwf.ovs sd'
  by_cases h12 : l1 ++ l2 = []
  · -- the level is emptied and removed
    obtain ⟨hl1, hl2⟩ := List.append_eq_nil.mp h12
    subst hl1
    subst hl2
    have hpn : n.prev = none := by
      rcases hprevc with ⟨_, hp⟩ | ⟨x, hx, _⟩
      · exact hp
      · simp at hx
    have hnn : n.next = none := by
      rcases hnextc with ⟨_, hp⟩ | ⟨x, hx, _⟩
      · exact hp
      · simp at hx
    have hBeqb : ∀ j, bB.orders.nodes j = b.orders.nodes j := by
      intro j
      refine hupd_other j ?_ ?_
      · rw [hpn]
        intro hc
        cases hc
      · rw [hnn]
        intro hc
        cases hc
    have hcnt1 : lvS.count = 1 := by
      rw [hlen]
      rfl
    have hemp : (cancelLvl2 lvS n).isEmpty = true := by
      unfold cancelLvl2 Level.isEmpty
      dsimp only
      rw [hcnt1]
      rfl
    rw [if_pos hemp] at hbC
    obtain ⟨hr5ord, hr5bb, hr5ba, hr5bbq, hr5baq, hr5os, hr5gw, hr5ow, hr5none,
      hr5other⟩ := removeLevel_spec n.price hs4gw hs4ow hb4getp hemp
    have hseg1 : Seg b.orders.nodes n.price n.side none lvS.head [h] lvS.tail := hseg
    have hb5ord : ((bB.setLevel n.side n.price (cancelLvl2 lvS n)).removeLevelIfEmpty
        n.side n.price).orders = bB.orders := by rw [hr5ord, hs4ord]
    have hb5get_other : ∀ sd' q, ¬(sd' = n.side ∧ q = n.price) →
        ((bB.setLevel n.side n.price (cancelLvl2 lvS n)).removeLevelIfEmpty
          n.side n.price).getLevel? sd' q = b.getLevel? sd' q := by
      intro sd' q hne
      by_cases hsd' : sd' = n.side
      · subst hsd'
        rw [hr5other q (fun hc => hne ⟨rfl, hc⟩)]
        exact hb4get_other _ q hne
      · rw [getLevel?_eq, getLevel?_eq, (hr5os sd' hsd').1, (hr5os sd' hsd').2,
          (hs4os sd' hsd').1, (hs4os sd' hsd').2, hBgrid, hBov]
    have hb5gw : ∀ sd', GridWf (((bB.setLevel n.side n.price (cancelLvl2 lvS n)).removeLevelIfEmpty n.side n.price).gridOf sd') := by
      intro sd'
      by_cases hsd' : sd' = n.side
      · subst hsd'
        exact hr5gw
      · rw [(hr5os sd' hsd').1]
        exact hb4gw sd'
    have hb5ow : ∀ sd', OvWf (((bB.setLevel n.side n.price (cancelLvl2 lvS n)).removeLevelIfEmpty n.side n.price).gridOf sd') (((bB.setLevel n.side n.price (cancelLvl2 lvS n)).removeLevelIfEmpty n.side n.price).ovOf sd') := by
      intro sd'
      by_cases hsd' : sd' = n.side
      · subst hsd'
        exact hr5ow
      · rw [(hr5os sd' hsd').1, (hr5os sd' hsd').2]
        exact hb4ow sd'
    have hb5bb : ((bB.setLevel n.side n.price (cancelLvl2 lvS n)).removeLevelIfEmpty
        n.side n.price).best_bid = b.best_bid := by rw [hr5bb, hs4bb, hBbb]
    have hb5ba : ((bB.setLevel n.side n.price (cancelLvl2 lvS n)).removeLevelIfEmpty
        n.side n.price).best_ask = b.best_ask := by rw [hr5ba, hs4ba, hBba]
    have hb5bbq : ((bB.setLevel n.side n.price (cancelLvl2 lvS n)).removeLevelIfEmpty
        n.side n.price).best_bid_qty = b.best_bid_qty := by rw [hr5bbq, hs4bbq, hBbbq]
    have hb5baq : ((bB.setLevel n.side n.price (cancelLvl2 lvS n)).removeLevelIfEmpty
        n.side n.price).best_ask_qty = b.best_ask_qty := by rw [hr5baq, hs4baq, hBbaq]
    by_cases hib : cancelIsBest bB n = true
    · rw [if_pos hib] at hbC
      cases hside : n.side with
      | Bid =>
        rw [hside] at hbC hb5ord hb5get_other hb5gw hb5ow hb5bb hb5ba hb5bbq hb5baq hr5none
        have hg5 : GridWf ((bB.setLevel Side.Bid n.price (cancelLvl2 lvS n)).removeLevelIfEmpty Side.Bid n.price).bids_grid := hb5gw Side.Bid
        have hov5 : OvWf ((bB.setLevel Side.Bid n.price (cancelLvl2 lvS n)).removeLevelIfEmpty Side.Bid n.price).bids_grid ((bB.setLevel Side.Bid n.price (cancelLvl2 lvS n)).removeLevelIfEmpty Side.Bid n.price).bids_overflow := hb5ow Side.Bid
        have hne5 : ∀ p lvp, ((bB.setLevel Side.Bid n.price (cancelLvl2 lvS n)).removeLevelIfEmpty Side.Bid n.price).getLevel? Side.Bid p = some lvp → lvp.isEmpty = false := by
          intro p lvp hp
          by_cases hpk : p = n.price
          · subst hpk
            rw [hr5none] at hp
            cases hp
          · rw [hb5get_other Side.Bid p (fun hc => hpk hc.2)] at hp
            exact isEmpty_false_of_count (hwf.sides Side.Bid p lvp hp).2
        obtain ⟨hcbg, hcag, hcbo, hcao, hcord, hcoba, hcobaq, hcwf⟩ := recomputeBid_spec hg5 hov5 hne5
        rw [← hbC] at hcbg hcag hcbo hcao hcord hcoba hcobaq hcwf
        have hCgrid : ∀ sd, bC.gridOf sd = ((bB.setLevel Side.Bid n.price (cancelLvl2 lvS n)).removeLevelIfEmpty Side.Bid n.price).gridOf sd := by
          intro sd
          cases sd with
          | Bid => exact hcbg
          | Ask => exact hcag
        have hCov : ∀ sd, bC.ovOf sd = ((bB.setLevel Side.Bid n.price (cancelLvl2 lvS n)).removeLevelIfEmpty Side.Bid n.price).ovOf sd := by
          intro sd
          cases sd with
          | Bid => exact hcbo
          | Ask => exact hcao
        have hCget : ∀ sd q, bC.getLevel? sd q = ((bB.setLevel Side.Bid n.price (cancelLvl2 lvS n)).removeLevelIfEmpty Side.Bid n.price).getLevel? sd q :=
          fun sd q => getLevel?_congr hCgrid hCov sd q
        refine cancel_assemble_removed hwf hn hlvS hseg1 ?_ ?_ ?_ ?_ ?_ ?_ ?_ ?_
        · rw [hcord, hb5ord, hBnextH]
        · intro j
          rw [hcord, hb5ord]
          exact hBeqb j
        · rw [hside, hCget]
          exact hr5none
        · intro sd' q hne
          rw [hCget]
          refine hb5get_other sd' q (fun hc => hne ⟨?_, hc.2⟩)
          rw [hside]
          exact hc.1
        · intro sd'
          rw [hCgrid]
          exact hb5gw sd'
        · intro sd'
          rw [hCgrid, hCov]
          exact hb5ow sd'
        · exact hcwf
        · exact bestAskWf_congr (by rw [hcoba, hb5ba]) (by rw [hcobaq, hb5baq])
            (fun p => by rw [hCget]; exact hb5get_other Side.Ask p (fun hc => Side.noConfusion hc.1)) hwf.bask
      | Ask =>
        rw [hside] at hbC hb5ord hb5get_other hb5gw hb5ow hb5bb hb5ba hb5bbq hb5baq hr5none
        have hg5 : GridWf ((bB.setLevel Side.Ask n.price (cancelLvl2 lvS n)).removeLevelIfEmpty Side.Ask n.price).asks_grid := hb5gw Side.Ask
        have hov5 : OvWf ((bB.setLevel Side.Ask n.price (cancelLvl2 lvS n)).removeLevelIfEmpty Side.Ask n.price).asks_grid ((bB.setLevel Side.Ask n.price (cancelLvl2 lvS n)).removeLevelIfEmpty Side.Ask n.price).asks_overflow := hb5ow Side.Ask
        have hne5 : ∀ p lvp, ((bB.setLevel Side.Ask n.price (cancelLvl2 lvS n)).removeLevelIfEmpty Side.Ask n.price).getLevel? Side.Ask p = some lvp → lvp.isEmpty = false := by
          intro p lvp hp
          by_cases hpk : p = n.price
          · subst hpk
            rw [hr5none] at hp
            cases hp
          · rw [hb5get_other Side.Ask p (fun hc => hpk hc.2)] at hp
            exact isEmpty_false_of_count (hwf.sides Side.Ask p lvp hp).2
        obtain ⟨hcbg, hcag, hcbo, hcao, hcord, hcoba, hcobaq, hcwf⟩ := recomputeAsk_spec hg5 hov5 hne5
        rw [← hbC] at hcbg hcag hcbo hcao hcord hcoba hcobaq hcwf
        have hCgrid : ∀ sd, bC.gridOf sd = ((bB.setLevel Side.Ask n.price (cancelLvl2 lvS n)).removeLevelIfEmpty Side.Ask n.price).gridOf sd := by
          intro sd
          cases sd with
          | Bid => exact hcbg
          | Ask => exact hcag
        have hCov : ∀ sd, bC.ovOf sd = ((bB.setLevel Side.Ask n.price (cancelLvl2 lvS n)).removeLevelIfEmpty Side.Ask n.price).ovOf sd := by
          intro sd
          cases sd with
          | Bid => exact hcbo
          | Ask => exact hcao
        have hCget : ∀ sd q, bC.getLevel? sd q = ((bB.setLevel Side.Ask n.price (cancelLvl2 lvS n)).removeLevelIfEmpty Side.Ask n.price).getLevel? sd q :=
          fun sd q => getLevel?_congr hCgrid hCov sd q
        refine cancel_assemble_removed hwf hn hlvS hseg1 ?_ ?_ ?_ ?_ ?_ ?_ ?_ ?_
        · rw [hcord, hb5ord, hBnextH]
        · intro j
          rw [hcord, hb5ord]
          exact hBeqb j
        · rw [hside, hCget]
          exact hr5none
        · intro sd' q hne
          rw [hCget]
          refine hb5get_other sd' q (fun hc => hne ⟨?_, hc.2⟩)
          rw [hside]
          exact hc.1
        · intro sd'
          rw [hCgrid]
          exact hb5gw sd'
        · intro sd'
          rw [hCgrid, hCov]
          exact hb5ow sd'
        · exact bestBidWf_congr (by rw [hcoba, hb5bb]) (by rw [hcobaq, hb5bbq])
            (fun p => by rw [hCget]; exact hb5get_other Side.Bid p (fun hc => Side.noConfusion hc.1)) hwf.bbid
        · exact hcwf
    · rw [if_neg hib] at hbC
      cases hside : n.side with
      | Bid =>
        rw [hside] at hbC hb5ord hb5get_other hb5gw hb5ow hb5bb hb5ba hb5bbq hb5baq hr5none
        have hnbb : b.best_bid ≠ some n.price := by
          intro hc
          refine hib ((cancelIsBest_true_bid hside).2 ?_)
          rw [hBbb]
          exact hc
        refine cancel_assemble_removed hwf hn hlvS hseg1 ?_ ?_ ?_ ?_ ?_ ?_ ?_ ?_
        · rw [hbC, hb5ord, hBnextH]
        · intro j
          rw [hbC, hb5ord]
          exact hBeqb j
        · rw [hside, hbC]
          exact hr5none
        · intro sd' q hne
          rw [hbC]
          refine hb5get_other sd' q (fun hc => hne ⟨?_, hc.2⟩)
          rw [hside]
          exact hc.1
        · intro sd'
          rw [hbC]
          exact hb5gw sd'
        · intro sd'
          rw [hbC]
          exact hb5ow sd'
        · rw [hbC]
          refine ⟨?_, ?_⟩
          · intro hcon
            rw [hb5bb] at hcon
            obtain ⟨hnolv, hq0⟩ := hwf.bbid.1 hcon
            refine ⟨?_, ?_⟩
            · intro p lvp hp
              by_cases hpk : p = n.price
              · subst hpk
                rw [hr5none] at hp
                cases hp
              · rw [hb5get_other Side.Bid p (fun hc => hpk hc.2)] at hp
                exact hnolv p lvp hp
            · rw [hb5bbq]
              exact hq0
          · intro bp hbp
            rw [hb5bb] at hbp
            obtain ⟨lvb, hlvb, hqb, hmax⟩ := hwf.bbid.2 bp hbp
            have hbpk : bp ≠ n.price := by
              intro hc
              refine hnbb ?_
              rw [← hc]
              exact hbp
            refine ⟨lvb, ?_, ?_, ?_⟩
            · rw [hb5get_other Side.Bid bp (fun hc => hbpk hc.2)]
              exact hlvb
            · rw [hb5bbq]
              exact hqb
            · intro p lvp hp
              by_cases hpk : p = n.price
              · subst hpk
                rw [hr5none] at hp
                cases hp
              · rw [hb5get_other Side.Bid p (fun hc => hpk hc.2)] at hp
                exact hmax p lvp hp
        · rw [hbC]
          refine bestAskWf_congr hb5ba hb5baq ?_ hwf.bask
          intro p
          exact hb5get_other Side.Ask p (fun hc => Side.noConfusion hc.1)
      | Ask =>
        rw [hside] at hbC hb5ord hb5get_other hb5gw hb5ow hb5bb hb5ba hb5bbq hb5baq hr5none
        have hnbb : b.best_ask ≠ some n.price := by
          intro hc
          refine hib ((cancelIsBest_true_ask hside).2 ?_)
          rw [hBba]
          exact hc
        refine cancel_assemble_removed hwf hn hlvS hseg1 ?_ ?_ ?_ ?_ ?_ ?_ ?_ ?_
        · rw [hbC, hb5ord, hBnextH]
        · intro j
          rw [hbC, hb5ord]
          exact hBeqb j
        · rw [hside, hbC]
          exact hr5none
        · intro sd' q hne
          rw [hbC]
          refine hb5get_other sd' q (fun hc => hne ⟨?_, hc.2⟩)
          rw [hside]
          exact hc.1
        · intro sd'
          rw [hbC]
          exact hb5gw sd'
        · intro sd'
          rw [hbC]
          exact hb5ow sd'
        · rw [hbC]
          refine bestBidWf_congr hb5bb hb5bbq ?_ hwf.bbid
          intro p
          exact hb5get_other Side.Bid p (fun hc => Side.noConfusion hc.1)
        · rw [hbC]
          refine ⟨?_, ?_⟩
          · intro hcon
            rw [hb5ba] at hcon
            obtain ⟨hnolv, hq0⟩ := hwf.bask.1 hcon
            refine ⟨?_, ?_⟩
            · intro p lvp hp
              by_cases hpk : p = n.price
              · subst hpk
                rw [hr5none] at hp
                cases hp
              · rw [hb5get_other Side.Ask p (fun hc => hpk hc.2)] at hp
                exact hnolv p lvp hp
            · rw [hb5baq]
              exact hq0
          · intro bp hbp
            rw [hb5ba] at hbp
            obtain ⟨lvb, hlvb, hqb, hmax⟩ := hwf.bask.2 bp hbp
            have hbpk : bp ≠ n.price := by
              intro hc
              refine hnbb ?_
              rw [← hc]
              exact hbp
            refine ⟨lvb, ?_, ?_, ?_⟩
            · rw [hb5get_other Side.Ask bp (fun hc => hbpk hc.2)]
              exact hlvb
            · rw [hb5baq]
              exact hqb
            · intro p lvp hp
              by_cases hpk : p = n.price
              · subst hpk
                rw [hr5none] at hp
                cases hp
              · rw [hb5get_other Side.Ask p (fun hc => hpk hc.2)] at hp
                exact hmax p lvp hp
  · -- the level is retained
    have hcnt12 : (cancelLvl2 lvS n).count = l1.length + l2.length := by
      unfold cancelLvl2
      dsimp only
      rw [hlen]
      omega
    have hempf : (cancelLvl2 lvS n).isEmpty = false := by
      refine isEmpty_false_of_count ?_
      rw [hcnt12]
      intro hc
      refine h12 ?_
      have hl1 : l1 = [] := List.length_eq_zero.1 (by omega)
      have hl2 : l2 = [] := List.length_eq_zero.1 (by omega)
      rw [hl1, hl2]
      rfl
    rw [if_neg (show ¬((cancelLvl2 lvS n).isEmpty = true) from
      fun hc => by rw [hempf] at hc; cases hc)] at hbC
    have hL2tot : (cancelLvl2 lvS n).total_qty = sumQty bB.orders.nodes (l1 ++ l2) := by
      have h1 : (cancelLvl2 lvS n).total_qty = lvS.total_qty - n.qty := rfl
      rw [h1, hsumdec, (sumQty_congr (fun x _ => hBqty x) :
        sumQty bB.orders.nodes (l1 ++ l2) = sumQty b.orders.nodes (l1 ++ l2)),
        sumQty_append]
      omega
    have hheadeq : (cancelLvl2 lvS n).head = (if l1 = [] then n.next else lvS.head) := by
      show (if n.prev.isNone then n.next else lvS.head) = _
      rcases hprevc with ⟨hl1e, hp⟩ | ⟨x, hx, hp⟩
      · rw [hp, hl1e]
        rfl
      · rw [hp, if_neg (by simp), if_neg (List.ne_nil_of_mem hx)]
    have htaileq : (cancelLvl2 lvS n).tail = (if l2 = [] then n.prev else lvS.tail) := by
      show (if n.next.isNone then n.prev else lvS.tail) = _
      rcases hnextc with ⟨hl2e, hp⟩ | ⟨x, hx, hp⟩
      · rw [hp, hl2e]
        rfl
      · have hl2ne : l2 ≠ [] := by
          intro hc
          rw [hc] at hx
          simp at hx
        rw [hp, if_neg (by simp), if_neg hl2ne]
    have hsegB : Seg bB.orders.nodes n.price n.side none (cancelLvl2 lvS n).head
        (l1 ++ l2) (cancelLvl2 lvS n).tail := by
      rw [hheadeq, htaileq]
      exact hsegB0
    by_cases hib : cancelIsBest bB n = true
    · rw [if_pos hib] at hbC
      cases hside : n.side with
      | Bid =>
        have hbC2 : bC = { bB.setLevel n.side n.price (cancelLvl2 lvS n) with best_bid_qty := (cancelLvl2 lvS n).total_qty } := by
          rw [hbC, hside]
        have hibdec : b.best_bid = some n.price := by
          have hx := (cancelIsBest_true_bid hside).1 hib
          rw [hBbb] at hx
          exact hx
        have hlitget : ∀ sd' q, bC.getLevel? sd' q = (bB.setLevel n.side n.price (cancelLvl2 lvS n)).getLevel? sd' q := by
          intro sd' q
          rw [hbC2]
          exact getLevel?_congr (fun sd => by cases sd <;> rfl) (fun sd => by cases sd <;> rfl) sd' q
        have hCgetp : bC.getLevel? n.side n.price = some (cancelLvl2 lvS n) := by
          rw [hlitget]
          exact hb4getp
        have hCget_other : ∀ sd' q, ¬(sd' = n.side ∧ q = n.price) → bC.getLevel? sd' q = b.getLevel? sd' q := by
          intro sd' q hne
          rw [hlitget]
          exact hb4get_other sd' q hne
        have hCbb : bC.best_bid = some n.price := by
          rw [hbC2]
          show (bB.setLevel n.side n.price (cancelLvl2 lvS n)).best_bid = some n.price
          rw [hs4bb, hBbb]
          exact hibdec
        have hCq : bC.best_bid_qty = (cancelLvl2 lvS n).total_qty := by
          rw [hbC2]
        have hCobf : bC.best_ask = b.best_ask := by
          rw [hbC2]
          show (bB.setLevel n.side n.price (cancelLvl2 lvS n)).best_ask = b.best_ask
          rw [hs4ba, hBba]
        have hCoq : bC.best_ask_qty = b.best_ask_qty := by
          rw [hbC2]
          show (bB.setLevel n.side n.price (cancelLvl2 lvS n)).best_ask_qty = b.best_ask_qty
          rw [hs4baq, hBbaq]
        have hKEY : BestBidWf bC := by
          refine ⟨?_, ?_⟩
          · intro hcon
            rw [hCbb] at hcon
            cases hcon
          · intro bp hbp
            rw [hCbb] at hbp
            injection hbp with hbp
            subst hbp
            refine ⟨cancelLvl2 lvS n, ?_, hCq, ?_⟩
            · rw [← hside]
              exact hCgetp
            · intro p lvp hp
              by_cases hpk : p = n.price
              · exact le_of_eq hpk
              · rw [hCget_other Side.Bid p (fun hc => hpk hc.2)] at hp
                obtain ⟨lvb2, hlvb2, hqb2, hmax2⟩ := hwf.bbid.2 n.price hibdec
                exact hmax2 p lvp hp
        have hOTH : BestAskWf bC := by
          refine bestAskWf_congr hCobf hCoq ?_ hwf.bask
          intro p
          exact hCget_other Side.Ask p (fun hc => by rw [hside] at hc; exact Side.noConfusion hc.1)
        refine cancel_assemble_retained hwf hn hlvS hseg hnd hsegB hcnt12 hL2tot h12 hBnextH hupd_other hpskeep hprev_key hnext_key hBqty ?_ hCgetp hCget_other ?_ ?_ hKEY hOTH
        · rw [hbC2]
          show (bB.setLevel n.side n.price (cancelLvl2 lvS n)).orders = bB.orders
          exact hs4ord
        · intro sd'
          have hg : bC.gridOf sd' = (bB.setLevel n.side n.price (cancelLvl2 lvS n)).gridOf sd' := by
            rw [hbC2]
            cases sd' <;> rfl
          rw [hg]
          exact hb4gw sd'
        · intro sd'
          have hg : bC.gridOf sd' = (bB.setLevel n.side n.price (cancelLvl2 lvS n)).gridOf sd' := by
            rw [hbC2]
            cases sd' <;> rfl
          have ho : bC.ovOf sd' = (bB.setLevel n.side n.price (cancelLvl2 lvS n)).ovOf sd' := by
            rw [hbC2]
            cases sd' <;> rfl
          rw [hg, ho]
          exact hb4ow sd'
      | Ask =>
        have hbC2 : bC = { bB.setLevel n.side n.price (cancelLvl2 lvS n) with best_ask_qty := (cancelLvl2 lvS n).total_qty } := by
          rw [hbC, hside]
        have hibdec : b.best_ask = some n.price := by
          have hx := (cancelIsBest_true_ask hside).1 hib
          rw [hBba] at hx
          exact hx
        have hlitget : ∀ sd' q, bC.getLevel? sd' q = (bB.setLevel n.side n.price (cancelLvl2 lvS n)).getLevel? sd' q := by
          intro sd' q
          rw [hbC2]
          exact getLevel?_congr (fun sd => by cases sd <;> rfl) (fun sd => by cases sd <;> rfl) sd' q
        have hCgetp : bC.getLevel? n.side n.price = some (cancelLvl2 lvS n) := by
          rw [hlitget]
          exact hb4getp
        have hCget_other : ∀ sd' q, ¬(sd' = n.side ∧ q = n.price) → bC.getLevel? sd' q = b.getLevel? sd' q := by
          intro sd' q hne
          rw [hlitget]
          exact hb4get_other sd' q hne
        have hCbb : bC.best_ask = some n.price := by
          rw [hbC2]
          show (bB.setLevel n.side n.price (cancelLvl2 lvS n)).best_ask = some n.price
          rw [hs4ba, hBba]
          exact hibdec
        have hCq : bC.best_ask_qty = (cancelLvl2 lvS n).total_qty := by
          rw [hbC2]
        have hCobf : bC.best_bid = b.best_bid := by
          rw [hbC2]
          show (bB.setLevel n.side n.price (cancelLvl2 lvS n)).best_bid = b.best_bid
          rw [hs4bb, hBbb]
        have hCoq : bC.best_bid_qty = b.best_bid_qty := by
          rw [hbC2]
          show (bB.setLevel n.side n.price (cancelLvl2 lvS n)).best_bid_qty = b.best_bid_qty
          rw [hs4bbq, hBbbq]
        have hKEY : BestAskWf bC := by
          refine ⟨?_, ?_⟩
          · intro hcon
            rw [hCbb] at hcon
            cases hcon
          · intro bp hbp
            rw [hCbb] at hbp
            injection hbp with hbp
            subst hbp
            refine ⟨cancelLvl2 lvS n, ?_, hCq, ?_⟩
            · rw [← hside]
              exact hCgetp
            · intro p lvp hp
              by_cases hpk : p = n.price
              · exact le_of_eq hpk.symm
              · rw [hCget_other Side.Ask p (fun hc => hpk hc.2)] at hp
                obtain ⟨lvb2, hlvb2, hqb2, hmax2⟩ := hwf.bask.2 n.price hibdec
                exact hmax2 p lvp hp
        have hOTH : BestBidWf bC := by
          refine bestBidWf_congr hCobf hCoq ?_ hwf.bbid
          intro p
          exact hCget_other Side.Bid p (fun hc => by rw [hside] at hc; exact Side.noConfusion hc.1)
        refine cancel_assemble_retained hwf hn hlvS hseg hnd hsegB hcnt12 hL2tot h12 hBnextH hupd_other hpskeep hprev_key hnext_key hBqty ?_ hCgetp hCget_other ?_ ?_ hOTH hKEY
        · rw [hbC2]
          show (bB.setLevel n.side n.price (cancelLvl2 lvS n)).orders = bB.orders
          exact hs4ord
        · intro sd'
          have hg : bC.gridOf sd' = (bB.setLevel n.side n.price (cancelLvl2 lvS n)).gridOf sd' := by
            rw [hbC2]
            cases sd' <;> rfl
          rw [hg]
          exact hb4gw sd'
        · intro sd'
          have hg : bC.gridOf sd' = (bB.setLevel n.side n.price (cancelLvl2 lvS n)).gridOf sd' := by
            rw [hbC2]
            cases sd' <;> rfl
          have ho : bC.ovOf sd' = (bB.setLevel n.side n.price (cancelLvl2 lvS n)).ovOf sd' := by
            rw [hbC2]
            cases sd' <;> rfl
          rw [hg, ho]
          exact hb4ow sd'
    · rw [if_neg hib] at hbC
      cases hside : n.side with
      | Bid =>
        have hnbb : b.best_bid ≠ some n.price := by
          intro hc
          refine hib ((cancelIsBest_true_bid hside).2 ?_)
          rw [hBbb]
          exact hc
        have hCgetp : bC.getLevel? n.side n.price = some (cancelLvl2 lvS n) := by
          rw [hbC]
          exact hb4getp
        have hCget_other : ∀ sd' q, ¬(sd' = n.side ∧ q = n.price) → bC.getLevel? sd' q = b.getLevel? sd' q := by
          intro sd' q hne
          rw [hbC]
          exact hb4get_other sd' q hne
        have hCbb : bC.best_bid = b.best_bid := by
          rw [hbC, hs4bb, hBbb]
        have hCq : bC.best_bid_qty = b.best_bid_qty := by
          rw [hbC, hs4bbq, hBbbq]
        have hCobf : bC.best_ask = b.best_ask := by
          rw [hbC, hs4ba, hBba]
        have hCoq : bC.best_ask_qty = b.best_ask_qty := by
          rw [hbC, hs4baq, hBbaq]
        have hKEY : BestBidWf bC := by
          refine ⟨?_, ?_⟩
          · intro hcon
            rw [hCbb] at hcon
            exact False.elim ((hwf.bbid.1 hcon).1 n.price lvS
              (by rw [← hside]; exact hlvS))
          · intro bp hbp
            rw [hCbb] at hbp
            obtain ⟨lvb, hlvb, hqb, hmax⟩ := hwf.bbid.2 bp hbp
            have hbpk : bp ≠ n.price := by
              intro hc
              refine hnbb ?_
              rw [← hc]
              exact hbp
            refine ⟨lvb, ?_, ?_, ?_⟩
            · rw [hCget_other Side.Bid bp (fun hc => hbpk hc.2)]
              exact hlvb
            · rw [hCq]
              exact hqb
            · intro p lvp hp
              by_cases hpk : p = n.price
              · subst hpk
                exact hmax n.price lvS (by rw [← hside]; exact hlvS)
              · rw [hCget_other Side.Bid p (fun hc => hpk hc.2)] at hp
                exact hmax p lvp hp
        have hOTH : BestAskWf bC := by
          refine bestAskWf_congr hCobf hCoq ?_ hwf.bask
          intro p
          exact hCget_other Side.Ask p (fun hc => by rw [hside] at hc; exact Side.noConfusion hc.1)
        refine cancel_assemble_retained hwf hn hlvS hseg hnd hsegB hcnt12 hL2tot h12 hBnextH hupd_other hpskeep hprev_key hnext_key hBqty ?_ hCgetp hCget_other ?_ ?_ hKEY hOTH
        · rw [hbC]
          exact hs4ord
        · intro sd'
          rw [hbC]
          exact hb4gw sd'
        · intro sd'
          rw [hbC]
          exact hb4ow sd'
      | Ask =>
        have hnbb : b.best_ask ≠ some n.price := by
          intro hc
          refine hib ((cancelIsBest_true_ask hside).2 ?_)
          rw [hBba]
          exact hc
        have hCgetp : bC.getLevel? n.side n.price = some (cancelLvl2 lvS n) := by
          rw [hbC]
          exact hb4getp
        have hCget_other : ∀ sd' q, ¬(sd' = n.side ∧ q = n.price) → bC.getLevel? sd' q = b.getLevel? sd' q := by
          intro sd' q hne
          rw [hbC]
          exact hb4get_other sd' q hne
        have hCbb : bC.best_ask = b.best_ask := by
          rw [hbC, hs4ba, hBba]
        have hCq : bC.best_ask_qty = b.best_ask_qty := by
          rw [hbC, hs4baq, hBbaq]
        have hCobf : bC.best_bid = b.best_bid := by
          rw [hbC, hs4bb, hBbb]
        have hCoq : bC.best_bid_qty = b.best_bid_qty := by
          rw [hbC, hs4bbq, hBbbq]
        have hKEY : BestAskWf bC := by
          refine ⟨?_, ?_⟩
          · intro hcon
            rw [hCbb] at hcon
            exact False.elim ((hwf.bask.1 hcon).1 n.price lvS
              (by rw [← hside]; exact hlvS))
          · intro bp hbp
            rw [hCbb] at hbp
            obtain ⟨lvb, hlvb, hqb, hmax⟩ := hwf.bask.2 bp hbp
            have hbpk : bp ≠ n.price := by
              intro hc
              refine hnbb ?_
              rw [← hc]
              exact hbp
            refine ⟨lvb, ?_, ?_, ?_⟩
            · rw [hCget_other Side.Ask bp (fun hc => hbpk hc.2)]
              exact hlvb
            · rw [hCq]
              exact hqb
            · intro p lvp hp
              by_cases hpk : p = n.price
              · subst hpk
                exact hmax n.price lvS (by rw [← hside]; exact hlvS)
              · rw [hCget_other Side.Ask p (fun hc => hpk hc.2)] at hp
                exact hmax p lvp hp
        have hOTH : BestBidWf bC := by
          refine bestBidWf_congr hCobf hCoq ?_ hwf.bbid
          intro p
          exact hCget_other Side.Bid p (fun hc => by rw [hside] at hc; exact Side.noConfusion hc.1)
        refine cancel_assemble_retained hwf hn hlvS hseg hnd hsegB hcnt12 hL2tot h12 hBnextH hupd_other hpskeep hprev_key hnext_key hBqty ?_ hCgetp hCget_other ?_ ?_ hOTH hKEY
        · rw [hbC]
          exact hs4ord
        · intro sd'
          rw [hbC]
          exact hb4gw sd'
        · intro sd'
          rw [hbC]
          exact hb4ow sd'


theorem cancel_wf {b : InstrumentBook} (hwf : IBWf b) (h : Handle) :
    IBWf (b.cancel h) := by
  rw [cancel_eq_decomp]
  unfold cancelDecomp
  cases hn : b.orders.nodes h with
  | none =>
    dsimp only
    exact hwf
  | some n =>
    dsimp only
    exact cancel_wf_aux hwf hn rfl rfl

theorem withCapacity_wf : IBWf InstrumentBook.withCapacity := by
  have hg : GridWf (PriceGrid.new 1 16384) := ⟨rfl, rfl, fun _ i => rfl, fun i _ => rfl⟩
  have hgetnone : ∀ sd p, InstrumentBook.withCapacity.getLevel? sd p = none := by
    intro sd p
    rw [getLevel?_eq]
    have hgl : (InstrumentBook.withCapacity.gridOf sd).getL p = none := by
      cases sd <;> rfl
    rw [hgl]
    cases sd <;> rfl
  refine ⟨?_, ?_, ?_, ?_, ?_, ?_⟩
  · intro sd
    cases sd <;> exact hg
  · intro sd
    cases sd <;> exact ⟨List.Pairwise.nil, (fun p l hc => nomatch hc), (fun _ => rfl)⟩
  · intro sd p lv hlv
    rw [hgetnone] at hlv
    cases hlv
  · constructor
    · intro j _
      rfl
    · intro j nd hj
      cases hj
  · constructor
    · intro _
      refine ⟨?_, rfl⟩
      intro p lv hlv
      rw [hgetnone] at hlv
      cases hlv
    · intro bp hbp
      cases hbp
  · constructor
    · intro _
      refine ⟨?_, rfl⟩
      intro p lv hlv
      rw [hgetnone] at hlv
      cases hlv
    · intro ap hap
      cases hap

/-- Every stored instrument book is well-formed. -/
def OBWf (ob : OrderBook) : Prop :=
  ∀ instr bk, alFind? ob.books instr = some bk → IBWf bk

theorem alFind?_alInsert {α : Type} (l : List (Nat × α)) (k : Nat) (v : α) (i : Nat) :
    alFind? (alInsert l k v) i = if i = k then some v else alFind? l i := by
  induction l with
  | nil =>
    show (if i = k then some v else alFind? [] i) = _
    rfl
  | cons qw rest ih =>
    obtain ⟨q, w⟩ := qw
    show alFind? (if k = q then (k, v) :: rest else (q, w) :: alInsert rest k v) i = _
    by_cases hkq : k = q
    · subst hkq
      rw [if_pos rfl]
      show (if i = k then some v else alFind? rest i) = _
      by_cases hik : i = k
      · rw [if_pos hik, if_pos hik]
      · rw [if_neg hik, if_neg hik]
        show _ = if i = k then some w else alFind? rest i
        rw [if_neg hik]
    · rw [if_neg hkq]
      show (if i = q then some w else alFind? (alInsert rest k v) i) = _
      by_cases hiq : i = q
      · have hik : i ≠ k := by
          intro hc
          exact hkq (hc ▸ hiq : k = q)
        rw [if_pos hiq, if_neg hik]
        show _ = if i = q then some w else alFind? rest i
        rw [if_pos hiq]
      · rw [if_neg hiq, ih]
        by_cases hik : i = k
        · rw [if_pos hik, if_pos hik]
        · rw [if_neg hik, if_neg hik]
          show _ = if i = q then some w else alFind? rest i
          rw [if_neg hiq]
  
theorem getBook_wf {ob : OrderBook} (hwf : OBWf ob) (instr : Nat) :
    IBWf (ob.getBook instr) := by
  unfold OrderBook.getBook
  cases hfind : alFind? ob.books instr with
  | none => exact withCapacity_wf
  | some bk => exact hwf instr bk hfind

theorem obwf_insert {ob : OrderBook} (hwf : OBWf ob) {books' : List (Nat × InstrumentBook)}
    {k : Nat} {bk : InstrumentBook} (hb : books' = alInsert ob.books k bk)
    (hbk : IBWf bk) : ∀ instr bk', alFind? books' instr = some bk' → IBWf bk' := by
  intro instr bk' hfind
  rw [hb, alFind?_alInsert] at hfind
  by_cases hik : instr = k
  · rw [if_pos hik] at hfind
    injection hfind with hfind
    exact hfind ▸ hbk
  · rw [if_neg hik] at hfind
    exact hwf instr bk' hfind

theorem applyEvent_wf {ob : OrderBook} (hwf : OBWf ob) (ev : Event) :
    OBWf (ob.applyEvent ev) := by
  cases ev with
  | add oid instr px qty side =>
    exact obwf_insert hwf rfl (add_wf (getBook_wf hwf instr) px qty side)
  | mod oid qty =>
    show OBWf (match alFind? ob.index oid with
      | none => ob
      | some ih => if qty > 0 then _ else _)
    cases hix : alFind? ob.index oid with
    | none => exact hwf
    | some ih =>
      dsimp only
      by_cases hq : qty > 0
      · rw [if_pos hq]
        exact obwf_insert hwf rfl (setQty_wf (getBook_wf hwf ih.1) ih.2 qty)
      · rw [if_neg hq]
        exact obwf_insert hwf rfl (cancel_wf (getBook_wf hwf ih.1) ih.2)
  | del oid =>
    show OBWf (match alFind? ob.index oid with | none => ob | some ih => _)
    cases hix : alFind? ob.index oid with
    | none => exact hwf
    | some ih =>
      dsimp only
      exact obwf_insert hwf rfl (cancel_wf (getBook_wf hwf ih.1) ih.2)
  | trade instr px qty maker taker =>
    show OBWf (if ({ ob with last_instr := some instr } : OrderBook).consume_trades
      then _ else _)
    by_cases hct : ({ ob with last_instr := some instr } : OrderBook).consume_trades = true
    · rw [if_pos hct]
      cases maker with
      | none => exact hwf
      | some oid =>
        dsimp only
        cases hix : alFind? ({ ob with last_instr := some instr } : OrderBook).index oid with
        | none => exact hwf
        | some mh =>
          dsimp only
          have hwf' : OBWf ({ ob with last_instr := some instr } : OrderBook) := hwf
          by_cases hpos : max ((match (({ ob with last_instr := some instr } : OrderBook).getBook mh.1).orders.nodes mh.2 with
              | some n => n.qty
              | none => 0) - qty) 0 > 0
          · rw [if_pos hpos]
            exact obwf_insert hwf' rfl
              (setQty_wf (getBook_wf hwf' mh.1) mh.2 _)
          · rw [if_neg hpos]
            exact obwf_insert hwf' rfl (cancel_wf (getBook_wf hwf' mh.1) mh.2)
    · rw [if_neg hct]
      exact hwf
  | heartbeat => exact hwf

theorem applyEvents_wf {ob : OrderBook} (hwf : OBWf ob) (evs : List Event) :
    OBWf (ob.applyEvents evs) := by
  induction evs generalizing ob with
  | nil => exact hwf
  | cons ev rest ih => exact ih (applyEvent_wf hwf ev)

theorem init_wf (ct : Bool) : OBWf (OrderBook.init ct) := by
  intro instr bk hbk
  cases hbk

theorem reachable_wf {ob : OrderBook} (hr : Reachable ob) : OBWf ob := by
  obtain ⟨ct, evs, rfl⟩ := hr
  exact applyEvents_wf (init_wf ct) evs

theorem reachable_book_wf {ob : OrderBook} (hr : Reachable ob) (instr : Nat) :
    IBWf (ob.getBook instr) := getBook_wf (reachable_wf hr) instr

/-- C2: after any sequence of events applied from an empty book, the cached
best bid price of every instrument book is the maximum price over all
non-empty bid levels reachable through grid-then-overflow lookup (and the
cached best ask the minimum over non-empty ask levels), the cached best
quantity is that level's total quantity, and a side with no non-empty level
caches `none` with quantity 0. -/
theorem C2_cached_best (ob : OrderBook) (hr : Reachable ob) (instr : Nat) :
    (((ob.getBook instr).best_bid = none →
       (∀ p lv, (ob.getBook instr).getLevel? Side.Bid p = some lv →
         lv.isEmpty = false → False) ∧
       (ob.getBook instr).best_bid_qty = 0) ∧
     (∀ bp, (ob.getBook instr).best_bid = some bp →
       ∃ lv, (ob.getBook instr).getLevel? Side.Bid bp = some lv ∧ lv.isEmpty = false ∧
         (ob.getBook instr).best_bid_qty = lv.total_qty ∧
         (∀ p lv', (ob.getBook instr).getLevel? Side.Bid p = some lv' →
           lv'.isEmpty = false → p ≤ bp))) ∧
    (((ob.getBook instr).best_ask = none →
       (∀ p lv, (ob.getBook instr).getLevel? Side.Ask p = some lv →
         lv.isEmpty = false → False) ∧
       (ob.getBook instr).best_ask_qty = 0) ∧
     (∀ ap, (ob.getBook instr).best_ask = some ap →
       ∃ lv, (ob.getBook instr).getLevel? Side.Ask ap = some lv ∧ lv.isEmpty = false ∧
         (ob.getBook instr).best_ask_qty = lv.total_qty ∧
         (∀ p lv', (ob.getBook instr).getLevel? Side.Ask p = some lv' →
           lv'.isEmpty = false → ap ≤ p))) := by
  have hwf := getBook_wf (reachable_wf hr) instr
  refine ⟨⟨?_, ?_⟩, ⟨?_, ?_⟩⟩
  · intro hnone
    obtain ⟨hno, hq0⟩ := hwf.bbid.1 hnone
    exact ⟨fun p lv hlv _ => hno p lv hlv, hq0⟩
  · intro bp hbp
    obtain ⟨lv, hlv, hq, hmax⟩ := hwf.bbid.2 bp hbp
    exact ⟨lv, hlv, isEmpty_false_of_count (hwf.sides Side.Bid bp lv hlv).2, hq,
      fun p lv' hlv' _ => hmax p lv' hlv'⟩
  · intro hnone
    obtain ⟨hno, hq0⟩ := hwf.bask.1 hnone
    exact ⟨fun p lv hlv _ => hno p lv hlv, hq0⟩
  · intro ap hap
    obtain ⟨lv, hlv, hq, hmax⟩ := hwf.bask.2 ap hap
    exact ⟨lv, hlv, isEmpty_false_of_count (hwf.sides Side.Ask ap lv hlv).2, hq,
      fun p lv' hlv' _ => hmax p lv' hlv'⟩

/-- C3: in every reachable book state, every retained price level's
`total_qty` is the sum of the `qty` fields of the nodes along its FIFO
chain from `head` to `tail`, its `count` is the number of nodes on that
chain, and no level with `count = 0` is retained. -/
theorem C3_level_fifo (ob : OrderBook) (hr : Reachable ob) (instr : Nat)
    (sd : Side) (p : Int) (lv : Level)
    (hlv : (ob.getBook instr).getLevel? sd p = some lv) :
    (∃ hs, Seg (ob.getBook instr).orders.nodes p sd none lv.head hs lv.tail ∧
      lv.count = hs.length ∧
      lv.total_qty = sumQty (ob.getBook instr).orders.nodes hs) ∧
    lv.count ≠ 0 := by
  have hwf := getBook_wf (reachable_wf hr) instr
  obtain ⟨⟨hs, hseg, _, hcnt, hsum⟩, hnz⟩ := hwf.sides sd p lv hlv
  exact ⟨⟨hs, hseg, hcnt, hsum⟩, hnz⟩

theorem C2_cached_best_witness :
    Reachable ((OrderBook.init false).applyEvents [Event.add 1 0 100 5 Side.Bid]) ∧
    (((((OrderBook.init false).applyEvents [Event.add 1 0 100 5 Side.Bid]).getBook 0).best_bid = none →
       (∀ p lv, ((((OrderBook.init false).applyEvents [Event.add 1 0 100 5 Side.Bid]).getBook 0)).getLevel? Side.Bid p = some lv →
         lv.isEmpty = false → False) ∧
       ((((OrderBook.init false).applyEvents [Event.add 1 0 100 5 Side.Bid]).getBook 0)).best_bid_qty = 0) ∧
     (∀ bp, ((((OrderBook.init false).applyEvents [Event.add 1 0 100 5 Side.Bid]).getBook 0)).best_bid = some bp →
       ∃ lv, ((((OrderBook.init false).applyEvents [Event.add 1 0 100 5 Side.Bid]).getBook 0)).getLevel? Side.Bid bp = some lv ∧ lv.isEmpty = false ∧
         ((((OrderBook.init false).applyEvents [Event.add 1 0 100 5 Side.Bid]).getBook 0)).best_bid_qty = lv.total_qty ∧
         (∀ p lv', ((((OrderBook.init false).applyEvents [Event.add 1 0 100 5 Side.Bid]).getBook 0)).getLevel? Side.Bid p = some lv' →
           lv'.isEmpty = false → p ≤ bp))) ∧
    (((((OrderBook.init false).applyEvents [Event.add 1 0 100 5 Side.Bid]).getBook 0).best_ask = none →
       (∀ p lv, ((((OrderBook.init false).applyEvents [Event.add 1 0 100 5 Side.Bid]).getBook 0)).getLevel? Side.Ask p = some lv →
         lv.isEmpty = false → False) ∧
       ((((OrderBook.init false).applyEvents [Event.add 1 0 100 5 Side.Bid]).getBook 0)).best_ask_qty = 0) ∧
     (∀ ap, ((((OrderBook.init false).applyEvents [Event.add 1 0 100 5 Side.Bid]).getBook 0)).best_ask = some ap →
       ∃ lv, ((((OrderBook.init false).applyEvents [Event.add 1 0 100 5 Side.Bid]).getBook 0)).getLevel? Side.Ask ap = some lv ∧ lv.isEmpty = false ∧
         ((((OrderBook.init false).applyEvents [Event.add 1 0 100 5 Side.Bid]).getBook 0)).best_ask_qty = lv.total_qty ∧
         (∀ p lv', ((((OrderBook.init false).applyEvents [Event.add 1 0 100 5 Side.Bid]).getBook 0)).getLevel? Side.Ask p = some lv' →
           lv'.isEmpty = false → ap ≤ p))) :=
  ⟨⟨false, [Event.add 1 0 100 5 Side.Bid], rfl⟩,
    C2_cached_best ((OrderBook.init false).applyEvents [Event.add 1 0 100 5 Side.Bid])
      ⟨false, [Event.add 1 0 100 5 Side.Bid], rfl⟩ 0⟩

theorem C3_level_fifo_witness :
    (Reachable ((OrderBook.init false).applyEvents [Event.add 1 0 100 5 Side.Bid]) ∧
     ((((OrderBook.init false).applyEvents [Event.add 1 0 100 5 Side.Bid]).getBook 0).getLevel?
        Side.Bid 100 = some ⟨some 0, some 0, 5, 1⟩)) ∧
    ((∃ hs, Seg ((((OrderBook.init false).applyEvents [Event.add 1 0 100 5 Side.Bid]).getBook 0)).orders.nodes
        100 Side.Bid none (some 0) hs (some 0) ∧
        1 = hs.length ∧
        (5 : Int) = sumQty ((((OrderBook.init false).applyEvents [Event.add 1 0 100 5 Side.Bid]).getBook 0)).orders.nodes hs) ∧
      (1 : Nat) ≠ 0) :=
  ⟨⟨⟨false, [Event.add 1 0 100 5 Side.Bid], rfl⟩, rfl⟩,
    C3_level_fifo ((OrderBook.init false).applyEvents [Event.add 1 0 100 5 Side.Bid])
      ⟨false, [Event.add 1 0 100 5 Side.Bid], rfl⟩ 0 Side.Bid 100 ⟨some 0, some 0, 5, 1⟩ rfl⟩


/-! ### Snapshot export / import (claim C7) -/

theorem setSlot_span (g : PriceGrid) (i : Nat) (v : Option Level) :
    (g.setSlot i v).span = g.span := rfl

theorem initAround_span (g : PriceGrid) (p : Int) :
    (g.initAround p).span = g.span := rfl

theorem new_span (t : Int) (s : Nat) : (PriceGrid.new t s).span = s := rfl

theorem new_getL_none (p : Int) : (PriceGrid.new 1 16384).getL p = none := rfl

end Numi
